import Mathlib

/-!
Verification development for the `mesh-graph` halfedge mesh library.

The Rust sources are shallowly embedded: generational-arena ("slotmap")
collections become association lists paired with a fresh-key counter
(ids are modelled as `Nat` and are never reused, matching the
generational-key discipline for the operations verified here), secondary
maps become association lists, `f32` scalars are modelled by exact
rationals (`ℚ`), and `glam::Vec3` by triples of rationals.  The external
math library's `normalize` (which needs a square root) is kept as an
explicit function parameter, and the external parry3d BVH is modelled
only by the set of primitive slot indices it holds, since the library
itself is an external boundary collaborator.  Rust panics are modelled
by `Option`-valued results (`none` = panic), and the pervasive
"log-and-degrade" error discipline by `Option` values that merely skip
work.
-/

namespace MeshGraph

/-! ### Association-list primitives shared by arenas and secondary maps -/

/-- Lookup of the first entry with the given key. -/
def lookupE {α : Type} : List (Nat × α) → Nat → Option α
  | [], _ => none
  | (k, v) :: rest, key => if k = key then some v else lookupE rest key

/-- Update the value of the first entry with the given key (no-op when absent). -/
def updE {α : Type} (key : Nat) (v : α) : List (Nat × α) → List (Nat × α)
  | [] => []
  | (k, w) :: rest => if k = key then (k, v) :: rest else (k, w) :: updE key v rest

/-- Apply a function to the value of the first entry with the given key. -/
def modifyE {α : Type} (key : Nat) (f : α → α) : List (Nat × α) → List (Nat × α)
  | [] => []
  | (k, w) :: rest => if k = key then (k, f w) :: rest else (k, w) :: modifyE key f rest

/-- Remove every entry with the given key. -/
def eraseE {α : Type} (key : Nat) (l : List (Nat × α)) : List (Nat × α) :=
  l.filter (fun p => p.1 ≠ key)

@[simp] theorem lookupE_nil {α : Type} (key : Nat) : lookupE ([] : List (Nat × α)) key = none := rfl

@[simp] theorem lookupE_cons {α : Type} (k key : Nat) (v : α) (rest : List (Nat × α)) :
    lookupE ((k, v) :: rest) key = if k = key then some v else lookupE rest key := rfl

@[simp] theorem updE_nil {α : Type} (key : Nat) (v : α) : updE key v ([] : List (Nat × α)) = [] := rfl

@[simp] theorem updE_cons {α : Type} (key k : Nat) (v w : α) (rest : List (Nat × α)) :
    updE key v ((k, w) :: rest)
      = if k = key then (k, v) :: rest else (k, w) :: updE key v rest := rfl

@[simp] theorem modifyE_nil {α : Type} (key : Nat) (f : α → α) :
    modifyE key f ([] : List (Nat × α)) = [] := rfl

@[simp] theorem modifyE_cons {α : Type} (key k : Nat) (f : α → α) (w : α) (rest : List (Nat × α)) :
    modifyE key f ((k, w) :: rest)
      = if k = key then (k, f w) :: rest else (k, w) :: modifyE key f rest := rfl

theorem lookupE_append {α : Type} (l₁ l₂ : List (Nat × α)) (key : Nat) :
    lookupE (l₁ ++ l₂) key
      = ((lookupE l₁ key).rec (lookupE l₂ key) (fun v => some v) : Option α) := by
  induction l₁ with
  | nil => simp
  | cons p rest ih =>
    obtain ⟨k, v⟩ := p
    by_cases h : k = key <;> simp [h, ih]

theorem lookupE_append_of_isSome {α : Type} {l₁ : List (Nat × α)} {key : Nat}
    (h : (lookupE l₁ key).isSome) (l₂ : List (Nat × α)) :
    lookupE (l₁ ++ l₂) key = lookupE l₁ key := by
  rw [lookupE_append]
  cases hl : lookupE l₁ key with
  | none => rw [hl] at h; simp at h
  | some v => simp

theorem lookupE_append_of_none {α : Type} {l₁ : List (Nat × α)} {key : Nat}
    (h : lookupE l₁ key = none) (l₂ : List (Nat × α)) :
    lookupE (l₁ ++ l₂) key = lookupE l₂ key := by
  rw [lookupE_append, h]

/-- A key not appearing in the list looks up to `none`. -/
theorem lookupE_eq_none_of_not_mem_keys {α : Type} {l : List (Nat × α)} {key : Nat}
    (h : key ∉ l.map Prod.fst) : lookupE l key = none := by
  induction l with
  | nil => rfl
  | cons p rest ih =>
    obtain ⟨k, v⟩ := p
    simp only [List.map_cons, List.mem_cons] at h
    push_neg at h
    simp [Ne.symm h.1, ih h.2]

/-- Updating an entry to the value it already has is the identity. -/
theorem updE_self {α : Type} {l : List (Nat × α)} {key : Nat} {v : α}
    (h : lookupE l key = some v) : updE key v l = l := by
  induction l with
  | nil => rfl
  | cons p rest ih =>
    obtain ⟨k, w⟩ := p
    by_cases hk : k = key
    · simp only [lookupE_cons, if_pos hk] at h
      simp [hk, Option.some.inj h]
    · simp only [lookupE_cons, if_neg hk] at h
      simp [hk, ih h]

theorem lookupE_updE {α : Type} (key k : Nat) (v : α) (l : List (Nat × α)) :
    lookupE (updE key v l) k
      = if k = key ∧ (lookupE l key).isSome then some v else lookupE l k := by
  induction l with
  | nil => simp
  | cons p rest ih =>
    obtain ⟨k', w⟩ := p
    by_cases h1 : k' = key
    · subst h1
      by_cases h2 : k' = k
      · subst h2; simp
      · have : ¬(k = k') := fun hc => h2 hc.symm
        simp [h2, this, ih]
    · by_cases h2 : k' = k
      · have : ¬(k = key) := h2 ▸ h1
        simp [h1, h2, this, ih]
      · simp [h1, h2, ih]

theorem lookupE_modifyE {α : Type} (key k : Nat) (f : α → α) (l : List (Nat × α)) :
    lookupE (modifyE key f l) k
      = if k = key then (lookupE l key).map f else lookupE l k := by
  induction l with
  | nil => simp
  | cons p rest ih =>
    obtain ⟨k', w⟩ := p
    by_cases h1 : k' = key
    · subst h1
      by_cases h2 : k' = k
      · subst h2; simp
      · have : ¬(k = k') := fun hc => h2 hc.symm
        simp [h2, this, ih]
    · by_cases h2 : k' = k
      · have : ¬(k = key) := h2 ▸ h1
        simp [h1, h2, this, ih]
      · simp [h1, h2, ih]

/-- Modifying a key to a value it already holds is the identity. -/
theorem modifyE_self {α : Type} {l : List (Nat × α)} {key : Nat} {v : α} {f : α → α}
    (h : lookupE l key = some v) (hf : f v = v) : modifyE key f l = l := by
  induction l with
  | nil => rfl
  | cons p rest ih =>
    obtain ⟨k, w⟩ := p
    by_cases hk : k = key
    · simp only [lookupE_cons, if_pos hk] at h
      have hw : w = v := Option.some.inj h
      simp [hk, hw, hf]
    · simp only [lookupE_cons, if_neg hk] at h
      simp [hk, ih h]

@[simp] theorem lookupE_eraseE {α : Type} (key k : Nat) (l : List (Nat × α)) :
    lookupE (eraseE key l) k = if k = key then none else lookupE l k := by
  induction l with
  | nil => simp [eraseE]
  | cons p rest ih =>
    obtain ⟨k', w⟩ := p
    by_cases h1 : k' = key
    · subst h1
      by_cases h2 : k' = k
      · subst h2; simp [eraseE] at ih ⊢; simpa using ih
      · simp only [eraseE, List.filter_cons] at ih ⊢
        simp only [decide_not] at ih ⊢
        simp [h2, Ne.symm h2, ih]
    · simp only [eraseE, List.filter_cons, decide_not] at ih ⊢
      by_cases h2 : k' = k
      · subst h2; simp [h1, ih]
      · simp [h1, h2, ih]



/-! ### Generational arenas (slotmap) and secondary maps

`Arena` models a `slotmap::SlotMap`: entries in insertion order plus a
fresh-key counter.  Ids are `Nat` and never reused here, which matches
the generational-key guarantee that a removed key never aliases a later
insertion.  `SMap` models `slotmap::SecondaryMap` / hash maps keyed by
ids.  For the operations verified here every key passed to a secondary
map is either live or never-inserted, so `entry` is modelled as always
valid (vacant when absent). -/

structure Arena (α : Type) where
  entries : List (Nat × α)
  next : Nat
deriving DecidableEq

namespace Arena

def get {α : Type} (a : Arena α) (k : Nat) : Option α := lookupE a.entries k

/-- `SlotMap::insert`: allocate a fresh key. -/
def insert {α : Type} (a : Arena α) (v : α) : Arena α × Nat :=
  (⟨a.entries ++ [(a.next, v)], a.next + 1⟩, a.next)

/-- `SlotMap::insert_with_key`. -/
def insertWithKey {α : Type} (a : Arena α) (f : Nat → α) : Arena α × Nat :=
  (⟨a.entries ++ [(a.next, f a.next)], a.next + 1⟩, a.next)

/-- In-place update of a live slot (`map[k].field = v`); no-op when the key is
dead, which in Rust would be an index panic — all uses verified here are on
live keys. -/
def modify {α : Type} (a : Arena α) (k : Nat) (f : α → α) : Arena α :=
  ⟨modifyE k f a.entries, a.next⟩

/-- `SlotMap::remove` (the removed value is unused by the embedded code). -/
def remove {α : Type} (a : Arena α) (k : Nat) : Arena α :=
  ⟨eraseE k a.entries, a.next⟩

def len {α : Type} (a : Arena α) : Nat := a.entries.length

def containsKey {α : Type} (a : Arena α) (k : Nat) : Bool := (a.get k).isSome

/-- The slotmap invariant: every stored key is below the fresh-key counter. -/
def WF {α : Type} (a : Arena α) : Prop := ∀ k ∈ a.entries.map Prod.fst, k < a.next

/-- Inserting never disturbs other keys. -/
theorem get_insert_of_ne {α : Type} (a : Arena α) (v : α) {k : Nat} (h : k ≠ a.next) :
    (a.insert v).1.get k = a.get k := by
  simp only [insert, get]
  rw [lookupE_append]
  cases hl : lookupE a.entries k with
  | none => simp [Ne.symm h]
  | some w => simp

theorem get_insert_fresh {α : Type} {a : Arena α} (hwf : a.WF) (v : α) :
    (a.insert v).1.get a.next = some v := by
  have h : lookupE a.entries a.next = none :=
    lookupE_eq_none_of_not_mem_keys (fun hmem => absurd (hwf _ hmem) (lt_irrefl _))
  simp only [insert, get]
  rw [lookupE_append_of_none h]
  simp

theorem get_none_of_wf {α : Type} {a : Arena α} (hwf : a.WF) {k : Nat} (h : a.next ≤ k) :
    a.get k = none :=
  lookupE_eq_none_of_not_mem_keys (fun hmem => absurd (hwf _ hmem) (not_lt.mpr h))

theorem wf_insert {α : Type} {a : Arena α} (hwf : a.WF) (v : α) : (a.insert v).1.WF := by
  intro k hk
  simp only [insert, List.map_append, List.mem_append] at hk
  rcases hk with hk | hk
  · exact Nat.lt_succ_of_lt (hwf _ hk)
  · simp at hk
    subst hk
    exact Nat.lt_succ_self _

theorem wf_insertWithKey {α : Type} {a : Arena α} (hwf : a.WF) (f : Nat → α) :
    (a.insertWithKey f).1.WF := by
  intro k hk
  simp only [insertWithKey, List.map_append, List.mem_append] at hk
  rcases hk with hk | hk
  · exact Nat.lt_succ_of_lt (hwf _ hk)
  · simp at hk
    subst hk
    exact Nat.lt_succ_self _

@[simp] theorem get_modify {α : Type} (a : Arena α) (key k : Nat) (f : α → α) :
    (a.modify key f).get k = if k = key then (a.get key).map f else a.get k :=
  lookupE_modifyE key k f a.entries

theorem modify_self {α : Type} {a : Arena α} {key : Nat} {v : α} {f : α → α}
    (h : a.get key = some v) (hf : f v = v) : a.modify key f = a := by
  cases a with
  | mk entries next => simp only [modify, Arena.mk.injEq, and_true]; exact modifyE_self h hf

@[simp] theorem get_remove {α : Type} (a : Arena α) (key k : Nat) :
    (a.remove key).get k = if k = key then none else a.get k :=
  lookupE_eraseE key k a.entries

theorem modifyE_keys {α : Type} (key : Nat) (f : α → α) (l : List (Nat × α)) :
    (modifyE key f l).map Prod.fst = l.map Prod.fst := by
  induction l with
  | nil => rfl
  | cons p rest ih =>
    obtain ⟨k', w⟩ := p
    by_cases h : k' = key <;> simp [h, ih]

theorem wf_modify {α : Type} {a : Arena α} (hwf : a.WF) (key : Nat) (f : α → α) :
    (a.modify key f).WF := by
  intro k hk
  apply hwf
  cases a with
  | mk entries next =>
    simp only [modify] at hk
    rwa [modifyE_keys] at hk

theorem wf_remove {α : Type} {a : Arena α} (hwf : a.WF) (key : Nat) :
    (a.remove key).WF := by
  intro k hk
  apply hwf
  cases a with
  | mk entries next =>
    simp only [remove, eraseE] at hk
    rcases List.mem_map.mp hk with ⟨p, hp, hfst⟩
    exact List.mem_map.mpr ⟨p, List.mem_of_mem_filter hp, hfst⟩

/-- Executable check for `WF`. -/
def WFb {α : Type} (a : Arena α) : Bool := a.entries.all (fun p => decide (p.1 < a.next))

theorem wf_of_wfb {α : Type} {a : Arena α} (h : a.WFb = true) : a.WF := by
  intro k hk
  rcases List.mem_map.mp hk with ⟨p, hp, hfst⟩
  have := List.all_eq_true.mp h p hp
  subst hfst
  exact of_decide_eq_true this

end Arena

/-- Secondary map keyed by element ids. -/
structure SMap (α : Type) where
  entries : List (Nat × α)
deriving DecidableEq

namespace SMap

def get {α : Type} (s : SMap α) (k : Nat) : Option α := lookupE s.entries k

/-- Insert or overwrite. -/
def insert {α : Type} (s : SMap α) (k : Nat) (v : α) : SMap α :=
  if (lookupE s.entries k).isSome then ⟨updE k v s.entries⟩ else ⟨s.entries ++ [(k, v)]⟩

def remove {α : Type} (s : SMap α) (k : Nat) : SMap α := ⟨eraseE k s.entries⟩

def len {α : Type} (s : SMap α) : Nat := s.entries.length

def empty {α : Type} : SMap α := ⟨[]⟩

@[simp] theorem get_insert {α : Type} (s : SMap α) (key k : Nat) (v : α) :
    (s.insert key v).get k = if k = key then some v else s.get k := by
  simp only [insert, get]
  by_cases hs : (lookupE s.entries key).isSome
  · rw [if_pos hs, lookupE_updE]
    by_cases hk : k = key
    · simp [hk, hs]
    · simp [hk]
  · rw [if_neg hs, lookupE_append]
    by_cases hk : k = key
    · subst hk
      cases hl : lookupE s.entries k with
      | none => simp
      | some w => rw [hl] at hs; simp at hs
    · cases hl : lookupE s.entries k with
      | none => simp [Ne.symm hk, hk]
      | some w => simp [hk]

/-- Overwriting an entry with the value it already has is the identity. -/
theorem insert_self {α : Type} {s : SMap α} {key : Nat} {v : α}
    (h : s.get key = some v) : s.insert key v = s := by
  cases s with
  | mk entries =>
    simp only [insert]
    rw [if_pos (by simp [get] at h; simp [h])]
    simp only [SMap.mk.injEq]
    exact updE_self h

@[simp] theorem remove_get {α : Type} (s : SMap α) (key k : Nat) :
    (s.remove key).get k = if k = key then none else s.get k :=
  lookupE_eraseE key k s.entries

end SMap

/-! ### Scalars and vectors

`f32` scalars are modelled by exact rationals; `glam::Vec3` by triples.
The math library's operations used by the embedded code are given their
exact counterparts; `Vec3::normalize`, which requires a square root, is
threaded through the geometric algorithms as an explicit parameter. -/

abbrev Vec3 := ℚ × ℚ × ℚ

def vadd (a b : Vec3) : Vec3 := (a.1 + b.1, a.2.1 + b.2.1, a.2.2 + b.2.2)

def vsub (a b : Vec3) : Vec3 := (a.1 - b.1, a.2.1 - b.2.1, a.2.2 - b.2.2)

def vsmul (c : ℚ) (a : Vec3) : Vec3 := (c * a.1, c * a.2.1, c * a.2.2)

def vdot (a b : Vec3) : ℚ := a.1 * b.1 + a.2.1 * b.2.1 + a.2.2 * b.2.2

def vcross (a b : Vec3) : Vec3 :=
  (a.2.1 * b.2.2 - a.2.2 * b.2.1, a.2.2 * b.1 - a.1 * b.2.2, a.1 * b.2.1 - a.2.1 * b.1)

def vzero : Vec3 := (0, 0, 0)

/-- `Vec3::length_squared` / `distance_squared` building block. -/
def vlenSq (a : Vec3) : ℚ := vdot a a

def vdistSq (a b : Vec3) : ℚ := vlenSq (vsub a b)

/-- `f32::MAX` as an exact rational: `(2^24 - 1) * 2^104`. -/
def f32MAX : ℚ := ((2 : ℚ) ^ 24 - 1) * 2 ^ 104

/-! ### Core element model (`src/elements`) -/

/-- `Vertex`: one corner point; `outgoing_halfedge` is the canonical
outgoing halfedge, kept at a boundary halfedge when possible. -/
structure Vertex where
  outgoing_halfedge : Option Nat := none
deriving DecidableEq

/-- `Halfedge`: a directed edge pointing at `end_vertex`; the start
vertex is derived from the twin. -/
structure Halfedge where
  end_vertex : Nat
  face : Option Nat
  twin : Option Nat
  next : Option Nat
deriving DecidableEq

/-- `Face`: `halfedge` is one representative edge; `index` is the BVH
slot; `id` the face's own id. -/
structure Face where
  halfedge : Nat
  index : Nat
  id : Nat
deriving DecidableEq

/-- The mesh container.  Modelled from the spec: the current revision's
`MeshGraph` struct itself is not under `src/` (the `lib.rs` present is an
older revision using a `qbvh` field); its fields are reconstructed from
the spec's data model (§3) and from their uses in `src/src/ops/*.rs`:
three arenas, the `positions` and optional `vertex_normals` secondary
maps, the full per-vertex `outgoing_halfedges` adjacency map, the BVH
(modelled as its set of slot indices, the library being external), the
slot-index-to-face map and the monotone `next_index` counter. -/
structure Mesh where
  vertices : Arena Vertex
  halfedges : Arena Halfedge
  faces : Arena Face
  positions : SMap Vec3
  vertex_normals : Option (SMap Vec3)
  outgoing_halfedges : SMap (List Nat)
  bvh : List Nat
  index_to_face_id : SMap Nat
  next_index : Nat
deriving DecidableEq

/-- Modelled from the spec: `MeshGraph::new()` (used by the tests but not
under `src/`) produces the empty container — empty arenas, maps and BVH. -/
def Mesh.empty : Mesh :=
  ⟨⟨[], 0⟩, ⟨[], 0⟩, ⟨[], 0⟩, SMap.empty, none, SMap.empty, [], SMap.empty, 0⟩

/-- External BVH: remove a slot index. -/
def bvhRemove (b : List Nat) (idx : Nat) : List Nat := b.filter (· ≠ idx)

/-- External BVH: `insert_or_update_partially` — only the slot-index set is
modelled; the AABB passed by the caller is geometry owned by the external
library. -/
def bvhInsertOrUpdate (b : List Nat) (idx : Nat) : List Nat :=
  if idx ∈ b then b else b ++ [idx]


/-! ### Circular traversal iterator (`src/iter.rs`)

A faithful state machine for `CircularHalfedgesIterator`: `circNext`
mirrors `Iterator::next`, `circCollect` mirrors consuming the iterator
into a list (stopping at the first `None`, bounded by explicit fuel since
the Rust loop need not terminate for arbitrary step functions). -/

structure CircIter where
  start_halfedge : Option Nat
  current_halfedge : Option Nat
deriving DecidableEq

/-- `CircularHalfedgesIterator::new`. -/
def CircIter.new (start : Option Nat) : CircIter := ⟨start, none⟩

/-- One call of `Iterator::next` for the circular iterator. -/
def circNext (step : Nat → Option Nat) (it : CircIter) : CircIter × Option Nat :=
  match it.current_halfedge with
  | some current =>
    let nxt := step current
    if nxt = it.start_halfedge then ({ it with current_halfedge := nxt }, none)
    else ({ it with current_halfedge := nxt }, nxt)
  | none => ({ it with current_halfedge := it.start_halfedge }, it.start_halfedge)

/-- Item returned by the `n`-th call of `next` (counting from 0). -/
def circNth (step : Nat → Option Nat) (it : CircIter) : Nat → Option Nat
  | 0 => (circNext step it).2
  | n + 1 => circNth step (circNext step it).1 n

/-- Collect the iterator into a list, stopping at the first `none`
(`Iterator::collect`); `fuel` bounds the number of `next` calls, matching
the Rust loop whenever that loop terminates. -/
def circCollect (step : Nat → Option Nat) : Nat → CircIter → List Nat
  | 0, _ => []
  | fuel + 1, it =>
    match circNext step it with
    | (it', some h) => h :: circCollect step fuel it'
    | (_, none) => []

/-- The consuming loop over the iterator terminates: some call of `next`
returns `none`. -/
def CircTerminates (step : Nat → Option Nat) (start : Option Nat) : Prop :=
  ∃ n, circNth step (CircIter.new start) n = none

/-- Orbit of the step function from a starting halfedge:
`stepOrbit step s n` is the value after `n` applications of `step`. -/
def stepOrbit (step : Nat → Option Nat) (s : Nat) : Nat → Option Nat
  | 0 => some s
  | n + 1 => (stepOrbit step s n).bind step

/-! ### Element accessors (`src/elements`) -/

/-- Fuel used for all fan/face traversals: a terminating Rust traversal
yields pairwise-distinct halfedges, all but the last live, so it makes at
most `live + 1` yields; this bound dominates it. -/
def Mesh.fuel (m : Mesh) : Nat := m.halfedges.len + 2

namespace Halfedge

/-- `Halfedge::start_vertex`: the twin's end vertex. -/
def start_vertex (he : Halfedge) (m : Mesh) : Option Nat :=
  he.twin.bind (fun t => (m.halfedges.get t).map (·.end_vertex))

/-- `Halfedge::prev` (triangle meshes only): `next.next`. -/
def prev (he : Halfedge) (m : Mesh) : Option Nat :=
  he.next.bind (fun n => (m.halfedges.get n).bind (·.next))

/-- `Halfedge::ccw_rotated_neighbour`: twin of `prev`. -/
def ccw_rotated_neighbour (he : Halfedge) (m : Mesh) : Option Nat :=
  (he.prev m).bind (fun p => (m.halfedges.get p).bind (·.twin))

/-- `Halfedge::cw_rotated_neighbour`: `twin.next`. -/
def cw_rotated_neighbour (he : Halfedge) (m : Mesh) : Option Nat :=
  he.twin.bind (fun t => (m.halfedges.get t).bind (·.next))

/-- `Halfedge::is_boundary`. -/
def is_boundary (he : Halfedge) : Bool := he.face.isNone

/-- `Halfedge::length_squared`, defaulting to zero when an endpoint cannot
be resolved (the logged-error path). -/
def length_squared (he : Halfedge) (m : Mesh) : ℚ :=
  (do
    let sv ← he.start_vertex m
    let start ← m.positions.get sv
    let endp ← m.positions.get he.end_vertex
    pure (vdistSq start endp)).getD 0

end Halfedge

/-- Step function used by `Face::halfedges`: `he.next` of the looked-up
halfedge, `None` when the halfedge is gone. -/
def faceStep (m : Mesh) (he : Nat) : Option Nat :=
  (m.halfedges.get he).bind (·.next)

/-- Step function used by `Vertex::outgoing_halfedges`:
`cw_rotated_neighbour` of the looked-up halfedge. -/
def fanStep (m : Mesh) (he : Nat) : Option Nat :=
  (m.halfedges.get he).bind (·.cw_rotated_neighbour m)

namespace Face

/-- `Face::halfedges` consumed into a list. -/
def halfedgesList (f : Face) (m : Mesh) : List Nat :=
  circCollect (faceStep m) m.fuel (CircIter.new (some f.halfedge))

/-- `Face::vertices` consumed into a list (the `end_vertex` of each live
halfedge of the face, dead ids skipped). -/
def verticesList (f : Face) (m : Mesh) : List Nat :=
  (f.halfedgesList m).filterMap (fun he => (m.halfedges.get he).map (·.end_vertex))

/-- `Face::vertex_positions` consumed into a list. -/
def vertexPositionsList (f : Face) (m : Mesh) : List Vec3 :=
  (f.verticesList m).filterMap (fun v => m.positions.get v)

/-- `Face::normal`; `nrm` is the external math library's `Vec3::normalize`. -/
def normal (f : Face) (m : Mesh) (nrm : Vec3 → Vec3) : Option Vec3 :=
  let positions := f.vertexPositionsList m
  if positions.length < 3 then none
  else
    match positions with
    | p0 :: p1 :: p2 :: _ =>
      let a := vsub p1 p0
      let b := vsub p2 p0
      some (nrm (vcross a b))
    | _ => none

end Face

namespace Vertex

/-- `Vertex::outgoing_halfedges` consumed into a list (the fan walk by
`cw_rotated_neighbour` from the canonical outgoing halfedge). -/
def outgoingHalfedgesList (v : Vertex) (m : Mesh) : List Nat :=
  circCollect (fanStep m) m.fuel (CircIter.new v.outgoing_halfedge)

/-- `Vertex::incoming_halfedges` consumed into a list. -/
def incomingHalfedgesList (v : Vertex) (m : Mesh) : List Nat :=
  (v.outgoingHalfedgesList m).filterMap (fun he => (m.halfedges.get he).bind (·.twin))

/-- `Vertex::faces` consumed into a list. -/
def facesList (v : Vertex) (m : Mesh) : List Nat :=
  (v.outgoingHalfedgesList m).filterMap (fun he => (m.halfedges.get he).bind (·.face))

/-- `Vertex::neighbours` consumed into a list. -/
def neighboursList (v : Vertex) (m : Mesh) : List Nat :=
  (v.outgoingHalfedgesList m).filterMap (fun he => (m.halfedges.get he).map (·.end_vertex))

end Vertex


/-! ### Insertion primitives (`src/ops/insert.rs`) -/

/-- Return value of `insert_or_get_edge`. -/
structure InsertOrGetEdge where
  start_to_end_he_id : Nat
  twin_he_id : Nat
  new_start_to_end : Bool
  new_twin : Bool
deriving DecidableEq

/-- `InsertOrGetEdge::created_he_ids`. -/
def InsertOrGetEdge.created_he_ids (r : InsertOrGetEdge) : List Nat :=
  (if r.new_start_to_end then [r.start_to_end_he_id] else [])
    ++ (if r.new_twin then [r.twin_he_id] else [])

namespace Mesh

/-- `MeshGraph::insert_vertex`. -/
def insert_vertex (m : Mesh) (position : Vec3) : Mesh × Nat :=
  let (vs, vertex_id) := m.vertices.insert ⟨none⟩
  ({ m with
      vertices := vs
      positions := m.positions.insert vertex_id position
      outgoing_halfedges := m.outgoing_halfedges.insert vertex_id [] },
    vertex_id)

/-- `MeshGraph::insert_halfedge`: allocate the halfedge and append it to the
start vertex's full outgoing list (`entry(..).or_default().push(..)`). -/
def insert_halfedge (m : Mesh) (start_vertex end_vertex : Nat) : Mesh × Nat :=
  let (hes, he_id) := m.halfedges.insert ⟨end_vertex, none, none, none⟩
  let l := (m.outgoing_halfedges.get start_vertex).getD []
  ({ m with
      halfedges := hes
      outgoing_halfedges := m.outgoing_halfedges.insert start_vertex (l ++ [he_id]) },
    he_id)

/-- The `entry(..).or_insert_with(Vec::new)` part of `halfedge_from_to`:
materialise an empty adjacency entry when absent.  (`entry` returning `None`
for a stale generation cannot arise in the never-reused-id model.) -/
def ensureOutgoingEntry (m : Mesh) (v : Nat) : Mesh :=
  if (m.outgoing_halfedges.get v).isSome then m
  else { m with outgoing_halfedges := m.outgoing_halfedges.insert v [] }

/-- The `find` inside `halfedge_from_to`: first halfedge in the list that is
live and ends at `end_vertex`. -/
def findHeTo (m : Mesh) (l : List Nat) (end_vertex : Nat) : Option Nat :=
  l.find? (fun he_id =>
    match m.halfedges.get he_id with
    | some he => he.end_vertex = end_vertex
    | none => false)

/-- `MeshGraph::halfedge_from_to`. -/
def halfedge_from_to (m : Mesh) (start_vertex_id end_vertex_id : Nat) :
    Mesh × Option Nat :=
  let m' := m.ensureOutgoingEntry start_vertex_id
  (m', findHeTo m' ((m'.outgoing_halfedges.get start_vertex_id).getD []) end_vertex_id)

/-- `MeshGraph::insert_or_get_edge_inner`. -/
def insert_or_get_edge_inner (m : Mesh) (start_vertex_id end_vertex_id : Nat) :
    Mesh × Option InsertOrGetEdge :=
  let (m, he1_id) := m.halfedge_from_to start_vertex_id end_vertex_id
  let (m, he2_id) := m.halfedge_from_to end_vertex_id start_vertex_id
  match he1_id, he2_id with
  | some h1_id, some h2_id =>
    match m.halfedges.get h1_id, m.halfedges.get h2_id with
    | some _, some _ =>
      -- the twin-consistency check only logs, it never aborts
      (m, some ⟨h1_id, h2_id, false, false⟩)
    | _, _ => (m, none)
  | some h1_id, none =>
    let (m, h2_id) := m.insert_halfedge end_vertex_id start_vertex_id
    (m, some ⟨h1_id, h2_id, false, true⟩)
  | none, some h2_id =>
    let (m, h1_id) := m.insert_halfedge start_vertex_id end_vertex_id
    (m, some ⟨h1_id, h2_id, true, false⟩)
  | none, none => (m, none)

/-- `MeshGraph::insert_or_get_edge`. -/
def insert_or_get_edge (m : Mesh) (start_vertex_id end_vertex_id : Nat) :
    Mesh × InsertOrGetEdge :=
  let (m, inner) := m.insert_or_get_edge_inner start_vertex_id end_vertex_id
  let (m, ret) :=
    match inner with
    | some r => (m, r)
    | none =>
      let (m, start_to_end_he_id) := m.insert_halfedge start_vertex_id end_vertex_id
      let (m, twin_he_id) := m.insert_halfedge end_vertex_id start_vertex_id
      (m, ⟨start_to_end_he_id, twin_he_id, true, true⟩)
  let m := { m with halfedges :=
    m.halfedges.modify ret.start_to_end_he_id (fun he => { he with twin := some ret.twin_he_id }) }
  let m := { m with halfedges :=
    m.halfedges.modify ret.twin_he_id (fun he => { he with twin := some ret.start_to_end_he_id }) }
  let m :=
    match m.vertices.get start_vertex_id with
    | some v =>
      let vs := m.vertices.modify start_vertex_id
        (fun _ => { v with outgoing_halfedge := some ret.start_to_end_he_id })
      { m with vertices := vs }
    | none => m
  let m :=
    match m.vertices.get end_vertex_id with
    | some v =>
      let vs := m.vertices.modify end_vertex_id
        (fun _ => { v with outgoing_halfedge := some ret.twin_he_id })
      { m with vertices := vs }
    | none => m
  (m, ret)

/-- `MeshGraph::insert_face`. -/
def insert_face (m : Mesh) (he1_id he2_id he3_id : Nat) : Mesh × Nat :=
  let (fs, face_id) := m.faces.insertWithKey (fun id => ⟨he1_id, m.next_index, id⟩)
  let m := { m with
    faces := fs
    index_to_face_id := m.index_to_face_id.insert m.next_index face_id
    next_index := m.next_index + 1 }
  let wire := fun (mm : Mesh) (he_id next_he_id : Nat) =>
    { mm with halfedges :=
        mm.halfedges.modify he_id (fun he => { he with face := some face_id, next := some next_he_id }) }
  let m := wire m he1_id he2_id
  let m := wire m he2_id he3_id
  let m := wire m he3_id he1_id
  (m, face_id)

/-! ### Face-construction operators (`src/ops/create.rs`) -/

/-- `MeshGraph::boundary_he`. -/
def boundary_he (m : Mesh) (he_id : Nat) : Option Nat := do
  let he ← m.halfedges.get he_id
  if he.is_boundary then
    pure he_id
  else
    let twin_id ← he.twin
    let twin_he ← m.halfedges.get twin_id
    if twin_he.is_boundary then pure twin_id else none

end Mesh

/-- Return value of the `create_face...` methods. -/
structure CreateFace where
  face_id : Nat
  halfedge_ids : List Nat
  vertex_ids : List Nat
deriving DecidableEq

namespace Mesh

/-- `MeshGraph::create_face_from_positions`. -/
def create_face_from_positions (m : Mesh) (a b c : Vec3) : Mesh × CreateFace :=
  let (m, a_id) := m.insert_vertex a
  let (m, b_id) := m.insert_vertex b
  let (m, c_id) := m.insert_vertex c
  let (m, inserted_a) := m.insert_or_get_edge a_id b_id
  let (m, inserted_b) := m.insert_or_get_edge b_id c_id
  let (m, inserted_c) := m.insert_or_get_edge c_id a_id
  let (m, face_id) := m.insert_face inserted_a.start_to_end_he_id
      inserted_b.start_to_end_he_id inserted_c.start_to_end_he_id
  (m, ⟨face_id,
       inserted_a.created_he_ids ++ inserted_b.created_he_ids ++ inserted_c.created_he_ids,
       [a_id, b_id, c_id]⟩)

/-- `MeshGraph::create_face_from_halfedge_and_vertex`; `none` when the edge
already has two faces.  The intermediate lookups that the Rust code indexes
directly (`self.halfedges[he_a_id]`) are live whenever `boundary_he`
succeeded, so the `Option` bind models them exactly. -/
def create_face_from_halfedge_and_vertex (m : Mesh) (he_id vertex_id : Nat) :
    Mesh × Option CreateFace :=
  match m.boundary_he he_id with
  | none => (m, none)
  | some he_a_id =>
    match m.halfedges.get he_a_id with
    | none => (m, none)
    | some he_a =>
      match he_a.start_vertex m with
      | none => (m, none)
      | some start_vertex_id_he_a =>
        let end_vertex_id_he_a := he_a.end_vertex
        let (m, inserted_b) := m.insert_or_get_edge end_vertex_id_he_a vertex_id
        let (m, inserted_c) := m.insert_or_get_edge vertex_id start_vertex_id_he_a
        let (m, face_id) := m.insert_face he_a_id inserted_b.start_to_end_he_id
            inserted_c.start_to_end_he_id
        (m, some ⟨face_id, inserted_b.created_he_ids ++ inserted_c.created_he_ids, []⟩)

/-- `MeshGraph::create_face_from_halfedge_and_position`: the vertex is
inserted before the boundary check inside `..._and_vertex` runs. -/
def create_face_from_halfedge_and_position (m : Mesh) (he_id : Nat)
    (opposite_vertex_pos : Vec3) : Mesh × Option CreateFace :=
  let (m, vertex_id) := m.insert_vertex opposite_vertex_pos
  m.create_face_from_halfedge_and_vertex he_id vertex_id

end Mesh


/-! ### Deletion primitives (`src/ops/delete.rs`)

`unwrap_or_return!` early returns are modelled by `DRes.early` (carrying
the mesh as mutated so far, the returned id lists being empty), Rust
index panics by `DRes.panic`. -/

inductive DRes (σ : Type) where
  | panic : DRes σ
  | early : Mesh → DRes σ
  | ok : σ → DRes σ

/-- Short-circuiting fold: stops at the first `early`/`panic`. -/
def dfold {σ χ : Type} (f : σ → χ → DRes σ) : σ → List χ → DRes σ
  | s, [] => .ok s
  | s, x :: xs =>
    match f s x with
    | .ok s' => dfold f s' xs
    | .early mm => .early mm
    | .panic => .panic

/-- `HashSet::insert` on a list kept duplicate-free in insertion order. -/
def insertNew (l : List Nat) (x : Nat) : List Nat := if x ∈ l then l else l ++ [x]

namespace Mesh

/-- `MeshGraph::delete_only_vertex`. -/
def delete_only_vertex (m : Mesh) (vertex_id : Nat) : Mesh :=
  { m with
    outgoing_halfedges := m.outgoing_halfedges.remove vertex_id
    positions := m.positions.remove vertex_id
    vertex_normals := m.vertex_normals.map (·.remove vertex_id)
    vertices := m.vertices.remove vertex_id }

/-- First loop of `delete_face`: push the end vertex, then mark the halfedge
(and possibly its twin) for removal, or detach it from the face. -/
def dfMark (s : Mesh × List Nat × List Nat) (p : Nat × Halfedge) :
    DRes (Mesh × List Nat × List Nat) :=
  let (mm, verts, del) := s
  let he_id := p.1
  let he := p.2
  let verts' := verts ++ [he.end_vertex]
  match he.twin with
  | none => .early mm
  | some twin_id =>
    match mm.halfedges.get twin_id with
    | none => .early mm
    | some twin =>
      if twin.is_boundary then .ok (mm, verts', insertNew (insertNew del he_id) twin_id)
      else if twin.twin ≠ some he_id then .ok (mm, verts', insertNew del he_id)
      else
        let hes := mm.halfedges.modify he_id (fun h => { h with face := none, next := none })
        .ok ({ mm with halfedges := hes }, verts', del)

/-- Second loop of `delete_face`: a vertex all of whose recorded outgoing
halfedges are marked is fully disconnected and deleted. -/
def dfDeleteVertex (del : List Nat) (s : Mesh × List Nat) (v : Nat) :
    DRes (Mesh × List Nat) :=
  let (mm, dverts) := s
  match mm.outgoing_halfedges.get v with
  | none => .early mm
  | some outs =>
    if outs.all (fun he_id => he_id ∈ del) then
      .ok (mm.delete_only_vertex v, dverts ++ [v])
    else
      .ok (mm, dverts)

/-- Third loop of `delete_face`: repoint the canonical outgoing halfedge of
each marked halfedge's start vertex at a surviving fan member. -/
def dfFixOutgoing (del : List Nat) (mm : Mesh) (he_id : Nat) : DRes Mesh :=
  match mm.halfedges.get he_id with
  | none => .panic
  | some he =>
    match he.start_vertex mm with
    | none => .early mm
    | some start_v_id =>
      match mm.vertices.get start_v_id with
      | some v =>
        let cand := (v.outgoingHalfedgesList mm).find? (fun id => decide (id ∉ del))
        let vs := mm.vertices.modify start_v_id (fun _ => { v with outgoing_halfedge := cand })
        .ok { mm with vertices := vs }
      | none => .ok mm

/-- Fourth loop of `delete_face`: remove each marked halfedge from the arena
and from the touched vertices' adjacency lists. -/
def dfRemoveHe (verts : List Nat) (mm : Mesh) (he_id : Nat) : Mesh :=
  let mm := { mm with halfedges := mm.halfedges.remove he_id }
  verts.foldl (fun acc v =>
    match acc.outgoing_halfedges.get v with
    | some outs =>
      { acc with outgoing_halfedges := acc.outgoing_halfedges.insert v (outs.filter (· ≠ he_id)) }
    | none => acc) mm

/-- `MeshGraph::delete_face`; `none` models the Rust index panic at
`self.faces[face_id]`. -/
def delete_face (m : Mesh) (face_id : Nat) : Option (Mesh × List Nat × List Nat) :=
  let collected := m.halfedges.entries.filter (fun p => p.2.face = some face_id)
  match dfold dfMark (m, [], []) collected with
  | .panic => none
  | .early mm => some (mm, [], [])
  | .ok (mm, verts, del) =>
    match dfold (dfDeleteVertex del) (mm, []) verts with
    | .panic => none
    | .early mm => some (mm, [], [])
    | .ok (mm, dverts) =>
      match dfold (dfFixOutgoing del) mm del with
      | .panic => none
      | .early mm => some (mm, [], [])
      | .ok mm =>
        let mm := del.foldl (dfRemoveHe verts) mm
        match mm.faces.get face_id with
        | none => none
        | some f =>
          some ({ mm with bvh := bvhRemove mm.bvh f.index, faces := mm.faces.remove face_id },
                dverts, del)

/-- `MeshGraph::delete_only_halfedge`. -/
def delete_only_halfedge (m : Mesh) (he_id : Nat) : Mesh :=
  match m.halfedges.get he_id with
  | none => m
  | some he =>
    let m :=
      match he.start_vertex m with
      | some start_v_id =>
        match m.outgoing_halfedges.get start_v_id with
        | some hes =>
          { m with outgoing_halfedges :=
              m.outgoing_halfedges.insert start_v_id (hes.filter (· ≠ he_id)) }
        | none => m
      | none => m
    { m with halfedges := m.halfedges.remove he_id }

end Mesh

/-! ### Selection subsystem (`src/selection.rs`)

The three id sets are modelled as duplicate-free lists; resolution
returns `none` exactly where the Rust code's panicking arena indexing
(`mesh_graph.faces[*face]` etc.) would abort on a stale id. -/

structure Selection where
  vertices : List Nat
  halfedges : List Nat
  faces : List Nat
deriving DecidableEq

/-- `HashSet::extend`. -/
def extendSet (acc : List Nat) (l : List Nat) : List Nat := l.foldl insertNew acc

namespace Selection

/-- Face loop of `resolve_to_halfedges`: each selected face's halfedges;
panics (`none`) on a stale face id. -/
def resolveFacesToHes (m : Mesh) : List Nat → List Nat → Option (List Nat)
  | [], acc => some acc
  | f :: rest, acc =>
    match m.faces.get f with
    | none => none
    | some face => resolveFacesToHes m rest (extendSet acc (face.halfedgesList m))

/-- Vertex loop of `resolve_to_halfedges`: each selected vertex's outgoing
fan; panics (`none`) on a stale vertex id. -/
def resolveVertsToHes (m : Mesh) : List Nat → List Nat → Option (List Nat)
  | [], acc => some acc
  | v :: rest, acc =>
    match m.vertices.get v with
    | none => none
    | some vert => resolveVertsToHes m rest (extendSet acc (vert.outgoingHalfedgesList m))

/-- `Selection::resolve_to_halfedges`. -/
def resolve_to_halfedges (s : Selection) (m : Mesh) : Option (List Nat) :=
  match resolveFacesToHes m s.faces s.halfedges with
  | none => none
  | some acc => resolveVertsToHes m s.vertices acc

/-- Halfedge loop of `resolve_to_vertices`: both endpoints of each selected
halfedge (the start endpoint only when derivable); panics (`none`) on a
stale halfedge id. -/
def resolveHesToVerts (m : Mesh) : List Nat → List Nat → Option (List Nat)
  | [], acc => some acc
  | h :: rest, acc =>
    match m.halfedges.get h with
    | none => none
    | some he =>
      let acc :=
        match he.start_vertex m with
        | some sv => insertNew acc sv
        | none => acc
      resolveHesToVerts m rest (insertNew acc he.end_vertex)

/-- Face loop of `resolve_to_vertices`; panics (`none`) on a stale face id. -/
def resolveFacesToVerts (m : Mesh) : List Nat → List Nat → Option (List Nat)
  | [], acc => some acc
  | f :: rest, acc =>
    match m.faces.get f with
    | none => none
    | some face => resolveFacesToVerts m rest (extendSet acc (face.verticesList m))

/-- `Selection::resolve_to_vertices`. -/
def resolve_to_vertices (s : Selection) (m : Mesh) : Option (List Nat) :=
  match resolveHesToVerts m s.halfedges s.vertices with
  | none => none
  | some acc => resolveFacesToVerts m s.faces acc

/-- `SelectionOps::insert` / `remove` for each id kind. -/
def insertVertex (s : Selection) (v : Nat) : Selection :=
  { s with vertices := insertNew s.vertices v }

def removeVertex (s : Selection) (v : Nat) : Selection :=
  { s with vertices := s.vertices.filter (· ≠ v) }

def insertHalfedge (s : Selection) (h : Nat) : Selection :=
  { s with halfedges := insertNew s.halfedges h }

def removeHalfedge (s : Selection) (h : Nat) : Selection :=
  { s with halfedges := s.halfedges.filter (· ≠ h) }

def insertFace (s : Selection) (f : Nat) : Selection :=
  { s with faces := insertNew s.faces f }

def removeFace (s : Selection) (f : Nat) : Selection :=
  { s with faces := s.faces.filter (· ≠ f) }

end Selection


/-! ### Cleanup predicate used by the collapse subsystem
(`src/src/ops/cleanup/mod.rs`) -/

namespace Mesh

/-- Inner scan of `faces_share_all_vertices`: walk the second face's
vertices; `none` models a failed position lookup (whole predicate yields
`None`), `some true` a positional match, `some false` exhaustion. -/
def fsavScan (m : Mesh) (pos1 : Vec3) : List Nat → Option Bool
  | [] => some false
  | v2 :: rest =>
    match m.positions.get v2 with
    | none => none
    | some pos2 => if pos1 = pos2 then some true else fsavScan m pos1 rest

/-- Outer loop of `faces_share_all_vertices_inner`. -/
def fsavOuter (m : Mesh) (verts2 : List Nat) : List Nat → Option Unit
  | [] => some ()
  | v1 :: rest =>
    match m.positions.get v1 with
    | none => none
    | some pos1 =>
      match m.fsavScan pos1 verts2 with
      | none => none
      | some false => none
      | some true => m.fsavOuter verts2 rest

/-- `MeshGraph::faces_share_all_vertices_inner`. -/
def faces_share_all_vertices_inner (m : Mesh) (face_id1 face_id2 : Nat) : Option Unit := do
  let face1 ← m.faces.get face_id1
  let face2 ← m.faces.get face_id2
  m.fsavOuter (face2.verticesList m) (face1.verticesList m)

/-- `MeshGraph::faces_share_all_vertices`. -/
def faces_share_all_vertices (m : Mesh) (face_id1 face_id2 : Nat) : Bool :=
  (m.faces_share_all_vertices_inner face_id1 face_id2).isSome

end Mesh

/-! ### Edge-collapse subsystem (`src/ops/collapse.rs`)

`nrm` is the external math library's `Vec3::normalize` throughout. -/

namespace Mesh

/-- The per-neighbour validation loop at the end of
`can_collapse_edge_inner`: reject when a neighbour lies farther (squared)
from the collapse midpoint than `max_length_squared`, or when the
cross-product/normal-sign wedge test drops below the `0.1` tolerance. -/
def ccLoop (nrm : Vec3 → Vec3) (m : Mesh) (center normal : Vec3) (maxLenSq : ℚ) :
    Vec3 → List Nat → Option Unit
  | _, [] => some ()
  | prev_diff, n :: rest =>
    match m.positions.get n with
    | none => none
    | some npos =>
      let diff := vsub npos center
      if maxLenSq < vlenSq diff then none
      else if vdot (vcross (nrm diff) prev_diff) normal < 1 / 10 then none
      else m.ccLoop nrm center normal maxLenSq diff rest

/-- The fan walk of `Vertex::outgoing_halfedges` phrased over the halfedge
arena alone (the only mesh component it reads). -/
def fanNeighboursH (hes : Arena Halfedge) (canonical : Nat) : List Nat :=
  ((circCollect
      (fun h => (hes.get h).bind (fun hh => hh.twin.bind (fun t => (hes.get t).bind (·.next))))
      (hes.len + 2) (CircIter.new (some canonical))).drop 2).filterMap
    (fun he_id => (hes.get he_id).map (·.end_vertex))

/-- The fan neighbours gathered by `can_collapse_edge_inner` for one
endpoint: the outgoing fan starting at the freshly assigned canonical
halfedge, skipping the first two, mapped to their end vertices
(`Vertex.outgoingHalfedgesList ⟨some canonical⟩`, which only reads the
halfedge arena). -/
def ccNeighbours (m : Mesh) (canonical : Nat) : List Nat :=
  fanNeighboursH m.halfedges canonical

/-- `MeshGraph::can_collapse_edge_inner`.  The method takes `&mut self`: it
repoints both endpoint vertices' canonical outgoing halfedges before
walking their fans, so the (possibly mutated) mesh is returned alongside
the verdict. -/
def can_collapse_edge_inner (nrm : Vec3 → Vec3) (m : Mesh) (halfedge_id : Nat)
    (min_length_squared : ℚ) : Mesh × Option Unit :=
  match m.halfedges.get halfedge_id with
  | none => (m, none)
  | some he =>
    match he.start_vertex m with
    | none => (m, none)
    | some start_vertex_id =>
      match m.vertices.get start_vertex_id with
      | none => (m, none)
      | some sv =>
        let vs := m.vertices.modify start_vertex_id
          (fun _ => { sv with outgoing_halfedge := some halfedge_id })
        let m := { m with vertices := vs }
        -- `self.vertices[start_vertex_id].outgoing_halfedges(self).skip(2)`;
        -- the vertex just had its canonical halfedge set to `halfedge_id`
        let start_outgoing_vertex_ids := m.ccNeighbours halfedge_id
        match he.twin with
        | none => (m, none)
        | some twin_id =>
          let end_vertex_id := he.end_vertex
          match m.vertices.get end_vertex_id with
          | none => (m, none)
          | some ev =>
            let vs := m.vertices.modify end_vertex_id
              (fun _ => { ev with outgoing_halfedge := some twin_id })
            let m := { m with vertices := vs }
            let end_outgoing_vertex_ids := m.ccNeighbours twin_id
            let neighbours := start_outgoing_vertex_ids ++ end_outgoing_vertex_ids
            if neighbours.isEmpty then (m, none)
            else
              match m.positions.get start_vertex_id, m.positions.get end_vertex_id with
              | some start_pos, some end_pos =>
                let center := vsmul (1 / 2) (vadd start_pos end_pos)
                match neighbours.getLast? with
                | none => (m, none)
                | some last_n =>
                  match m.positions.get last_n with
                  | none => (m, none)
                  | some last_pos =>
                    let prev_diff := nrm (vsub last_pos center)
                    let normal0 : Option Vec3 :=
                      match he.face with
                      | none => some vzero
                      | some face_id =>
                        (m.faces.get face_id).bind fun f =>
                          (f.normal m nrm).map fun fn => vadd vzero fn
                    match normal0 with
                    | none => (m, none)
                    | some n0 =>
                      match m.halfedges.get twin_id with
                      | none => (m, none)
                      | some twin_he =>
                        let normal1 : Option Vec3 :=
                          match twin_he.face with
                          | none => some n0
                          | some face_id =>
                            (m.faces.get face_id).bind fun f =>
                              (f.normal m nrm).map fun fn => vadd n0 fn
                        match normal1 with
                        | none => (m, none)
                        | some nsum =>
                          if nsum = vzero then (m, none)
                          else
                            let normal := nrm nsum
                            let max_length_squared := min_length_squared * 5
                            (m, m.ccLoop nrm center normal max_length_squared prev_diff neighbours)
              | _, _ => (m, none)

/-- `MeshGraph::can_collapse_edge`. -/
def can_collapse_edge (nrm : Vec3 → Vec3) (m : Mesh) (halfedge_id : Nat)
    (min_length_squared : ℚ) : Mesh × Bool :=
  let (m, r) := m.can_collapse_edge_inner nrm halfedge_id min_length_squared
  (m, r.isSome)

/-- `MeshGraph::remove_halfedge_face`.  `DRes.early` carries the mesh of a
logged `None` return; `DRes.panic` models the `self.halfedges[..]` index
panics. -/
def remove_halfedge_face (m : Mesh) (halfedge_id : Nat) :
    DRes (Mesh × Nat × Nat × Nat) :=
  match m.halfedges.get halfedge_id with
  | none => .early m
  | some he =>
    match he.face with
    | none => .early m
    | some face_id =>
      match he.next with
      | none => .early m
      | some next_he_id =>
        match he.prev m with
        | none => .early m
        | some prev_he_id =>
          match m.halfedges.get next_he_id with
          | none => .panic
          | some next_he_ix =>
            match next_he_ix.twin with
            | none => .early m
            | some next_twin_id =>
              match m.halfedges.get prev_he_id with
              | none => .panic
              | some prev_he_ix =>
                match prev_he_ix.twin with
                | none => .early m
                | some prev_twin_id =>
                  -- the tolerant re-lookups of next/prev (both live here)
                  let next_he := next_he_ix
                  let prev_he := prev_he_ix
                  let next_end_v_id := next_he.end_vertex
                  let prev_end_v_id := prev_he.end_vertex
                  match m.vertices.get next_end_v_id with
                  | none => .early m
                  | some nv =>
                    let vs := m.vertices.modify next_end_v_id
                      (fun _ => { nv with outgoing_halfedge := next_he.next })
                    let m := { m with vertices := vs }
                    match m.vertices.get prev_end_v_id with
                    | none => .early m
                    | some pv =>
                      let vs := m.vertices.modify prev_end_v_id
                        (fun _ => { pv with outgoing_halfedge := prev_he.next })
                      let m := { m with vertices := vs }
                      match prev_he.start_vertex m with
                      | none => .early m
                      | some prev_start_v_id =>
                        match m.vertices.get prev_start_v_id with
                        | none => .early m
                        | some prev_start_v =>
                          let m :=
                            if prev_start_v.outgoing_halfedge = some prev_he_id then
                              let cand :=
                                match prev_he.ccw_rotated_neighbour m with
                                | some c => some c
                                | none => prev_he.cw_rotated_neighbour m
                              let vs := m.vertices.modify prev_start_v_id
                                (fun _ => { prev_start_v with outgoing_halfedge := cand })
                              { m with vertices := vs }
                            else m
                          match m.faces.get face_id with
                          | none => .early m
                          | some f =>
                            let m := { m with bvh := bvhRemove m.bvh f.index }
                            let m := { m with halfedges := m.halfedges.remove next_he_id }
                            let m := { m with halfedges := m.halfedges.remove prev_he_id }
                            let m := { m with faces := m.faces.remove face_id }
                            match m.halfedges.get next_twin_id with
                            | none => .early m
                            | some nt =>
                              let hes := m.halfedges.modify next_twin_id
                                (fun _ => { nt with twin := some prev_twin_id })
                              let m := { m with halfedges := hes }
                              match m.halfedges.get prev_twin_id with
                              | none => .early m
                              | some pt =>
                                let hes := m.halfedges.modify prev_twin_id
                                  (fun _ => { pt with twin := some next_twin_id })
                                let m := { m with halfedges := hes }
                                .ok (m, face_id, next_he_id, prev_he_id)

end Mesh


/-- `circular_tuple_windows::<(_, _)>`: consecutive pairs wrapping around. -/
def circularPairs (l : List Nat) : List (Nat × Nat) := l.zip (l.drop 1 ++ l.take 1)

namespace Mesh

/-- The flap-removal loop at the end of `collapse_edge` ("Remove flaps").
Tuples are consumed from the back (`Vec::pop`); on a match both faces are
deleted, the two exposed neighbour edges re-twinned, the canonical
pointers fixed, the following tuple discarded, and (when the match was on
the very first examined tuple) the wrap-around tuple at the front removed.
`none` models a panic (the `unwrap`s on the two exposed halfedges, a panic
inside `delete_face`, or `Vec::remove(0)` on an empty vector). -/
def flapLoop (m : Mesh) (start_vert_id : Nat) :
    List (Nat × Nat) → Bool → List Nat → List Nat → List Nat →
    Option (Mesh × List Nat × List Nat × List Nat)
  | tuples, first, rv, rh, rf =>
    match htup : tuples.getLast? with
    | none => some (m, rv, rh, rf)
    | some (face_id1, face_id2) =>
      if m.faces_share_all_vertices face_id1 face_id2 then
        -- face existence already checked by `faces_share_all_vertices`
        match m.faces.get face_id1, m.faces.get face_id2 with
        | some face1, some face2 =>
          let hof := extendSet (extendSet [] (face1.halfedgesList m)) (face2.halfedgesList m)
          match m.delete_face face_id1 with
          | none => none
          | some (m, vs1, hes1) =>
            let hof := hof.filter (· ∉ hes1)
            let rv := rv ++ vs1
            let rh := rh ++ hes1
            let rf := rf ++ [face_id1]
            match m.delete_face face_id2 with
            | none => none
            | some (m, vs2, hes2) =>
              let hof := hof.filter (· ∉ hes2)
              let rv := rv ++ vs2
              let rh := rh ++ hes2
              let rf := rf ++ [face_id2]
              match hof with
              | he_id1 :: he_id2 :: _ =>
                match m.halfedges.get he_id1 with
                | none => some (m, rv, rh, rf)
                | some he1 =>
                  match he1.twin with
                  | none => some (m, rv, rh, rf)
                  | some twin_id1 =>
                    match m.halfedges.get he_id2 with
                    | none => some (m, rv, rh, rf)
                    | some he2 =>
                      match he2.twin with
                      | none => some (m, rv, rh, rf)
                      | some twin_id2 =>
                        match m.halfedges.get twin_id1 with
                        | none => some (m, rv, rh, rf)
                        | some t1 =>
                          let hes := m.halfedges.modify twin_id1
                            (fun _ => { t1 with twin := some twin_id2 })
                          let m := { m with halfedges := hes }
                          match m.halfedges.get twin_id2 with
                          | none => some (m, rv, rh, rf)
                          | some t2 =>
                            let hes := m.halfedges.modify twin_id2
                              (fun _ => { t2 with twin := some twin_id1 })
                            let m := { m with halfedges := hes }
                            let m := { m with halfedges := m.halfedges.remove he_id1 }
                            let m := { m with halfedges := m.halfedges.remove he_id2 }
                            let rh := rh ++ [he_id1, he_id2]
                            match m.halfedges.get twin_id1 with
                            | none => none
                            | some t1x =>
                              let new_outgoing_he_id :=
                                if t1x.end_vertex = start_vert_id then twin_id2 else twin_id1
                              match m.vertices.get start_vert_id with
                              | none => some (m, rv, rh, rf)
                              | some sv =>
                                let vs := m.vertices.modify start_vert_id
                                  (fun _ => { sv with outgoing_halfedge := some new_outgoing_he_id })
                                let m := { m with vertices := vs }
                                match m.halfedges.get new_outgoing_he_id with
                                | none => some (m, rv, rh, rf)
                                | some noh =>
                                  match m.vertices.get noh.end_vertex with
                                  | none => some (m, rv, rh, rf)
                                  | some evx =>
                                    let vs := m.vertices.modify noh.end_vertex
                                      (fun _ => { evx with outgoing_halfedge := noh.twin })
                                    let m := { m with vertices := vs }
                                    if first then
                                      match hr2 : tuples.dropLast.dropLast with
                                      | [] => none
                                      | _ :: tail => m.flapLoop start_vert_id tail false rv rh rf
                                    else m.flapLoop start_vert_id tuples.dropLast.dropLast false rv rh rf
              | _ => none
        | _, _ => none
      else
        m.flapLoop start_vert_id tuples.dropLast false rv rh rf
  termination_by tuples _ _ _ _ => tuples.length
  decreasing_by
    all_goals
      have hlen : tuples.length ≠ 0 := by
        intro hc
        rw [List.length_eq_zero] at hc
        subst hc
        simp at htup
    · have hl2 := congrArg List.length hr2
      simp only [List.length_dropLast, List.length_cons] at hl2
      omega
    · simp only [List.length_dropLast]
      omega
    · simp only [List.length_dropLast]
      omega

/-- `MeshGraph::collapse_edge`.  `none` models a panic (direct arena
indexing on a dead id, or a panic in a callee); the `unwrap_or_return!`
early exits return the lists accumulated so far. -/
def collapse_edge (m : Mesh) (halfedge_id : Nat) :
    Option (Mesh × List Nat × List Nat × List Nat) :=
  match m.halfedges.get halfedge_id with
  | none => some (m, [], [], [])
  | some he =>
    match he.start_vertex m with
    | none => some (m, [], [], [])
    | some start_vert_id =>
      let end_vert_id := he.end_vertex
      match m.vertices.get end_vert_id with
      | none => none
      | some endv =>
        let end_outgoing_halfedges := endv.outgoingHalfedgesList m
        let end_incoming_halfedges := endv.incomingHalfedgesList m
        match m.positions.get start_vert_id with
        | none => some (m, [], [], [])
        | some start_pos =>
          match m.positions.get end_vert_id with
          | none => some (m, [], [], [])
          | some end_pos =>
            let center_pos := vsmul (1 / 2) (vadd start_pos end_pos)
            let step1 : DRes (Mesh × List Nat × List Nat × List Nat) :=
              if !he.is_boundary then
                match m.remove_halfedge_face halfedge_id with
                | .panic => .panic
                | .early mm => .early mm
                | .ok (mm, face_id, h1, h2) => .ok (mm, [], [h1, h2], [face_id])
              else .ok (m, [], [], [])
            match step1 with
            | .panic => none
            | .early mm => some (mm, [], [], [])
            | .ok (m, rv, rh, rf) =>
              let rh := rh ++ [halfedge_id]
              match he.twin with
              | none => some (m, rv, rh, rf)
              | some twin_id =>
                match m.halfedges.get twin_id with
                | none => some (m, rv, rh, rf)
                | some twin =>
                  let step2 : DRes (Mesh × List Nat × List Nat × List Nat) :=
                    if !twin.is_boundary then
                      match m.remove_halfedge_face twin_id with
                      | .panic => .panic
                      | .early mm => .early mm
                      | .ok (mm, face_id, h1, h2) => .ok (mm, rv, rh ++ [h1, h2], rf ++ [face_id])
                    else .ok (m, rv, rh, rf)
                  match step2 with
                  | .panic => none
                  | .early mm => some (mm, rv, rh, rf)
                  | .ok (m, rv, rh, rf) =>
                    let rh := rh ++ [twin_id]
                    let m := end_incoming_halfedges.foldl (fun acc inc =>
                      match acc.halfedges.get inc with
                      | some ihe =>
                        let hes := acc.halfedges.modify inc
                          (fun _ => { ihe with end_vertex := start_vert_id })
                        { acc with halfedges := hes }
                      | none => acc) m
                    let m := m.delete_only_vertex end_vert_id
                    let m := { m with halfedges := m.halfedges.remove halfedge_id }
                    let m := { m with halfedges := m.halfedges.remove twin_id }
                    let rh := rh ++ [twin_id]
                    match m.positions.get start_vert_id with
                    | none => none
                    | some _ =>
                      let m := { m with positions := m.positions.insert start_vert_id center_pos }
                      match m.vertices.get start_vert_id with
                      | none => none
                      | some sv =>
                        let cand := end_outgoing_halfedges.find?
                          (fun he_id => (m.halfedges.get he_id).isSome)
                        let vs := m.vertices.modify start_vert_id
                          (fun _ => { sv with outgoing_halfedge := cand })
                        let m := { m with vertices := vs }
                        let rv := rv ++ [end_vert_id]
                        match m.vertices.get start_vert_id with
                        | none => some (m, rv, rh, rf)
                        | some sv2 =>
                          let face_tuples := circularPairs (sv2.facesList m)
                          m.flapLoop start_vert_id face_tuples true rv rh rf

end Mesh


/-- `HashMap::insert` on an association list of collapse candidates. -/
def insertCand (cands : List (Nat × ℚ)) (he : Nat) (len : ℚ) : List (Nat × ℚ) :=
  if (lookupE cands he).isSome then updE he len cands else cands ++ [(he, len)]

/-- `HashMap::remove`. -/
def removeCand (cands : List (Nat × ℚ)) (he : Nat) : List (Nat × ℚ) := eraseE he cands

namespace Mesh

/-- Twin-deduplication pass at the top of
`collapse_until_edges_above_min_length`. -/
def dedupByTwin (m : Mesh) (resolved : List Nat) : List Nat :=
  resolved.foldl (fun dedup he =>
    let twin := (m.halfedges.get he).bind (·.twin)
    let twin_already_in :=
      match twin with
      | some t => t ∈ dedup
      | none => false
    if !twin_already_in then insertNew dedup he else dedup) []

/-- Candidate construction: keep deduplicated halfedges shorter than the
threshold, with their lengths.  `none` models the `self.halfedges[he]`
index panic on a stale selected id. -/
def buildCandidates (m : Mesh) (min_length_squared : ℚ) :
    List Nat → List (Nat × ℚ) → Option (List (Nat × ℚ))
  | [], cands => some cands
  | he :: rest, cands =>
    match m.halfedges.get he with
    | none => none
    | some heV =>
      let len := heV.length_squared m
      if len < min_length_squared then
        m.buildCandidates min_length_squared rest (insertCand cands he len)
      else
        m.buildCandidates min_length_squared rest cands

/-- The linear scan for the shortest candidate that passes
`can_collapse_edge` (which mutates the mesh, so the mesh is threaded
through); `&&` short-circuits, so the gate runs only on candidates that
improve on the current minimum. -/
def selectCandidate (nrm : Vec3 → Vec3) (m : Mesh) (min_length_squared : ℚ)
    (cands : List (Nat × ℚ)) : Mesh × Option Nat :=
  let r := cands.foldl (fun (acc : Mesh × ℚ × Option Nat) (c : Nat × ℚ) =>
    let (mm, min_len, min_he) := acc
    if c.2 < min_len then
      let (mm, ok) := mm.can_collapse_edge nrm c.1 min_length_squared
      if ok then (mm, c.2, some c.1) else (mm, min_len, min_he)
    else (mm, min_len, min_he)) (m, f32MAX, none)
  (r.1, r.2.2)

/-- Post-collapse bookkeeping over the surviving vertex's outgoing fan:
re-evaluate each edge against the threshold, drop twins from the
candidate set, schedule the adjacent face's BVH update, and put the edge
into the selection. -/
def refreshOutgoing (m : Mesh) (min_length_squared : ℚ) (sel : Selection)
    (cands : List (Nat × ℚ)) (outs : List Nat) :
    Mesh × Selection × List (Nat × ℚ) :=
  outs.foldl (fun (acc : Mesh × Selection × List (Nat × ℚ)) halfedge_id =>
    let (m, sel, cands) := acc
    match m.halfedges.get halfedge_id with
    | none => (m, sel, cands)
    | some heO =>
      let len := heO.length_squared m
      let cands :=
        if len < min_length_squared then insertCand cands halfedge_id len
        else removeCand cands halfedge_id
      let cands :=
        match heO.twin with
        | some t => removeCand cands t
        | none => cands
      let m :=
        match heO.face with
        | some face_id =>
          match m.faces.get face_id with
          | some f => { m with bvh := bvhInsertOrUpdate m.bvh f.index }
          | none => m
        | none => m
      (m, sel.insertHalfedge halfedge_id, cands)) (m, sel, cands)

/-- The `while` loop of `collapse_until_edges_above_min_length`, with
explicit fuel (the Rust loop's termination is not syntactic).  Returns
the list of halfedges actually collapsed (the trace) and, when neither a
panic (`none`) nor fuel exhaustion ends the run, the final mesh and
selection. -/
def collapseLoop (nrm : Vec3 → Vec3) (min_length_squared : ℚ) :
    Nat → Mesh → Selection → List (Nat × ℚ) → List Nat →
    List Nat × Option (Mesh × Selection)
  | 0, _, _, _, trace => (trace, none)
  | fuel + 1, m, sel, cands, trace =>
    if cands.isEmpty then (trace, some (m, sel))
    else
      let (m, min_he) := m.selectCandidate nrm min_length_squared cands
      match min_he with
      | none => (trace, some (m, sel))
      | some min_he_id =>
        match m.halfedges.get min_he_id with
        | none => (trace, none)
        | some heV =>
          let start_vertex := heV.start_vertex m
          match m.collapse_edge min_he_id with
          | none => (trace ++ [min_he_id], none)
          | some (m, verts, halfedges, faces) =>
            let trace := trace ++ [min_he_id]
            let cands := removeCand cands min_he_id
            let sel := verts.foldl Selection.removeVertex sel
            let (sel, cands) := halfedges.foldl
              (fun (acc : Selection × List (Nat × ℚ)) h =>
                (acc.1.removeHalfedge h, removeCand acc.2 h)) (sel, cands)
            let sel := faces.foldl Selection.removeFace sel
            match start_vertex with
            | some sv =>
              let outs := ((m.vertices.get sv).map (·.outgoingHalfedgesList m)).getD []
              let (m, sel, cands) := m.refreshOutgoing min_length_squared sel cands outs
              collapseLoop nrm min_length_squared fuel m sel cands trace
            | none =>
              collapseLoop nrm min_length_squared fuel m sel cands trace

/-- `MeshGraph::collapse_until_edges_above_min_length` (with explicit loop
fuel).  `none` models a panic — in particular resolving a selection that
holds stale ids. -/
def collapse_until_edges_above_min_length (nrm : Vec3 → Vec3) (fuel : Nat) (m : Mesh)
    (min_length_squared : ℚ) (sel : Selection) :
    List Nat × Option (Mesh × Selection) :=
  match sel.resolve_to_halfedges m with
  | none => ([], none)
  | some resolved =>
    let dedup := m.dedupByTwin resolved
    match m.buildCandidates min_length_squared dedup [] with
    | none => ([], none)
    | some cands => collapseLoop nrm min_length_squared fuel m sel cands []

end Mesh


/-! ### Delaunay-tetrahedralization import (`src/integrations/delaunay.rs`)

The external `Tds` is consumed only through its vertex list and its cells'
vertex-uuid lists; the uuid-to-index map built by the adapter is modelled
by presenting each cell directly as indices into the vertex-position
list. -/

/-- Generic association-list lookup (keys are sorted index triples here). -/
def lookupL {κ α : Type} [DecidableEq κ] : List (κ × α) → κ → Option α
  | [], _ => none
  | (k, v) :: rest, key => if k = key then some v else lookupL rest key

/-- Increment a counter entry, starting at 1 when absent
(`*face_count.entry(face).or_default() += 1`). -/
def bumpCount {κ : Type} [DecidableEq κ] (key : κ) :
    List (κ × Nat) → List (κ × Nat)
  | [] => [(key, 1)]
  | (k, n) :: rest => if k = key then (k, n + 1) :: rest else (k, n) :: bumpCount key rest

/-- Insert-or-overwrite (`face_tetra_centroid.insert(face, centroid)`). -/
def putL {κ α : Type} [DecidableEq κ] (key : κ) (v : α) :
    List (κ × α) → List (κ × α)
  | [] => [(key, v)]
  | (k, w) :: rest => if k = key then (k, v) :: rest else (k, w) :: putL key v rest

/-- Stable ascending insertion sort (`Vec::sort` on `usize`). -/
def insertSorted (x : Nat) : List Nat → List Nat
  | [] => [x]
  | y :: ys => if x ≤ y then x :: y :: ys else y :: insertSorted x ys

def sortNat (l : List Nat) : List Nat := l.foldr insertSorted []

def vsum (l : List Vec3) : Vec3 := l.foldl vadd vzero

/-- Position of vertex index `i` (`vertex_positions[*idx]`; always in range
for inputs produced by the external triangulation library). -/
def posAt (ps : List Vec3) (i : Nat) : Vec3 := (ps[i]?).getD vzero

/-- The four triangular faces of a tetrahedron, as triples of the cell's
sorted vertex indices (cells of a 3-D triangulation always have exactly
four vertices). -/
def cellFaces (ids : List Nat) : List (List Nat) :=
  match sortNat ids with
  | [a, b, c, d] => [[a, b, c], [a, b, d], [a, c, d], [b, c, d]]
  | _ => []

/-- Centroid of a cell: the mean of its four vertex positions
(`sum * 0.25`). -/
def cellCentroid (ps : List Vec3) (ids : List Nat) : Vec3 :=
  vsmul (1 / 4) (vsum ((sortNat ids).map (posAt ps)))

/-- The occurrence tally and last-writer centroid maps built over all
cells. -/
def delaunayTally (ps : List Vec3) (cells : List (List Nat)) :
    List (List Nat × Nat) × List (List Nat × Vec3) :=
  cells.foldl (fun (acc : List (List Nat × Nat) × List (List Nat × Vec3)) ids =>
    let centroid := cellCentroid ps ids
    (cellFaces ids).foldl (fun (acc : List (List Nat × Nat) × List (List Nat × Vec3)) face =>
      (bumpCount face acc.1, putL face centroid acc.2)) acc) ([], [])

/-- Orientation step for one kept boundary face: flip the vertex order
exactly when `norm.dot(centroid - a) < 0.0`. -/
def orientFace (ps : List Vec3) (centroid : Vec3) (face : List Nat) : List Nat :=
  match face with
  | [ia, ib, ic] =>
    let a := posAt ps ia
    let b := posAt ps ib
    let c := posAt ps ic
    let norm := vcross (vsub c a) (vsub c b)
    if vdot norm (vsub centroid a) < 0 then [ic, ib, ia] else [ia, ib, ic]
  | f => f

/-- The index triples retained by the Delaunay adapter: faces tallied
exactly once, oriented by `orientFace`; a missing centroid entry would be
the Rust `face_tetra_centroid[..]` index panic and cannot occur. -/
def delaunayIndices (ps : List Vec3) (cells : List (List Nat)) : List (List Nat) :=
  let (tally, centroids) := delaunayTally ps cells
  tally.filterMap (fun fc =>
    if fc.2 = 1 then
      match lookupL centroids fc.1 with
      | some centroid => some (orientFace ps centroid fc.1)
      | none => none
    else none)

/-- The flat index list handed to `indexed_triangles`. -/
def delaunayFlatIndices (ps : List Vec3) (cells : List (List Nat)) : List Nat :=
  (delaunayIndices ps cells).flatten


/-! ## Theorems -/

/-! ### C2 — face creation from three positions on the empty mesh -/

/-- Intermediate meshes of the C2 evaluation (one per primitive call). -/
def c2M1 (a : Vec3) : Mesh :=
  { vertices := ⟨[(0, ⟨none⟩)], 1⟩
    halfedges := ⟨[], 0⟩
    faces := ⟨[], 0⟩
    positions := ⟨[(0, a)]⟩
    vertex_normals := none
    outgoing_halfedges := ⟨[(0, [])]⟩
    bvh := []
    index_to_face_id := ⟨[]⟩
    next_index := 0 }

def c2M2 (a b : Vec3) : Mesh :=
  { vertices := ⟨[(0, ⟨none⟩), (1, ⟨none⟩)], 2⟩
    halfedges := ⟨[], 0⟩
    faces := ⟨[], 0⟩
    positions := ⟨[(0, a), (1, b)]⟩
    vertex_normals := none
    outgoing_halfedges := ⟨[(0, []), (1, [])]⟩
    bvh := []
    index_to_face_id := ⟨[]⟩
    next_index := 0 }

def c2M3 (a b c : Vec3) : Mesh :=
  { vertices := ⟨[(0, ⟨none⟩), (1, ⟨none⟩), (2, ⟨none⟩)], 3⟩
    halfedges := ⟨[], 0⟩
    faces := ⟨[], 0⟩
    positions := ⟨[(0, a), (1, b), (2, c)]⟩
    vertex_normals := none
    outgoing_halfedges := ⟨[(0, []), (1, []), (2, [])]⟩
    bvh := []
    index_to_face_id := ⟨[]⟩
    next_index := 0 }

def c2M4 (a b c : Vec3) : Mesh :=
  { vertices := ⟨[(0, ⟨some 0⟩), (1, ⟨some 1⟩), (2, ⟨none⟩)], 3⟩
    halfedges := ⟨[(0, ⟨1, none, some 1, none⟩), (1, ⟨0, none, some 0, none⟩)], 2⟩
    faces := ⟨[], 0⟩
    positions := ⟨[(0, a), (1, b), (2, c)]⟩
    vertex_normals := none
    outgoing_halfedges := ⟨[(0, [0]), (1, [1]), (2, [])]⟩
    bvh := []
    index_to_face_id := ⟨[]⟩
    next_index := 0 }

def c2M5 (a b c : Vec3) : Mesh :=
  { vertices := ⟨[(0, ⟨some 0⟩), (1, ⟨some 2⟩), (2, ⟨some 3⟩)], 3⟩
    halfedges := ⟨[(0, ⟨1, none, some 1, none⟩), (1, ⟨0, none, some 0, none⟩),
      (2, ⟨2, none, some 3, none⟩), (3, ⟨1, none, some 2, none⟩)], 4⟩
    faces := ⟨[], 0⟩
    positions := ⟨[(0, a), (1, b), (2, c)]⟩
    vertex_normals := none
    outgoing_halfedges := ⟨[(0, [0]), (1, [1, 2]), (2, [3])]⟩
    bvh := []
    index_to_face_id := ⟨[]⟩
    next_index := 0 }

def c2M6 (a b c : Vec3) : Mesh :=
  { vertices := ⟨[(0, ⟨some 5⟩), (1, ⟨some 2⟩), (2, ⟨some 4⟩)], 3⟩
    halfedges := ⟨[(0, ⟨1, none, some 1, none⟩), (1, ⟨0, none, some 0, none⟩),
      (2, ⟨2, none, some 3, none⟩), (3, ⟨1, none, some 2, none⟩),
      (4, ⟨0, none, some 5, none⟩), (5, ⟨2, none, some 4, none⟩)], 6⟩
    faces := ⟨[], 0⟩
    positions := ⟨[(0, a), (1, b), (2, c)]⟩
    vertex_normals := none
    outgoing_halfedges := ⟨[(0, [0, 5]), (1, [1, 2]), (2, [3, 4])]⟩
    bvh := []
    index_to_face_id := ⟨[]⟩
    next_index := 0 }

def c2MFinal (a b c : Vec3) : Mesh :=
  { vertices := ⟨[(0, ⟨some 5⟩), (1, ⟨some 2⟩), (2, ⟨some 4⟩)], 3⟩
    halfedges := ⟨[(0, ⟨1, some 0, some 1, some 2⟩), (1, ⟨0, none, some 0, none⟩),
      (2, ⟨2, some 0, some 3, some 4⟩), (3, ⟨1, none, some 2, none⟩),
      (4, ⟨0, some 0, some 5, some 0⟩), (5, ⟨2, none, some 4, none⟩)], 6⟩
    faces := ⟨[(0, ⟨0, 0, 0⟩)], 1⟩
    positions := ⟨[(0, a), (1, b), (2, c)]⟩
    vertex_normals := none
    outgoing_halfedges := ⟨[(0, [0, 5]), (1, [1, 2]), (2, [3, 4])]⟩
    bvh := []
    index_to_face_id := ⟨[(0, 0)]⟩
    next_index := 1 }

/-- Unfolding lemma for `create_face_from_positions` in terms of its seven
primitive calls. -/
theorem create_face_from_positions_eq (m : Mesh) (a b c : Vec3)
    {m1 m2 m3 m4 m5 m6 m7 : Mesh} {i1 i2 i3 fid : Nat} {r1 r2 r3 : InsertOrGetEdge}
    (e1 : m.insert_vertex a = (m1, i1)) (e2 : m1.insert_vertex b = (m2, i2))
    (e3 : m2.insert_vertex c = (m3, i3))
    (e4 : m3.insert_or_get_edge i1 i2 = (m4, r1))
    (e5 : m4.insert_or_get_edge i2 i3 = (m5, r2))
    (e6 : m5.insert_or_get_edge i3 i1 = (m6, r3))
    (e7 : m6.insert_face r1.start_to_end_he_id r2.start_to_end_he_id r3.start_to_end_he_id
      = (m7, fid)) :
    m.create_face_from_positions a b c
      = (m7, ⟨fid, r1.created_he_ids ++ r2.created_he_ids ++ r3.created_he_ids,
          [i1, i2, i3]⟩) := by
  unfold Mesh.create_face_from_positions
  simp only [e1, e2, e3, e4, e5, e6, e7]

/-- Stepwise evaluation of `create_face_from_positions` on the empty mesh. -/
theorem c2_eval (a b c : Vec3) :
    Mesh.empty.create_face_from_positions a b c
      = (c2MFinal a b c, ⟨0, [0, 1, 2, 3, 4, 5], [0, 1, 2]⟩) := by
  have e1 : Mesh.empty.insert_vertex a = (c2M1 a, 0) := rfl
  have e2 : (c2M1 a).insert_vertex b = (c2M2 a b, 1) := rfl
  have e3 : (c2M2 a b).insert_vertex c = (c2M3 a b c, 2) := rfl
  have e4 : (c2M3 a b c).insert_or_get_edge 0 1 = (c2M4 a b c, ⟨0, 1, true, true⟩) := rfl
  have e5 : (c2M4 a b c).insert_or_get_edge 1 2 = (c2M5 a b c, ⟨2, 3, true, true⟩) := rfl
  have e6 : (c2M5 a b c).insert_or_get_edge 2 0 = (c2M6 a b c, ⟨4, 5, true, true⟩) := rfl
  have e7 : (c2M6 a b c).insert_face 0 2 4 = (c2MFinal a b c, 0) := rfl
  exact create_face_from_positions_eq Mesh.empty a b c e1 e2 e3 e4 e5 e6 e7

/-- C2: starting from an empty mesh, one call to
`create_face_from_positions(a,b,c)` yields a mesh with exactly 3 vertices,
3 positions, 6 halfedges and 1 face; traversing the created face's
halfedges yields exactly 3 elements, traversing its vertices yields
exactly 3 distinct vertex ids, and each of those 3 vertices has a present
canonical outgoing halfedge. -/
theorem C2_create_face_counts_and_traversals (a b c : Vec3) :
    ((Mesh.empty.create_face_from_positions a b c).1.vertices.len = 3)
    ∧ ((Mesh.empty.create_face_from_positions a b c).1.positions.len = 3)
    ∧ ((Mesh.empty.create_face_from_positions a b c).1.halfedges.len = 6)
    ∧ ((Mesh.empty.create_face_from_positions a b c).1.faces.len = 1)
    ∧ (∃ f, (Mesh.empty.create_face_from_positions a b c).1.faces.get
          (Mesh.empty.create_face_from_positions a b c).2.face_id = some f
        ∧ (f.halfedgesList (Mesh.empty.create_face_from_positions a b c).1).length = 3
        ∧ (f.verticesList (Mesh.empty.create_face_from_positions a b c).1).length = 3
        ∧ (f.verticesList (Mesh.empty.create_face_from_positions a b c).1).Nodup
        ∧ ((f.verticesList (Mesh.empty.create_face_from_positions a b c).1).all
            (fun v => (((Mesh.empty.create_face_from_positions a b c).1.vertices.get v).bind
              (·.outgoing_halfedge)).isSome)) = true) := by
  rw [c2_eval]
  refine ⟨rfl, rfl, rfl, rfl, ⟨0, 0, 0⟩, rfl, rfl, rfl, ?_, rfl⟩
  have hv : Face.verticesList ⟨0, 0, 0⟩ (c2MFinal a b c) = [1, 2, 0] := rfl
  rw [hv]
  decide

/-! ### C10 — `create_face_from_halfedge_and_position` is not atomic on failure -/

/-- C10: when the given halfedge already has two faces (`boundary_he`
yields `none`), `create_face_from_halfedge_and_position` returns `None`,
but the brand-new vertex — with its position entry and empty
adjacency-list entry — was inserted before the boundary check ran and
remains in the mesh, so the failed call observably changes the mesh. -/
theorem C10_create_face_not_atomic (m : Mesh) (he_id : Nat) (p : Vec3)
    (hwf : m.vertices.WF)
    (hb : m.boundary_he he_id = none) :
    ((m.create_face_from_halfedge_and_position he_id p).2 = none)
    ∧ ((m.create_face_from_halfedge_and_position he_id p).1.vertices.get m.vertices.next
        = some ⟨none⟩)
    ∧ ((m.create_face_from_halfedge_and_position he_id p).1.positions.get m.vertices.next
        = some p)
    ∧ ((m.create_face_from_halfedge_and_position he_id p).1.outgoing_halfedges.get m.vertices.next
        = some [])
    ∧ ((m.create_face_from_halfedge_and_position he_id p).1.vertices.len
        = m.vertices.len + 1) := by
  have hb' : (m.insert_vertex p).1.boundary_he he_id = none := hb
  simp only [Mesh.create_face_from_halfedge_and_position,
    Mesh.create_face_from_halfedge_and_vertex, hb']
  refine ⟨trivial, ?_, ?_, ?_, ?_⟩
  · exact Arena.get_insert_fresh hwf _
  · simp [Mesh.insert_vertex, Arena.insert]
  · simp [Mesh.insert_vertex, Arena.insert]
  · simp [Mesh.insert_vertex, Arena.insert, Arena.len]

/-- Witness mesh for C10: a single interior edge with a (dangling) face on
both sides, so `boundary_he` is saturated. -/
def c10WitnessMesh : Mesh :=
  { vertices := ⟨[(0, ⟨some 0⟩), (1, ⟨some 1⟩)], 2⟩
    halfedges := ⟨[(0, ⟨1, some 0, some 1, none⟩), (1, ⟨0, some 1, some 0, none⟩)], 2⟩
    faces := ⟨[], 0⟩
    positions := ⟨[(0, (0, 0, 0)), (1, (1, 0, 0))]⟩
    vertex_normals := none
    outgoing_halfedges := ⟨[(0, [0]), (1, [1])]⟩
    bvh := []
    index_to_face_id := ⟨[]⟩
    next_index := 0 }

theorem C10_witness :
    ((c10WitnessMesh.create_face_from_halfedge_and_position 0 (5, 5, 5)).2 = none)
    ∧ ((c10WitnessMesh.create_face_from_halfedge_and_position 0 (5, 5, 5)).1.vertices.get 2
        = some ⟨none⟩) := by
  have h := C10_create_face_not_atomic c10WitnessMesh 0 (5, 5, 5)
    (Arena.wf_of_wfb (by decide)) (by decide)
  exact ⟨h.1, h.2.1⟩

/-! ### C5 — resolving selections with stale ids -/

theorem insertNew_mem_of {l : List Nat} {x : Nat} (y : Nat) (h : x ∈ l) :
    x ∈ insertNew l y := by
  unfold insertNew
  split
  · exact h
  · exact List.mem_append_left _ h

theorem mem_insertNew_self (l : List Nat) (y : Nat) : y ∈ insertNew l y := by
  unfold insertNew
  split
  · assumption
  · simp

theorem extendSet_mem_left {x : Nat} (l : List Nat) :
    ∀ acc : List Nat, x ∈ acc → x ∈ extendSet acc l := by
  induction l with
  | nil => intro acc h; exact h
  | cons y rest ih => intro acc h; exact ih _ (insertNew_mem_of y h)

theorem extendSet_mem_right {l : List Nat} {x : Nat} (h : x ∈ l) :
    ∀ acc : List Nat, x ∈ extendSet acc l := by
  induction l with
  | nil => simp at h
  | cons y rest ih =>
    intro acc
    rcases List.mem_cons.mp h with rfl | hx
    · exact extendSet_mem_left rest _ (mem_insertNew_self acc x)
    · exact ih hx _

namespace Selection

theorem resolveHesToVerts_mono (m : Mesh) {x : Nat} :
    ∀ (l acc r : List Nat), resolveHesToVerts m l acc = some r → x ∈ acc → x ∈ r := by
  intro l
  induction l with
  | nil =>
    intro acc r hr hx
    simp only [resolveHesToVerts] at hr
    exact (Option.some.inj hr) ▸ hx
  | cons h rest ih =>
    intro acc r hr hx
    simp only [resolveHesToVerts] at hr
    cases hh : m.halfedges.get h with
    | none => simp only [hh] at hr; exact absurd hr (by simp)
    | some he =>
      simp only [hh] at hr
      cases hsv : he.start_vertex m with
      | none =>
        simp only [hsv] at hr
        exact ih _ _ hr (insertNew_mem_of _ hx)
      | some sv =>
        simp only [hsv] at hr
        exact ih _ _ hr (insertNew_mem_of _ (insertNew_mem_of _ hx))

theorem resolveFacesToVerts_mono (m : Mesh) {x : Nat} :
    ∀ (l acc r : List Nat), resolveFacesToVerts m l acc = some r → x ∈ acc → x ∈ r := by
  intro l
  induction l with
  | nil =>
    intro acc r hr hx
    simp only [resolveFacesToVerts] at hr
    exact (Option.some.inj hr) ▸ hx
  | cons f rest ih =>
    intro acc r hr hx
    simp only [resolveFacesToVerts] at hr
    cases hf : m.faces.get f with
    | none => simp only [hf] at hr; exact absurd hr (by simp)
    | some face =>
      simp only [hf] at hr
      exact ih _ _ hr (extendSet_mem_left _ _ hx)

theorem resolveFacesToHes_mono (m : Mesh) {x : Nat} :
    ∀ (l acc r : List Nat), resolveFacesToHes m l acc = some r → x ∈ acc → x ∈ r := by
  intro l
  induction l with
  | nil =>
    intro acc r hr hx
    simp only [resolveFacesToHes] at hr
    exact (Option.some.inj hr) ▸ hx
  | cons f rest ih =>
    intro acc r hr hx
    simp only [resolveFacesToHes] at hr
    cases hf : m.faces.get f with
    | none => simp only [hf] at hr; exact absurd hr (by simp)
    | some face =>
      simp only [hf] at hr
      exact ih _ _ hr (extendSet_mem_left _ _ hx)

theorem resolveVertsToHes_mono (m : Mesh) {x : Nat} :
    ∀ (l acc r : List Nat), resolveVertsToHes m l acc = some r → x ∈ acc → x ∈ r := by
  intro l
  induction l with
  | nil =>
    intro acc r hr hx
    simp only [resolveVertsToHes] at hr
    exact (Option.some.inj hr) ▸ hx
  | cons v rest ih =>
    intro acc r hr hx
    simp only [resolveVertsToHes] at hr
    cases hv : m.vertices.get v with
    | none => simp only [hv] at hr; exact absurd hr (by simp)
    | some vert =>
      simp only [hv] at hr
      exact ih _ _ hr (extendSet_mem_left _ _ hx)

end Selection

theorem resolveHesToVerts_isSome_iff (m : Mesh) :
    ∀ (l acc : List Nat),
      (Selection.resolveHesToVerts m l acc).isSome ↔ ∀ h ∈ l, (m.halfedges.get h).isSome := by
  intro l
  induction l with
  | nil => intro acc; simp [Selection.resolveHesToVerts]
  | cons h rest ih =>
    intro acc
    simp only [Selection.resolveHesToVerts]
    cases hh : m.halfedges.get h with
    | none => simp [hh]
    | some he => simp [hh, ih]

theorem resolveFacesToVerts_isSome_iff (m : Mesh) :
    ∀ (l acc : List Nat),
      (Selection.resolveFacesToVerts m l acc).isSome ↔ ∀ f ∈ l, (m.faces.get f).isSome := by
  intro l
  induction l with
  | nil => intro acc; simp [Selection.resolveFacesToVerts]
  | cons f rest ih =>
    intro acc
    simp only [Selection.resolveFacesToVerts]
    cases hf : m.faces.get f with
    | none => simp [hf]
    | some face => simp [hf, ih]

theorem resolveFacesToHes_isSome_iff (m : Mesh) :
    ∀ (l acc : List Nat),
      (Selection.resolveFacesToHes m l acc).isSome ↔ ∀ f ∈ l, (m.faces.get f).isSome := by
  intro l
  induction l with
  | nil => intro acc; simp [Selection.resolveFacesToHes]
  | cons f rest ih =>
    intro acc
    simp only [Selection.resolveFacesToHes]
    cases hf : m.faces.get f with
    | none => simp [hf]
    | some face => simp [hf, ih]

theorem resolveVertsToHes_isSome_iff (m : Mesh) :
    ∀ (l acc : List Nat),
      (Selection.resolveVertsToHes m l acc).isSome ↔ ∀ v ∈ l, (m.vertices.get v).isSome := by
  intro l
  induction l with
  | nil => intro acc; simp [Selection.resolveVertsToHes]
  | cons v rest ih =>
    intro acc
    simp only [Selection.resolveVertsToHes]
    cases hv : m.vertices.get v with
    | none => simp [hv]
    | some vert => simp [hv, ih]

/-- C5 (amended): the resolvers do NOT tolerate stale ids of the other
kinds — `resolve_to_vertices` returns normally exactly when every selected
halfedge id and every selected face id is live (it panics otherwise), and
`resolve_to_halfedges` returns normally exactly when every selected face id
and every selected vertex id is live.  Stale ids of the requested kind
itself are returned unchanged rather than omitted. -/
theorem C5_resolve_panics_on_stale_ids (m : Mesh) (s : Selection) :
    ((s.resolve_to_vertices m).isSome ↔
      (∀ h ∈ s.halfedges, (m.halfedges.get h).isSome)
        ∧ (∀ f ∈ s.faces, (m.faces.get f).isSome))
    ∧ ((s.resolve_to_halfedges m).isSome ↔
      (∀ f ∈ s.faces, (m.faces.get f).isSome)
        ∧ (∀ v ∈ s.vertices, (m.vertices.get v).isSome))
    ∧ (∀ r, s.resolve_to_vertices m = some r → ∀ v ∈ s.vertices, v ∈ r)
    ∧ (∀ r, s.resolve_to_halfedges m = some r → ∀ h ∈ s.halfedges, h ∈ r) := by
  refine ⟨?_, ?_, ?_, ?_⟩
  · have hHV := resolveHesToVerts_isSome_iff m s.halfedges s.vertices
    cases h1 : Selection.resolveHesToVerts m s.halfedges s.vertices with
    | none =>
      rw [h1] at hHV
      simp only [Selection.resolve_to_vertices, h1, Option.isSome_none] at hHV ⊢
      simp only [Bool.false_eq_true, false_iff] at hHV ⊢
      intro hc
      exact hHV hc.1
    | some acc =>
      rw [h1] at hHV
      simp only [Option.isSome_some, true_iff] at hHV
      simp only [Selection.resolve_to_vertices, h1]
      rw [resolveFacesToVerts_isSome_iff]
      constructor
      · intro hf; exact ⟨hHV, hf⟩
      · intro hc; exact hc.2
  · have hFH := resolveFacesToHes_isSome_iff m s.faces s.halfedges
    cases h1 : Selection.resolveFacesToHes m s.faces s.halfedges with
    | none =>
      rw [h1] at hFH
      simp only [Selection.resolve_to_halfedges, h1, Option.isSome_none] at hFH ⊢
      simp only [Bool.false_eq_true, false_iff] at hFH ⊢
      intro hc
      exact hFH hc.1
    | some acc =>
      rw [h1] at hFH
      simp only [Option.isSome_some, true_iff] at hFH
      simp only [Selection.resolve_to_halfedges, h1]
      rw [resolveVertsToHes_isSome_iff]
      constructor
      · intro hv; exact ⟨hFH, hv⟩
      · intro hc; exact hc.2
  · intro r hr v hv
    simp only [Selection.resolve_to_vertices] at hr
    cases h1 : Selection.resolveHesToVerts m s.halfedges s.vertices with
    | none => rw [h1] at hr; simp at hr
    | some acc =>
      rw [h1] at hr
      exact Selection.resolveFacesToVerts_mono m _ _ _ hr
        (Selection.resolveHesToVerts_mono m _ _ _ h1 hv)
  · intro r hr h hh
    simp only [Selection.resolve_to_halfedges] at hr
    cases h1 : Selection.resolveFacesToHes m s.faces s.halfedges with
    | none => rw [h1] at hr; simp at hr
    | some acc =>
      rw [h1] at hr
      exact Selection.resolveVertsToHes_mono m _ _ _ hr
        (Selection.resolveFacesToHes_mono m _ _ _ h1 hh)

/-- C5 counterexample: a selection holding one stale face id makes both
resolvers panic (modelled as `none`) on the empty mesh, contradicting the
claim that resolution terminates normally, merely omitting stale ids. -/
theorem C5_counterexample_stale_face_panics :
    (Selection.resolve_to_vertices ⟨[], [], [0]⟩ Mesh.empty = none)
    ∧ (Selection.resolve_to_halfedges ⟨[], [], [0]⟩ Mesh.empty = none) := by
  exact ⟨rfl, rfl⟩


/-! ### C6 — the circular iterator and termination -/

/-- Iterator states reached from a given state. -/
def circStateFrom (step : Nat → Option Nat) (it : CircIter) : Nat → CircIter
  | 0 => it
  | k + 1 => circStateFrom step (circNext step it).1 k

theorem circNth_eq_stateFrom (step : Nat → Option Nat) :
    ∀ (k : Nat) (it : CircIter),
      circNth step it k = (circNext step (circStateFrom step it k)).2 := by
  intro k
  induction k with
  | zero => intro it; rfl
  | succ k ih => intro it; exact ih (circNext step it).1

theorem circStateFrom_succ (step : Nat → Option Nat) :
    ∀ (k : Nat) (it : CircIter),
      circStateFrom step it (k + 1) = (circNext step (circStateFrom step it k)).1 := by
  intro k
  induction k with
  | zero => intro it; rfl
  | succ k ih => intro it; exact ih (circNext step it).1

/-- If the consuming loop never stops, the state entering call `k + 1` is
`⟨some s, stepOrbit step s k⟩`, and the orbit avoids both `none` and the
starting element. -/
theorem circ_no_term_invariant (step : Nat → Option Nat) (s : Nat)
    (hnt : ∀ j, circNth step (CircIter.new (some s)) j ≠ none) :
    ∀ k, circStateFrom step (CircIter.new (some s)) (k + 1) = ⟨some s, stepOrbit step s k⟩
      ∧ stepOrbit step s k ≠ none ∧ (1 ≤ k → stepOrbit step s k ≠ some s) := by
  intro k
  induction k with
  | zero =>
    refine ⟨rfl, by simp [stepOrbit], by omega⟩
  | succ k ih =>
    obtain ⟨hst, hnone, _⟩ := ih
    obtain ⟨c, hc⟩ := Option.ne_none_iff_exists'.mp hnone
    have hitem := hnt (k + 1)
    rw [circNth_eq_stateFrom, hst] at hitem
    have hstep : stepOrbit step s (k + 1) = step c := by
      simp [stepOrbit, hc]
    rw [circStateFrom_succ, hst]
    cases hd : step c with
    | none =>
      exfalso
      apply hitem
      simp [circNext, hc, hd]
    | some d =>
      by_cases hds : d = s
      · exfalso
        apply hitem
        simp [circNext, hc, hd, hds]
      · refine ⟨?_, ?_, ?_⟩
        · simp [circNext, hc, hd, hds, hstep]
        · rw [hstep, hd]; simp
        · intro _
          rw [hstep, hd]
          simp [hds]

/-- C6 (amended): the circular iterator yields the starting element first
and stops the moment the step function returns the start or absent;
iteration over a `none` start is immediately empty, and iteration from a
real start terminates PROVIDED the step function's orbit from the start
eventually returns the starting element or absent (as the face/fan step
functions do on settled meshes) — not unconditionally for every step
function. -/
theorem C6_circular_iterator_conditional_termination (step : Nat → Option Nat) (s n : Nat)
    (hn : 1 ≤ n)
    (horbit : stepOrbit step s n = none ∨ stepOrbit step s n = some s) :
    circNth step (CircIter.new (some s)) 0 = some s
    ∧ CircTerminates step (some s)
    ∧ (∀ t : Nat → Option Nat, CircTerminates t none) := by
  refine ⟨rfl, ?_, fun t => ⟨0, rfl⟩⟩
  by_contra hnt
  simp only [CircTerminates, not_exists] at hnt
  have hinv := circ_no_term_invariant step s hnt n
  rcases horbit with h | h
  · exact hinv.2.1 h
  · exact hinv.2.2 hn h

theorem C6_witness :
    circNth (fun _ => none) (CircIter.new (some 0)) 0 = some 0
    ∧ CircTerminates (fun _ => none) (some 0)
    ∧ (∀ t : Nat → Option Nat, CircTerminates t none) :=
  C6_circular_iterator_conditional_termination (fun _ => none) 0 1 (by decide)
    (Or.inl rfl)

/-- The adversarial step function for the C6 counterexample: it cycles
between halfedge ids 1 and 2, never returning to the start 0 and never
yielding absent. -/
def c6BadStep (h : Nat) : Option Nat := some (if h = 1 then 2 else 1)

theorem c6Bad_invariant :
    ∀ k, (circStateFrom c6BadStep (CircIter.new (some 0)) (k + 1)
        = ⟨some 0, some (if k % 2 = 1 then 1 else if k = 0 then 0 else 2)⟩)
      ∧ circNth c6BadStep (CircIter.new (some 0)) k ≠ none := by
  intro k
  induction k with
  | zero => exact ⟨rfl, by decide⟩
  | succ k ih =>
    obtain ⟨hst, _⟩ := ih
    constructor
    · rw [circStateFrom_succ, hst]
      rcases Nat.even_or_odd k with he | ho
      · have h2 : k % 2 = 0 := Nat.even_iff.mp he
        by_cases hk0 : k = 0
        · subst hk0
          simp [circNext, c6BadStep, CircIter.new]
        · simp only [h2, hk0]
          have : (1 : Nat) % 2 = 1 → True := fun _ => trivial
          simp only [circNext, c6BadStep, CircIter.new]
          have hk2 : (k + 1) % 2 = 1 := by omega
          simp [hk2]
      · have h2 : k % 2 = 1 := Nat.odd_iff.mp ho
        simp only [h2]
        simp only [circNext, c6BadStep, CircIter.new]
        have hk2 : (k + 1) % 2 = 0 := by omega
        have hk0 : ¬(k + 1 = 0) := by omega
        simp [hk2, hk0]
    · rw [circNth_eq_stateFrom, hst]
      rcases Nat.even_or_odd k with he | ho
      · have h2 : k % 2 = 0 := Nat.even_iff.mp he
        by_cases hk0 : k = 0
        · subst hk0
          simp [circNext, c6BadStep, CircIter.new]
        · simp [h2, hk0, circNext, c6BadStep, CircIter.new]
      · have h2 : k % 2 = 1 := Nat.odd_iff.mp ho
        simp [h2, circNext, c6BadStep, CircIter.new]

/-- C6 counterexample: with the cycling step function the iterator never
yields `none` — the sequence is infinite, refuting the claim that
iteration always terminates for every step function. -/
theorem C6_counterexample_nonterminating_step :
    ¬ CircTerminates c6BadStep (some 0) := by
  intro ⟨n, hn⟩
  exact (c6Bad_invariant n).2 hn


/-! ### C4 — selection resolution is a superset of its inputs -/

namespace Selection

theorem resolveFacesToHes_contains (m : Mesh) {x f : Nat} {face : Face} :
    ∀ (l acc r : List Nat), resolveFacesToHes m l acc = some r →
      f ∈ l → m.faces.get f = some face → x ∈ face.halfedgesList m → x ∈ r := by
  intro l
  induction l with
  | nil => intro acc r _ hf; simp at hf
  | cons g rest ih =>
    intro acc r hr hf hget hx
    simp only [resolveFacesToHes] at hr
    rcases List.mem_cons.mp hf with rfl | hf'
    · simp only [hget] at hr
      exact resolveFacesToHes_mono m _ _ _ hr (extendSet_mem_right hx _)
    · cases hg : m.faces.get g with
      | none => simp only [hg] at hr; exact absurd hr (by simp)
      | some gface =>
        simp only [hg] at hr
        exact ih _ _ hr hf' hget hx

theorem resolveVertsToHes_contains (m : Mesh) {x v : Nat} {vert : Vertex} :
    ∀ (l acc r : List Nat), resolveVertsToHes m l acc = some r →
      v ∈ l → m.vertices.get v = some vert → x ∈ vert.outgoingHalfedgesList m → x ∈ r := by
  intro l
  induction l with
  | nil => intro acc r _ hv; simp at hv
  | cons w rest ih =>
    intro acc r hr hv hget hx
    simp only [resolveVertsToHes] at hr
    rcases List.mem_cons.mp hv with rfl | hv'
    · simp only [hget] at hr
      exact resolveVertsToHes_mono m _ _ _ hr (extendSet_mem_right hx _)
    · cases hw : m.vertices.get w with
      | none => simp only [hw] at hr; exact absurd hr (by simp)
      | some wv =>
        simp only [hw] at hr
        exact ih _ _ hr hv' hget hx

theorem resolveFacesToVerts_contains (m : Mesh) {x f : Nat} {face : Face} :
    ∀ (l acc r : List Nat), resolveFacesToVerts m l acc = some r →
      f ∈ l → m.faces.get f = some face → x ∈ face.verticesList m → x ∈ r := by
  intro l
  induction l with
  | nil => intro acc r _ hf; simp at hf
  | cons g rest ih =>
    intro acc r hr hf hget hx
    simp only [resolveFacesToVerts] at hr
    rcases List.mem_cons.mp hf with rfl | hf'
    · simp only [hget] at hr
      exact resolveFacesToVerts_mono m _ _ _ hr (extendSet_mem_right hx _)
    · cases hg : m.faces.get g with
      | none => simp only [hg] at hr; exact absurd hr (by simp)
      | some gface =>
        simp only [hg] at hr
        exact ih _ _ hr hf' hget hx

theorem resolveHesToVerts_contains (m : Mesh) {h : Nat} {he : Halfedge} :
    ∀ (l acc r : List Nat), resolveHesToVerts m l acc = some r →
      h ∈ l → m.halfedges.get h = some he →
      he.end_vertex ∈ r ∧ (∀ sv, he.start_vertex m = some sv → sv ∈ r) := by
  intro l
  induction l with
  | nil => intro acc r _ hh; simp at hh
  | cons g rest ih =>
    intro acc r hr hh hget
    simp only [resolveHesToVerts] at hr
    rcases List.mem_cons.mp hh with rfl | hh'
    · simp only [hget] at hr
      constructor
      · exact resolveHesToVerts_mono m _ _ _ hr (mem_insertNew_self _ _)
      · intro sv hsv
        simp only [hsv] at hr
        exact resolveHesToVerts_mono m _ _ _ hr
          (insertNew_mem_of _ (mem_insertNew_self _ _))
    · cases hg : m.halfedges.get g with
      | none => simp only [hg] at hr; exact absurd hr (by simp)
      | some ghe =>
        simp only [hg] at hr
        cases hgs : ghe.start_vertex m with
        | none =>
          simp only [hgs] at hr
          exact ih _ _ hr hh' hget
        | some gsv =>
          simp only [hgs] at hr
          exact ih _ _ hr hh' hget

end Selection

/-- C4: for a selection whose ids are all live in the mesh,
`resolve_to_vertices` is a superset of the directly selected vertices and
contains every derivable endpoint of every selected halfedge and every
vertex of every selected face; `resolve_to_halfedges` is a superset of the
directly selected halfedges and contains the halfedges of every selected
face and the outgoing (fan) halfedges of every selected vertex. -/
theorem C4_resolution_is_superset (m : Mesh) (s : Selection)
    (hf : ∀ f ∈ s.faces, (m.faces.get f).isSome)
    (hh : ∀ h ∈ s.halfedges, (m.halfedges.get h).isSome)
    (hv : ∀ v ∈ s.vertices, (m.vertices.get v).isSome) :
    ∃ V H, s.resolve_to_vertices m = some V ∧ s.resolve_to_halfedges m = some H
      ∧ (∀ v ∈ s.vertices, v ∈ V)
      ∧ (∀ h ∈ s.halfedges, ∀ he, m.halfedges.get h = some he →
          he.end_vertex ∈ V ∧ (∀ sv, he.start_vertex m = some sv → sv ∈ V))
      ∧ (∀ f ∈ s.faces, ∀ face, m.faces.get f = some face →
          ∀ x ∈ face.verticesList m, x ∈ V)
      ∧ (∀ h ∈ s.halfedges, h ∈ H)
      ∧ (∀ f ∈ s.faces, ∀ face, m.faces.get f = some face →
          ∀ x ∈ face.halfedgesList m, x ∈ H)
      ∧ (∀ v ∈ s.vertices, ∀ vert, m.vertices.get v = some vert →
          ∀ x ∈ vert.outgoingHalfedgesList m, x ∈ H) := by
  obtain ⟨acc1, hacc1⟩ := Option.isSome_iff_exists.mp
    ((resolveHesToVerts_isSome_iff m s.halfedges s.vertices).mpr hh)
  obtain ⟨V, hV⟩ := Option.isSome_iff_exists.mp
    ((resolveFacesToVerts_isSome_iff m s.faces acc1).mpr hf)
  obtain ⟨acc2, hacc2⟩ := Option.isSome_iff_exists.mp
    ((resolveFacesToHes_isSome_iff m s.faces s.halfedges).mpr hf)
  obtain ⟨H, hH⟩ := Option.isSome_iff_exists.mp
    ((resolveVertsToHes_isSome_iff m s.vertices acc2).mpr hv)
  refine ⟨V, H, ?_, ?_, ?_, ?_, ?_, ?_, ?_, ?_⟩
  · simp only [Selection.resolve_to_vertices, hacc1, hV]
  · simp only [Selection.resolve_to_halfedges, hacc2, hH]
  · intro v hv'
    exact Selection.resolveFacesToVerts_mono m _ _ _ hV
      (Selection.resolveHesToVerts_mono m _ _ _ hacc1 hv')
  · intro h hh' he hget
    have := Selection.resolveHesToVerts_contains m _ _ _ hacc1 hh' hget
    exact ⟨Selection.resolveFacesToVerts_mono m _ _ _ hV this.1,
      fun sv hsv => Selection.resolveFacesToVerts_mono m _ _ _ hV (this.2 sv hsv)⟩
  · intro f hf' face hget x hx
    exact Selection.resolveFacesToVerts_contains m _ _ _ hV hf' hget hx
  · intro h hh'
    exact Selection.resolveVertsToHes_mono m _ _ _ hH
      (Selection.resolveFacesToHes_mono m _ _ _ hacc2 hh')
  · intro f hf' face hget x hx
    exact Selection.resolveVertsToHes_mono m _ _ _ hH
      (Selection.resolveFacesToHes_contains m _ _ _ hacc2 hf' hget hx)
  · intro v hv' vert hget x hx
    exact Selection.resolveVertsToHes_contains m _ _ _ hH hv' hget hx

/-- Witness mesh for C4: one triangle (the value of
`create_face_from_positions` on the empty mesh at concrete positions). -/
def c4Mesh : Mesh :=
  { vertices := ⟨[(0, ⟨some 5⟩), (1, ⟨some 2⟩), (2, ⟨some 4⟩)], 3⟩
    halfedges := ⟨[(0, ⟨1, some 0, some 1, some 2⟩), (1, ⟨0, none, some 0, none⟩),
      (2, ⟨2, some 0, some 3, some 4⟩), (3, ⟨1, none, some 2, none⟩),
      (4, ⟨0, some 0, some 5, some 0⟩), (5, ⟨2, none, some 4, none⟩)], 6⟩
    faces := ⟨[(0, ⟨0, 0, 0⟩)], 1⟩
    positions := ⟨[(0, (0, 0, 0)), (1, (1, 0, 0)), (2, (0, 1, 0))]⟩
    vertex_normals := none
    outgoing_halfedges := ⟨[(0, [0, 5]), (1, [1, 2]), (2, [3, 4])]⟩
    bvh := []
    index_to_face_id := ⟨[(0, 0)]⟩
    next_index := 1 }

theorem C4_witness :
    ∃ V H, Selection.resolve_to_vertices ⟨[0], [2], [0]⟩ c4Mesh = some V
      ∧ Selection.resolve_to_halfedges ⟨[0], [2], [0]⟩ c4Mesh = some H
      ∧ (0 : Nat) ∈ V ∧ (2 : Nat) ∈ H := by
  obtain ⟨V, H, h1, h2, h3, _, _, h6, _, _⟩ :=
    C4_resolution_is_superset c4Mesh ⟨[0], [2], [0]⟩
      (by decide) (by decide) (by decide)
  exact ⟨V, H, h1, h2, h3 0 (by decide), h6 2 (by decide)⟩


/-! ### C8 — Delaunay import: kept faces and their orientation -/

/-- All 4-面 face triples of all cells, with multiplicity. -/
def allCellFaces (cells : List (List Nat)) : List (List Nat) :=
  (cells.map cellFaces).flatten

/-- One tally step over a (face, owning-cell centroid) pair. -/
def tallyStep (acc : List (List Nat × Nat) × List (List Nat × Vec3))
    (p : List Nat × Vec3) : List (List Nat × Nat) × List (List Nat × Vec3) :=
  (bumpCount p.1 acc.1, putL p.1 p.2 acc.2)

/-- The flattened (face, centroid) stream processed by `delaunayTally`. -/
def flatFaces (ps : List Vec3) (cells : List (List Nat)) : List (List Nat × Vec3) :=
  (cells.map (fun ids => (cellFaces ids).map (fun f => (f, cellCentroid ps ids)))).flatten

theorem delaunayTally_eq_flat (ps : List Vec3) (cells : List (List Nat)) :
    delaunayTally ps cells = (flatFaces ps cells).foldl tallyStep ([], []) := by
  suffices h : ∀ (cs : List (List Nat)) acc,
      cs.foldl (fun acc ids =>
        (cellFaces ids).foldl (fun acc face =>
          (bumpCount face acc.1, putL face (cellCentroid ps ids) acc.2)) acc) acc
        = (flatFaces ps cs).foldl tallyStep acc by
    exact h cells ([], [])
  intro cs
  induction cs with
  | nil => intro acc; rfl
  | cons ids rest ih =>
    intro acc
    simp only [List.foldl_cons, flatFaces, List.map_cons, List.flatten_cons,
      List.foldl_append, List.foldl_map]
    rw [ih]
    rfl

@[simp] theorem lookupL_nil {κ α : Type} [DecidableEq κ] (k : κ) :
    lookupL ([] : List (κ × α)) k = none := rfl

@[simp] theorem lookupL_cons {κ α : Type} [DecidableEq κ] (k key : κ) (v : α)
    (rest : List (κ × α)) :
    lookupL ((k, v) :: rest) key = if k = key then some v else lookupL rest key := rfl

theorem lookupL_mem {κ α : Type} [DecidableEq κ] {l : List (κ × α)} {k : κ} {v : α}
    (h : lookupL l k = some v) : (k, v) ∈ l := by
  induction l with
  | nil => simp at h
  | cons p rest ih =>
    obtain ⟨k', w⟩ := p
    by_cases hk : k' = k
    · subst hk
      simp only [lookupL_cons, if_pos rfl] at h
      simp [Option.some.inj h]
    · simp only [lookupL_cons, if_neg hk] at h
      exact List.mem_cons_of_mem _ (ih h)

theorem mem_lookupL_of_nodup {κ α : Type} [DecidableEq κ] {l : List (κ × α)} {k : κ} {v : α}
    (hnd : (l.map Prod.fst).Nodup) (h : (k, v) ∈ l) : lookupL l k = some v := by
  induction l with
  | nil => simp at h
  | cons p rest ih =>
    obtain ⟨k', w⟩ := p
    simp only [List.map_cons, List.nodup_cons] at hnd
    rcases List.mem_cons.mp h with heq | hmem
    · obtain ⟨h1, h2⟩ := Prod.mk.inj heq.symm
      simp [h1, h2]
    · by_cases hk : k' = k
      · exfalso
        apply hnd.1
        subst hk
        exact List.mem_map.mpr ⟨(k', v), hmem, rfl⟩
      · simp [hk, ih hnd.2 hmem]

theorem lookupL_eq_none_of_not_mem {κ α : Type} [DecidableEq κ] {l : List (κ × α)} {k : κ}
    (h : k ∉ l.map Prod.fst) : lookupL l k = none := by
  induction l with
  | nil => rfl
  | cons p rest ih =>
    obtain ⟨k', w⟩ := p
    simp only [List.map_cons, List.mem_cons] at h
    push_neg at h
    simp [Ne.symm h.1, ih h.2]

theorem lookupL_isSome_of_mem_keys {κ α : Type} [DecidableEq κ] {l : List (κ × α)} {k : κ}
    (h : k ∈ l.map Prod.fst) : (lookupL l k).isSome := by
  induction l with
  | nil => simp at h
  | cons p rest ih =>
    obtain ⟨k', w⟩ := p
    by_cases hk : k' = k
    · simp [hk]
    · simp only [List.map_cons, List.mem_cons] at h
      rcases h with h | h
      · exact absurd h.symm hk
      · simp [hk, ih h]

theorem lookupL_bumpCount {κ : Type} [DecidableEq κ] (k k' : κ) (l : List (κ × Nat)) :
    lookupL (bumpCount k l) k'
      = if k' = k then some ((lookupL l k).getD 0 + 1) else lookupL l k' := by
  induction l with
  | nil =>
    simp only [bumpCount, lookupL_cons, lookupL_nil]
    by_cases h : k' = k
    · subst h; simp
    · have h' : ¬(k = k') := fun hc => h hc.symm
      simp [h, h']
  | cons p rest ih =>
    obtain ⟨k0, n0⟩ := p
    simp only [bumpCount]
    by_cases h0 : k0 = k
    · subst h0
      simp only [if_pos rfl, lookupL_cons]
      by_cases h1 : k0 = k'
      · subst h1
        simp
      · have h1' : ¬(k' = k0) := fun hc => h1 hc.symm
        simp [h1, h1']
    · simp only [if_neg h0, lookupL_cons]
      by_cases h1 : k0 = k'
      · subst h1
        simp [h0]
      · simp [h1, ih]

theorem bumpCount_keys {κ : Type} [DecidableEq κ] (k : κ) (l : List (κ × Nat)) :
    (bumpCount k l).map Prod.fst
      = if k ∈ l.map Prod.fst then l.map Prod.fst else l.map Prod.fst ++ [k] := by
  induction l with
  | nil => simp [bumpCount]
  | cons p rest ih =>
    obtain ⟨k0, n0⟩ := p
    by_cases h0 : k0 = k
    · subst h0; simp [bumpCount]
    · have hne : ¬(k = k0) := fun hc => h0 hc.symm
      by_cases hmem : k ∈ rest.map Prod.fst <;>
        simp [bumpCount, h0, hne, hmem, ih]

theorem bumpCount_keys_nodup {κ : Type} [DecidableEq κ] (k : κ) {l : List (κ × Nat)}
    (h : (l.map Prod.fst).Nodup) : ((bumpCount k l).map Prod.fst).Nodup := by
  rw [bumpCount_keys]
  by_cases hmem : k ∈ l.map Prod.fst
  · simpa [hmem] using h
  · simp only [hmem, if_false]
    rw [List.nodup_append]
    refine ⟨h, List.nodup_singleton _, ?_⟩
    intro a ha hb
    simp only [List.mem_singleton] at hb
    subst hb
    exact hmem ha

/-- Count/presence characterisation of the occurrence tally. -/
theorem tally_fst_lookup (s : List Nat) :
    ∀ (l : List (List Nat × Vec3)) (acc : List (List Nat × Nat) × List (List Nat × Vec3)),
      ((lookupL ((l.foldl tallyStep acc).1) s).getD 0
          = (l.map Prod.fst).count s + (lookupL acc.1 s).getD 0)
      ∧ ((lookupL ((l.foldl tallyStep acc).1) s).isSome
          ↔ ((l.map Prod.fst).count s ≠ 0 ∨ (lookupL acc.1 s).isSome)) := by
  intro l
  induction l with
  | nil => intro acc; simp
  | cons p rest ih =>
    intro acc
    obtain ⟨f, c⟩ := p
    obtain ⟨ihg, ihs⟩ := ih (tallyStep acc (f, c))
    simp only [List.foldl_cons, List.map_cons]
    constructor
    · rw [ihg]
      simp only [tallyStep, lookupL_bumpCount]
      by_cases hf : s = f
      · subst hf
        rw [List.count_cons_self]
        simp
        omega
      · rw [List.count_cons_of_ne hf]
        simp [hf]
    · rw [ihs]
      simp only [tallyStep, lookupL_bumpCount]
      by_cases hf : s = f
      · subst hf
        rw [List.count_cons_self]
        simp
      · rw [List.count_cons_of_ne hf]
        simp [hf]

theorem tally_fst_keys_nodup :
    ∀ (l : List (List Nat × Vec3)) (acc : List (List Nat × Nat) × List (List Nat × Vec3)),
      (acc.1.map Prod.fst).Nodup → (((l.foldl tallyStep acc).1).map Prod.fst).Nodup := by
  intro l
  induction l with
  | nil => intro acc h; exact h
  | cons p rest ih =>
    intro acc h
    exact ih _ (bumpCount_keys_nodup p.1 h)

theorem putL_mem {κ α : Type} [DecidableEq κ] (k : κ) (v : α) (l : List (κ × α))
    {sv : κ × α} (h : sv ∈ putL k v l) : sv ∈ l ∨ sv = (k, v) := by
  induction l with
  | nil => simp only [putL, List.mem_singleton] at h; exact Or.inr h
  | cons p rest ih =>
    obtain ⟨k0, v0⟩ := p
    by_cases h0 : k0 = k
    · subst h0
      simp only [putL, if_true] at h
      rcases List.mem_cons.mp h with hh | hh
      · exact Or.inr hh
      · exact Or.inl (List.mem_cons_of_mem _ hh)
    · simp only [putL, if_neg h0] at h
      rcases List.mem_cons.mp h with hh | hh
      · exact Or.inl (hh ▸ List.mem_cons_self _ _)
      · rcases ih hh with h2 | h2
        · exact Or.inl (List.mem_cons_of_mem _ h2)
        · exact Or.inr h2

theorem putL_keys {κ α : Type} [DecidableEq κ] (k : κ) (v : α) (l : List (κ × α)) :
    (putL k v l).map Prod.fst
      = if k ∈ l.map Prod.fst then l.map Prod.fst else l.map Prod.fst ++ [k] := by
  induction l with
  | nil => simp [putL]
  | cons p rest ih =>
    obtain ⟨k0, v0⟩ := p
    by_cases h0 : k0 = k
    · subst h0; simp [putL]
    · have hne : ¬(k = k0) := fun hc => h0 hc.symm
      by_cases hmem : k ∈ rest.map Prod.fst <;>
        simp [putL, h0, hne, hmem, ih]

theorem putL_keys_mem {κ α : Type} [DecidableEq κ] (k : κ) (v : α) (l : List (κ × α))
    {s : κ} (h : s = k ∨ s ∈ l.map Prod.fst) : s ∈ (putL k v l).map Prod.fst := by
  rw [putL_keys]
  by_cases hmem : k ∈ l.map Prod.fst
  · rw [if_pos hmem]
    rcases h with rfl | h
    · exact hmem
    · exact h
  · rw [if_neg hmem]
    rcases h with rfl | h
    · simp
    · exact List.mem_append_left _ h

/-- Every centroid-map entry comes from a cell whose faces include the key. -/
theorem tally_snd_mem :
    ∀ (cs : List (List Nat)) (ps : List Vec3)
      (acc : List (List Nat × Nat) × List (List Nat × Vec3)) {sv : List Nat × Vec3},
      sv ∈ ((flatFaces ps cs).foldl tallyStep acc).2 →
      sv ∈ acc.2 ∨ ∃ ids ∈ cs, sv.1 ∈ cellFaces ids ∧ sv.2 = cellCentroid ps ids := by
  have hblock : ∀ (faces : List (List Nat)) (c : Vec3)
      (acc : List (List Nat × Nat) × List (List Nat × Vec3)) {sv : List Nat × Vec3},
      sv ∈ ((faces.map (fun f => (f, c))).foldl tallyStep acc).2 →
      sv ∈ acc.2 ∨ (sv.1 ∈ faces ∧ sv.2 = c) := by
    intro faces c
    induction faces with
    | nil => intro acc sv h; exact Or.inl h
    | cons f rest ih =>
      intro acc sv h
      simp only [List.map_cons, List.foldl_cons] at h
      rcases ih _ h with h2 | h2
      · rcases putL_mem f c acc.2 h2 with h3 | h3
        · exact Or.inl h3
        · right
          constructor
          · rw [h3]; exact List.mem_cons_self _ _
          · rw [h3]
      · exact Or.inr ⟨List.mem_cons_of_mem _ h2.1, h2.2⟩
  intro cs ps
  induction cs with
  | nil => intro acc sv h; exact Or.inl h
  | cons ids rest ih =>
    intro acc sv h
    simp only [flatFaces, List.map_cons, List.flatten_cons, List.foldl_append] at h
    have h' := ih _ (show sv ∈ ((flatFaces ps rest).foldl tallyStep _).2 by
      simpa [flatFaces] using h)
    rcases h' with h2 | h2
    · rcases hblock (cellFaces ids) (cellCentroid ps ids) acc h2 with h3 | h3
      · exact Or.inl h3
      · exact Or.inr ⟨ids, List.mem_cons_self _ _, h3.1, h3.2⟩
    · obtain ⟨ids2, hmem, hface, hc⟩ := h2
      exact Or.inr ⟨ids2, List.mem_cons_of_mem _ hmem, hface, hc⟩

/-- The centroid map holds an entry for every face that occurs. -/
theorem tally_snd_keys :
    ∀ (l : List (List Nat × Vec3)) (acc : List (List Nat × Nat) × List (List Nat × Vec3))
      {s : List Nat},
      s ∈ l.map Prod.fst ∨ s ∈ acc.2.map Prod.fst →
      s ∈ ((l.foldl tallyStep acc).2).map Prod.fst := by
  intro l
  induction l with
  | nil =>
    intro acc s h
    rcases h with h | h
    · simp at h
    · exact h
  | cons p rest ih =>
    intro acc s h
    obtain ⟨f, c⟩ := p
    simp only [List.map_cons, List.mem_cons] at h
    simp only [List.foldl_cons]
    rcases h with (h | h) | h
    · exact ih _ (Or.inr (putL_keys_mem f c acc.2 (Or.inl h)))
    · exact ih _ (Or.inl h)
    · exact ih _ (Or.inr (putL_keys_mem f c acc.2 (Or.inr h)))

theorem flatFaces_map_fst (ps : List Vec3) (cells : List (List Nat)) :
    (flatFaces ps cells).map Prod.fst = allCellFaces cells := by
  induction cells with
  | nil => rfl
  | cons ids rest ih =>
    have hblk : ∀ (L : List (List Nat)) (c : Vec3),
        (L.map (fun f => (f, c))).map Prod.fst = L := by
      intro L c
      induction L with
      | nil => rfl
      | cons x xs ihx =>
        simp only [List.map_cons]
        rw [ihx]
    simp only [flatFaces, allCellFaces, List.map_cons, List.flatten_cons,
      List.map_append] at ih ⊢
    rw [hblk]
    congr 1

/-- A face triple occurring only once is owned by a unique cell. -/
theorem countOne_unique_cell :
    ∀ (cells : List (List Nat)) (s ids ids2 : List Nat),
      (allCellFaces cells).count s = 1 →
      ids ∈ cells → s ∈ cellFaces ids →
      ids2 ∈ cells → s ∈ cellFaces ids2 → ids = ids2 := by
  have htwo : ∀ (cells : List (List Nat)) (s ids ids2 : List Nat),
      ids ∈ cells → ids2 ∈ cells → ids ≠ ids2 →
      s ∈ cellFaces ids → s ∈ cellFaces ids2 →
      2 ≤ (allCellFaces cells).count s := by
    intro cells
    induction cells with
    | nil => intro s ids ids2 h1; simp at h1
    | cons c rest ih =>
      intro s ids ids2 h1 h2 hne hs1 hs2
      simp only [allCellFaces, List.map_cons, List.flatten_cons, List.count_append]
      have hmem_flat : ∀ x : List Nat, x ∈ rest → s ∈ cellFaces x →
          1 ≤ ((rest.map cellFaces).flatten).count s := by
        intro x hx hsx
        have hsm : s ∈ (rest.map cellFaces).flatten :=
          List.mem_flatten.mpr ⟨cellFaces x, List.mem_map.mpr ⟨x, hx, rfl⟩, hsx⟩
        have := List.count_pos_iff.mpr hsm
        omega
      rcases List.mem_cons.mp h1 with rfl | h1'
      · rcases List.mem_cons.mp h2 with rfl | h2'
        · exact absurd rfl hne
        · have ha : 1 ≤ (cellFaces ids).count s := by
            have := List.count_pos_iff.mpr hs1
            omega
          have hb := hmem_flat ids2 h2' hs2
          omega
      · rcases List.mem_cons.mp h2 with rfl | h2'
        · have ha : 1 ≤ (cellFaces ids2).count s := by
            have := List.count_pos_iff.mpr hs2
            omega
          have hb := hmem_flat ids h1' hs1
          omega
      
        · have := ih s ids ids2 h1' h2' hne hs1 hs2
          simp only [allCellFaces] at this
          omega
  intro cells s ids ids2 hcount h1 hs1 h2 hs2
  by_contra hne
  have := htwo cells s ids ids2 h1 h2 hne hs1 hs2
  omega

/-- `delaunayIndices` as a `filterMap` over the tally (definitional). -/
theorem delaunayIndices_eq (ps : List Vec3) (cells : List (List Nat)) :
    delaunayIndices ps cells
      = (delaunayTally ps cells).1.filterMap (fun fc =>
          if fc.2 = 1 then
            match lookupL (delaunayTally ps cells).2 fc.1 with
            | some centroid => some (orientFace ps centroid fc.1)
            | none => none
          else none) := rfl

/-- C8 (amended): the Delaunay import keeps exactly the sorted face
triples occurring in exactly one tetrahedron (faces occurring twice or
more are discarded), and each kept face is emitted through `orientFace`:
its vertex order is flipped exactly when the face normal `(c-a)×(c-b)`
has NEGATIVE dot product with the direction from the face towards the
owning tetrahedron's centroid — i.e. when the normal points AWAY from the
centroid, not towards it as the original claim stated. -/
theorem C8_kept_faces_and_orientation (ps : List Vec3) (cells : List (List Nat))
    (t : List Nat) :
    t ∈ delaunayIndices ps cells ↔
      ∃ s, (allCellFaces cells).count s = 1
        ∧ ∃ ids ∈ cells, s ∈ cellFaces ids
        ∧ t = orientFace ps (cellCentroid ps ids) s := by
  rw [delaunayIndices_eq, List.mem_filterMap]
  have hnodup := tally_fst_keys_nodup (flatFaces ps cells) ([], []) (by simp)
  rw [← delaunayTally_eq_flat] at hnodup
  constructor
  · rintro ⟨⟨s, n⟩, hmem, hf⟩
    have hlook : lookupL (delaunayTally ps cells).1 s = some n :=
      mem_lookupL_of_nodup hnodup hmem
    have hg := (tally_fst_lookup s (flatFaces ps cells) ([], [])).1
    rw [← delaunayTally_eq_flat, hlook, flatFaces_map_fst] at hg
    simp only [lookupL_nil, Option.getD_some, Option.getD_none, Nat.add_zero] at hg
    by_cases h1 : n = 1
    · subst h1
      simp only [if_pos rfl] at hf
      cases hcent : lookupL (delaunayTally ps cells).2 s with
      | none => rw [hcent] at hf; simp at hf
      | some centroid =>
        rw [hcent] at hf
        have hmem2 : (s, centroid) ∈ (delaunayTally ps cells).2 := lookupL_mem hcent
        rw [delaunayTally_eq_flat] at hmem2
        rcases tally_snd_mem cells ps ([], []) hmem2 with h | ⟨ids, hids, hface, hcentroid⟩
        · simp at h
        · have hcv : centroid = cellCentroid ps ids := hcentroid
          refine ⟨s, hg.symm, ids, hids, hface, ?_⟩
          rw [← Option.some.inj hf, hcv]
    · rw [if_neg h1] at hf
      simp at hf
  · rintro ⟨s, hcount1, ids, hids, hface, ht⟩
    obtain ⟨hg, hs⟩ := tally_fst_lookup s (flatFaces ps cells) ([], [])
    rw [← delaunayTally_eq_flat, flatFaces_map_fst, hcount1] at hg hs
    simp only [lookupL_nil, Option.getD_none, Nat.add_zero, Option.isSome_none] at hg hs
    have hsome : (lookupL (delaunayTally ps cells).1 s).isSome := by
      rw [hs]
      left
      omega
    obtain ⟨n, hn⟩ := Option.isSome_iff_exists.mp hsome
    have hn1 : n = 1 := by rw [hn] at hg; simpa using hg
    subst hn1
    refine ⟨(s, 1), lookupL_mem hn, ?_⟩
    have hs_mem : s ∈ allCellFaces cells :=
      List.mem_flatten.mpr ⟨cellFaces ids, List.mem_map.mpr ⟨ids, hids, rfl⟩, hface⟩
    have hkey : s ∈ ((delaunayTally ps cells).2).map Prod.fst := by
      rw [delaunayTally_eq_flat]
      apply tally_snd_keys
      left
      rw [flatFaces_map_fst]
      exact hs_mem
    cases hcent : lookupL (delaunayTally ps cells).2 s with
    | none =>
      exfalso
      have hsk := lookupL_isSome_of_mem_keys hkey
      rw [hcent] at hsk
      simp at hsk
    | some centroid =>
      simp only [if_pos rfl, hcent]
      have hmem2 : (s, centroid) ∈ (delaunayTally ps cells).2 := lookupL_mem hcent
      rw [delaunayTally_eq_flat] at hmem2
      rcases tally_snd_mem cells ps ([], []) hmem2 with h | ⟨ids2, hids2, hface2, hc2⟩
      · simp at h
      · have hcv : centroid = cellCentroid ps ids2 := hc2
        have hsame : ids2 = ids :=
          countOne_unique_cell cells s ids2 ids hcount1 hids2 hface2 hids hface
        rw [ht, hcv, hsame]
        simp

/-- Points of the C8 counterexample: the unit tetrahedron. -/
def c8Points : List Vec3 := [(0, 0, 0), (1, 0, 0), (0, 1, 0), (0, 0, 1)]

/-- Cells of the C8 counterexample: one tetrahedron. -/
def c8Cells : List (List Nat) := [[0, 1, 2, 3]]

/-- Full evaluation of the Delaunay import on the unit tetrahedron. -/
theorem c8_eval : delaunayIndices c8Points c8Cells
    = [[0, 1, 2], [3, 1, 0], [0, 2, 3], [3, 2, 1]] := by
  norm_num [delaunayIndices, delaunayTally, cellFaces, sortNat, insertSorted, cellCentroid,
    orientFace, bumpCount, putL, lookupL, posAt, vdot, vcross, vsub, vsmul, vsum, vadd,
    vzero, c8Points, c8Cells, List.filterMap_cons]

/-- C8 counterexample: on the unit tetrahedron the face `[0, 1, 2]` has
normal `(c-a)×(c-b) = (0,0,1)` pointing TOWARDS the centroid
(`norm ⬝ (centroid - a) = 1/4 > 0`), so under the claim's reading
("flipped when the normal points inwards, towards the centroid") it would
be emitted flipped as `[2, 1, 0]`; the code keeps it unflipped. -/
theorem C8_counterexample_flip_direction :
    [0, 1, 2] ∈ delaunayIndices c8Points c8Cells
    ∧ [2, 1, 0] ∉ delaunayIndices c8Points c8Cells
    ∧ 0 < vdot (vcross (vsub (posAt c8Points 2) (posAt c8Points 0))
                       (vsub (posAt c8Points 2) (posAt c8Points 1)))
               (vsub (cellCentroid c8Points [0, 1, 2, 3]) (posAt c8Points 0)) := by
  refine ⟨?_, ?_, ?_⟩
  · rw [c8_eval]
    decide
  · rw [c8_eval]
    decide
  · norm_num [vdot, vcross, vsub, vsmul, vsum, vadd, vzero, posAt, c8Points,
      cellCentroid, sortNat, insertSorted]


/-! ### C1: idempotence of `insert_or_get_edge` -/

namespace Mesh

/-- The end-vertex projection of a halfedge slot; `halfedge_from_to`'s
find is determined by it. -/
def heProj (m : Mesh) (x : Nat) : Option Nat := (m.halfedges.get x).map (·.end_vertex)

/-- The find predicate of `halfedge_from_to` as a standalone function. -/
def hePredB (m : Mesh) (e x : Nat) : Bool :=
  match m.halfedges.get x with
  | some he => he.end_vertex = e
  | none => false

theorem findHeTo_eq_find (m : Mesh) (l : List Nat) (e : Nat) :
    findHeTo m l e = l.find? (hePredB m e) := rfl

theorem hePredB_eq_proj (m : Mesh) (e x : Nat) :
    hePredB m e x = decide (heProj m x = some e) := by
  cases hg : m.halfedges.get x <;> simp [hePredB, heProj, hg]

theorem find?_congr_on {p q : Nat → Bool} :
    ∀ {l : List Nat}, (∀ x ∈ l, p x = q x) → l.find? p = l.find? q := by
  intro l
  induction l with
  | nil => intro h; rfl
  | cons x xs ih =>
    intro h
    simp only [List.find?_cons]
    rw [h x (List.mem_cons_self _ _)]
    cases q x with
    | true => rfl
    | false => exact ih (fun y hy => h y (List.mem_cons_of_mem _ hy))

theorem findHeTo_congr {m m' : Mesh} {l : List Nat} (e : Nat)
    (h : ∀ x ∈ l, heProj m' x = heProj m x) :
    findHeTo m' l e = findHeTo m l e := by
  rw [findHeTo_eq_find, findHeTo_eq_find]
  apply find?_congr_on
  intro x hx
  rw [hePredB_eq_proj, hePredB_eq_proj, h x hx]

theorem findHeTo_append_none {m : Mesh} {l₁ : List Nat} {e : Nat}
    (h : findHeTo m l₁ e = none) (l₂ : List Nat) :
    findHeTo m (l₁ ++ l₂) e = findHeTo m l₂ e := by
  rw [findHeTo_eq_find] at h ⊢
  rw [findHeTo_eq_find]
  induction l₁ with
  | nil => rfl
  | cons x xs ih =>
    simp only [List.find?_cons, List.cons_append] at h ⊢
    cases hp : hePredB m e x with
    | true => rw [hp] at h; simp at h
    | false =>
      rw [hp] at h
      exact ih h

theorem findHeTo_eq_some_spec {m : Mesh} {l : List Nat} {e h : Nat}
    (hf : findHeTo m l e = some h) :
    h ∈ l ∧ ∃ he, m.halfedges.get h = some he ∧ he.end_vertex = e := by
  rw [findHeTo_eq_find] at hf
  refine ⟨List.mem_of_find?_eq_some hf, ?_⟩
  have hp := List.find?_some hf
  rw [hePredB_eq_proj] at hp
  have hp' := of_decide_eq_true hp
  cases hg : m.halfedges.get h with
  | none => rw [heProj, hg] at hp'; simp at hp'
  | some he =>
    rw [heProj, hg] at hp'
    simp at hp'
    exact ⟨he, rfl, hp'⟩

/-- `ensureOutgoingEntry` leaves the halfedge arena untouched. -/
theorem ensureOutgoing_halfedges (m : Mesh) (v : Nat) :
    (m.ensureOutgoingEntry v).halfedges = m.halfedges := by
  unfold ensureOutgoingEntry
  split <;> rfl

theorem ensureOutgoing_vertices (m : Mesh) (v : Nat) :
    (m.ensureOutgoingEntry v).vertices = m.vertices := by
  unfold ensureOutgoingEntry
  split <;> rfl

theorem ensureOutgoing_get_self (m : Mesh) (v : Nat) :
    (m.ensureOutgoingEntry v).outgoing_halfedges.get v
      = some ((m.outgoing_halfedges.get v).getD []) := by
  unfold ensureOutgoingEntry
  split
  · next hs =>
    cases hg : m.outgoing_halfedges.get v with
    | none => rw [hg] at hs; simp at hs
    | some l => simp [hg]
  · next hs =>
    cases hg : m.outgoing_halfedges.get v with
    | none => simp [hg]
    | some l => rw [hg] at hs; simp at hs

theorem ensureOutgoing_get_ne (m : Mesh) {v w : Nat} (h : w ≠ v) :
    (m.ensureOutgoingEntry v).outgoing_halfedges.get w = m.outgoing_halfedges.get w := by
  unfold ensureOutgoingEntry
  split
  · rfl
  · simp [h]

/-- `halfedge_from_to` in closed form. -/
theorem halfedge_from_to_eq (m : Mesh) (a e : Nat) :
    m.halfedge_from_to a e
      = (m.ensureOutgoingEntry a,
         findHeTo m ((m.outgoing_halfedges.get a).getD []) e) := by
  have hfe : ∀ l, findHeTo (m.ensureOutgoingEntry a) l e = findHeTo m l e := by
    intro l
    apply findHeTo_congr
    intro x hx
    simp [heProj, Arena.get, ensureOutgoing_halfedges]
  simp only [halfedge_from_to, ensureOutgoing_get_self, Option.getD_some, hfe]

/-- The settled state of the edge `(a, b)`: the two directed finds return
`h1` and `h2`, those halfedges are live mutual twins with the right end
vertices, and the canonical outgoing halfedges of `a` and `b` point at
them. -/
def EdgeSettled (m : Mesh) (a b h1 h2 : Nat) : Prop :=
  (∃ la, m.outgoing_halfedges.get a = some la ∧ findHeTo m la b = some h1)
  ∧ (∃ lb, m.outgoing_halfedges.get b = some lb ∧ findHeTo m lb a = some h2)
  ∧ (∃ e1, m.halfedges.get h1 = some e1 ∧ e1.end_vertex = b ∧ e1.twin = some h2)
  ∧ (∃ e2, m.halfedges.get h2 = some e2 ∧ e2.end_vertex = a ∧ e2.twin = some h1)
  ∧ m.vertices.get a = some ⟨some h1⟩
  ∧ m.vertices.get b = some ⟨some h2⟩

theorem EdgeSettled.swap {m : Mesh} {a b h1 h2 : Nat} (h : EdgeSettled m a b h1 h2) :
    EdgeSettled m b a h2 h1 := by
  obtain ⟨ha, hb, he1, he2, hva, hvb⟩ := h
  exact ⟨hb, ha, he2, he1, hvb, hva⟩

/-- `insert_or_get_edge_inner` in projection form. -/
theorem insert_or_get_edge_inner_unfold (m : Mesh) (a b : Nat) :
    m.insert_or_get_edge_inner a b
      = (match (m.halfedge_from_to a b).2,
               ((m.halfedge_from_to a b).1.halfedge_from_to b a).2 with
         | some h1, some h2 =>
           match ((m.halfedge_from_to a b).1.halfedge_from_to b a).1.halfedges.get h1,
                 ((m.halfedge_from_to a b).1.halfedge_from_to b a).1.halfedges.get h2 with
           | some _, some _ =>
             (((m.halfedge_from_to a b).1.halfedge_from_to b a).1, some ⟨h1, h2, false, false⟩)
           | _, _ => (((m.halfedge_from_to a b).1.halfedge_from_to b a).1, none)
         | some h1, none =>
           ((((m.halfedge_from_to a b).1.halfedge_from_to b a).1.insert_halfedge b a).1,
            some ⟨h1,
                  (((m.halfedge_from_to a b).1.halfedge_from_to b a).1.insert_halfedge b a).2,
                  false, true⟩)
         | none, some h2 =>
           ((((m.halfedge_from_to a b).1.halfedge_from_to b a).1.insert_halfedge a b).1,
            some ⟨(((m.halfedge_from_to a b).1.halfedge_from_to b a).1.insert_halfedge a b).2,
                  h2, true, false⟩)
         | none, none => (((m.halfedge_from_to a b).1.halfedge_from_to b a).1, none)) := by
  rfl

/-- `insert_or_get_edge` in projection form. -/
theorem insert_or_get_edge_unfold (m : Mesh) (a b : Nat) :
    m.insert_or_get_edge a b
      = (let p := m.insert_or_get_edge_inner a b
         let q : Mesh × InsertOrGetEdge :=
           match p.2 with
           | some r => (p.1, r)
           | none =>
             (((p.1.insert_halfedge a b).1.insert_halfedge b a).1,
              ⟨(p.1.insert_halfedge a b).2,
               ((p.1.insert_halfedge a b).1.insert_halfedge b a).2, true, true⟩)
         let h4 := q.1.halfedges.modify q.2.start_to_end_he_id
           (fun he => { he with twin := some q.2.twin_he_id })
         let m4 := { q.1 with halfedges := h4 }
         let h5 := m4.halfedges.modify q.2.twin_he_id
           (fun he => { he with twin := some q.2.start_to_end_he_id })
         let m5 := { m4 with halfedges := h5 }
         let m6 := match m5.vertices.get a with
           | some v =>
             let vs := m5.vertices.modify a
               (fun _ => { v with outgoing_halfedge := some q.2.start_to_end_he_id })
             { m5 with vertices := vs }
           | none => m5
         let m7 := match m6.vertices.get b with
           | some v =>
             let vs := m6.vertices.modify b
               (fun _ => { v with outgoing_halfedge := some q.2.twin_he_id })
             { m6 with vertices := vs }
           | none => m6
         (m7, q.2)) := rfl

/-- Overwriting the `twin` field with its standing value is the identity. -/
theorem twin_set_self {he : Halfedge} {t : Option Nat} (h : he.twin = t) :
    { he with twin := t } = he := by
  cases he
  cases h
  rfl

/-- A settled edge is a fixpoint of `insert_or_get_edge`: the call returns
the standing pair with both freshness flags `false` and leaves the mesh
unchanged. -/
theorem insert_or_get_edge_of_settled {m : Mesh} {a b h1 h2 : Nat}
    (hs : EdgeSettled m a b h1 h2) :
    m.insert_or_get_edge a b = (m, ⟨h1, h2, false, false⟩) := by
  obtain ⟨⟨la, hla, hfa⟩, ⟨lb, hlb, hfb⟩, ⟨e1, he1, he1e, he1t⟩, ⟨e2, he2, he2e, he2t⟩,
    hva, hvb⟩ := hs
  have hea : m.ensureOutgoingEntry a = m := by
    unfold ensureOutgoingEntry
    rw [hla]
    rfl
  have heb : m.ensureOutgoingEntry b = m := by
    unfold ensureOutgoingEntry
    rw [hlb]
    rfl
  have hfta : m.halfedge_from_to a b = (m, some h1) := by
    rw [halfedge_from_to_eq, hea, hla]
    simpa using hfa
  have hftb : m.halfedge_from_to b a = (m, some h2) := by
    rw [halfedge_from_to_eq, heb, hlb]
    simpa using hfb
  have hinner : m.insert_or_get_edge_inner a b = (m, some ⟨h1, h2, false, false⟩) := by
    rw [insert_or_get_edge_inner_unfold]
    simp only [hfta, hftb, he1, he2]
  have hm4 : m.halfedges.modify h1 (fun he => { he with twin := some h2 }) = m.halfedges :=
    Arena.modify_self he1 (twin_set_self he1t)
  have hm5 : m.halfedges.modify h2 (fun he => { he with twin := some h1 }) = m.halfedges :=
    Arena.modify_self he2 (twin_set_self he2t)
  have hmva : m.vertices.modify a (fun _ => (⟨some h1⟩ : Vertex)) = m.vertices :=
    Arena.modify_self hva rfl
  have hmvb : m.vertices.modify b (fun _ => (⟨some h2⟩ : Vertex)) = m.vertices :=
    Arena.modify_self hvb rfl
  rw [insert_or_get_edge_unfold]
  simp only [hinner, hm4, hm5, hva, hvb, hmva, hmvb]

/-- The common tail of `insert_or_get_edge` (twin wiring and canonical
outgoing-halfedge writes), factored out of the translation verbatim. -/
def finishEdge (mP : Mesh) (a b h1 h2 : Nat) : Mesh :=
  let h4 := mP.halfedges.modify h1 (fun he => { he with twin := some h2 })
  let m4 := { mP with halfedges := h4 }
  let h5 := m4.halfedges.modify h2 (fun he => { he with twin := some h1 })
  let m5 := { m4 with halfedges := h5 }
  let m6 := match m5.vertices.get a with
    | some v =>
      let vs := m5.vertices.modify a (fun _ => { v with outgoing_halfedge := some h1 })
      { m5 with vertices := vs }
    | none => m5
  match m6.vertices.get b with
  | some v =>
    let vs := m6.vertices.modify b (fun _ => { v with outgoing_halfedge := some h2 })
    { m6 with vertices := vs }
  | none => m6

theorem insert_or_get_edge_eq_some {m mP : Mesh} {a b : Nat} {r : InsertOrGetEdge}
    (h : m.insert_or_get_edge_inner a b = (mP, some r)) :
    m.insert_or_get_edge a b
      = (finishEdge mP a b r.start_to_end_he_id r.twin_he_id, r) := by
  rw [insert_or_get_edge_unfold]
  simp only [h, finishEdge]

theorem insert_or_get_edge_eq_none {m mP : Mesh} {a b : Nat}
    (h : m.insert_or_get_edge_inner a b = (mP, none)) :
    m.insert_or_get_edge a b
      = (finishEdge ((mP.insert_halfedge a b).1.insert_halfedge b a).1 a b
           (mP.insert_halfedge a b).2
           ((mP.insert_halfedge a b).1.insert_halfedge b a).2,
         ⟨(mP.insert_halfedge a b).2,
          ((mP.insert_halfedge a b).1.insert_halfedge b a).2, true, true⟩) := by
  rw [insert_or_get_edge_unfold]
  simp only [h, finishEdge]

theorem finishEdge_halfedges (mP : Mesh) (a b h1 h2 : Nat) :
    (finishEdge mP a b h1 h2).halfedges
      = (mP.halfedges.modify h1 (fun he => { he with twin := some h2 })).modify h2
          (fun he => { he with twin := some h1 }) := by
  simp only [finishEdge]
  split <;> split <;> rfl

theorem finishEdge_outgoing (mP : Mesh) (a b h1 h2 : Nat) :
    (finishEdge mP a b h1 h2).outgoing_halfedges = mP.outgoing_halfedges := by
  simp only [finishEdge]
  split <;> split <;> rfl

/-- End-vertex projections are unchanged by a twin-only modify. -/
theorem arena_proj_modify (A : Arena Halfedge) (k x : Nat) (f : Halfedge → Halfedge)
    (hf : ∀ he, (f he).end_vertex = he.end_vertex) :
    ((A.modify k f).get x).map (·.end_vertex) = (A.get x).map (·.end_vertex) := by
  rw [Arena.get_modify]
  by_cases h : x = k
  · subst h
    cases A.get x <;> simp [hf]
  · simp [h]

theorem heProj_finishEdge (mP : Mesh) (a b h1 h2 x : Nat) :
    heProj (finishEdge mP a b h1 h2) x = heProj mP x := by
  unfold heProj
  rw [finishEdge_halfedges]
  rw [arena_proj_modify (mP.halfedges.modify h1 fun he => { he with twin := some h2 }) h2 x
      (fun he => { he with twin := some h1 }) (fun he => rfl),
    arena_proj_modify mP.halfedges h1 x (fun he => { he with twin := some h2 }) (fun he => rfl)]

theorem findHeTo_finishEdge (mP : Mesh) (a b h1 h2 : Nat) (l : List Nat) (e : Nat) :
    findHeTo (finishEdge mP a b h1 h2) l e = findHeTo mP l e :=
  findHeTo_congr e (fun x _ => heProj_finishEdge mP a b h1 h2 x)

theorem finishEdge_vertices_get {mP : Mesh} {a b : Nat} (h1 h2 : Nat) (hab : a ≠ b)
    {va vb : Vertex} (hva : mP.vertices.get a = some va) (hvb : mP.vertices.get b = some vb) :
    (finishEdge mP a b h1 h2).vertices.get a = some ⟨some h1⟩
    ∧ (finishEdge mP a b h1 h2).vertices.get b = some ⟨some h2⟩ := by
  have hba : ¬(b = a) := fun hc => hab hc.symm
  constructor
  · simp only [finishEdge, hva, Arena.get_modify, if_neg hba, hvb]
    simp [Arena.get_modify, hab, hva]
  · simp only [finishEdge, hva, Arena.get_modify, if_neg hba, hvb]
    simp [Arena.get_modify, hvb]

/-- The finish phase establishes the settled state. -/
theorem finishEdge_settled {mP : Mesh} {a b h1 h2 : Nat} {lA lB : List Nat}
    {e1 e2 : Halfedge}
    (hab : a ≠ b) (h12 : h1 ≠ h2)
    (hla : mP.outgoing_halfedges.get a = some lA) (hfA : findHeTo mP lA b = some h1)
    (hlb : mP.outgoing_halfedges.get b = some lB) (hfB : findHeTo mP lB a = some h2)
    (he1 : mP.halfedges.get h1 = some e1) (he1e : e1.end_vertex = b)
    (he2 : mP.halfedges.get h2 = some e2) (he2e : e2.end_vertex = a)
    (hva : (mP.vertices.get a).isSome) (hvb : (mP.vertices.get b).isSome) :
    EdgeSettled (finishEdge mP a b h1 h2) a b h1 h2 := by
  obtain ⟨va, hva⟩ := Option.isSome_iff_exists.mp hva
  obtain ⟨vb, hvb⟩ := Option.isSome_iff_exists.mp hvb
  have h21 : ¬(h2 = h1) := fun hc => h12 hc.symm
  obtain ⟨hga, hgb⟩ := finishEdge_vertices_get h1 h2 hab hva hvb
  refine ⟨⟨lA, ?_, ?_⟩, ⟨lB, ?_, ?_⟩, ?_, ?_, hga, hgb⟩
  · rw [finishEdge_outgoing]
    exact hla
  · rw [findHeTo_finishEdge]
    exact hfA
  · rw [finishEdge_outgoing]
    exact hlb
  · rw [findHeTo_finishEdge]
    exact hfB
  · refine ⟨{ e1 with twin := some h2 }, ?_, he1e, rfl⟩
    have : Arena.get (finishEdge mP a b h1 h2).halfedges h1
        = some { e1 with twin := some h2 } := by
      rw [finishEdge_halfedges]
      simp [Arena.get_modify, h12, he1]
    exact this
  · refine ⟨{ e2 with twin := some h1 }, ?_, he2e, rfl⟩
    have : Arena.get (finishEdge mP a b h1 h2).halfedges h2
        = some { e2 with twin := some h1 } := by
      rw [finishEdge_halfedges]
      simp [Arena.get_modify, h21, he2]
    exact this

theorem findHeTo_halfedges_congr {m m' : Mesh} (h : m'.halfedges = m.halfedges)
    {l : List Nat} {e : Nat} : findHeTo m' l e = findHeTo m l e :=
  findHeTo_congr e (fun x _ => by unfold heProj; rw [h])

theorem mem_keys_of_lookupE_some {α : Type} {l : List (Nat × α)} {k : Nat} {v : α}
    (h : lookupE l k = some v) : k ∈ l.map Prod.fst := by
  by_contra hn
  rw [lookupE_eq_none_of_not_mem_keys hn] at h
  exact absurd h (by simp)

theorem arena_lt_next_of_get_some {α : Type} {A : Arena α} (hwf : A.WF) {k : Nat} {v : α}
    (h : A.get k = some v) : k < A.next :=
  hwf _ (mem_keys_of_lookupE_some h)

/-- `insert_halfedge` in closed form. -/
theorem insert_halfedge_eq (m : Mesh) (s e : Nat) :
    m.insert_halfedge s e
      = ({ m with
            halfedges := (m.halfedges.insert ⟨e, none, none, none⟩).1,
            outgoing_halfedges := m.outgoing_halfedges.insert s
              (((m.outgoing_halfedges.get s).getD []) ++ [m.halfedges.next]) },
         m.halfedges.next) := rfl

theorem insert_halfedge_snd (m : Mesh) (s e : Nat) :
    (m.insert_halfedge s e).2 = m.halfedges.next := rfl

theorem insert_halfedge_vertices (m : Mesh) (s e : Nat) :
    (m.insert_halfedge s e).1.vertices = m.vertices := rfl

theorem insert_halfedge_next (m : Mesh) (s e : Nat) :
    (m.insert_halfedge s e).1.halfedges.next = m.halfedges.next + 1 := rfl

theorem insert_halfedge_get_lt (m : Mesh) (s e : Nat) {x : Nat}
    (hx : x < m.halfedges.next) :
    (m.insert_halfedge s e).1.halfedges.get x = m.halfedges.get x := by
  rw [insert_halfedge_eq]
  exact Arena.get_insert_of_ne m.halfedges _ (Nat.ne_of_lt hx)

theorem insert_halfedge_get_fresh {m : Mesh} (hwf : m.halfedges.WF) (s e : Nat) :
    (m.insert_halfedge s e).1.halfedges.get m.halfedges.next
      = some ⟨e, none, none, none⟩ := by
  rw [insert_halfedge_eq]
  exact Arena.get_insert_fresh hwf _

theorem insert_halfedge_wf {m : Mesh} (hwf : m.halfedges.WF) (s e : Nat) :
    (m.insert_halfedge s e).1.halfedges.WF := by
  rw [insert_halfedge_eq]
  exact Arena.wf_insert hwf _

theorem insert_halfedge_outgoing_get (m : Mesh) (s e w : Nat) :
    (m.insert_halfedge s e).1.outgoing_halfedges.get w
      = if w = s
        then some (((m.outgoing_halfedges.get s).getD []) ++ [m.halfedges.next])
        else m.outgoing_halfedges.get w := by
  rw [insert_halfedge_eq]
  exact SMap.get_insert _ _ _ _

theorem heProj_insert_halfedge_lt (m : Mesh) (s e : Nat) {x : Nat}
    (hx : x < m.halfedges.next) :
    heProj (m.insert_halfedge s e).1 x = heProj m x := by
  unfold heProj
  rw [insert_halfedge_get_lt m s e hx]

theorem findHeTo_singleton_some {m : Mesh} {n e : Nat} {he : Halfedge}
    (hg : m.halfedges.get n = some he) (hee : he.end_vertex = e) :
    findHeTo m [n] e = some n := by
  rw [findHeTo_eq_find]
  simp [List.find?_cons, hePredB, hg, hee]

theorem inner_eq_SS {m : Mesh} {a b h1 h2 : Nat} {e1 e2 : Halfedge}
    (hba' : ¬(b = a))
    (ho1 : findHeTo m ((m.outgoing_halfedges.get a).getD []) b = some h1)
    (ho2 : findHeTo m ((m.outgoing_halfedges.get b).getD []) a = some h2)
    (hge1 : m.halfedges.get h1 = some e1) (hge2 : m.halfedges.get h2 = some e2) :
    m.insert_or_get_edge_inner a b
      = ((m.ensureOutgoingEntry a).ensureOutgoingEntry b, some ⟨h1, h2, false, false⟩) := by
  have h2eq : (m.ensureOutgoingEntry a).halfedge_from_to b a
      = ((m.ensureOutgoingEntry a).ensureOutgoingEntry b,
         findHeTo m ((m.outgoing_halfedges.get b).getD []) a) := by
    rw [halfedge_from_to_eq, ensureOutgoing_get_ne m hba',
        findHeTo_halfedges_congr (ensureOutgoing_halfedges m a)]
  rw [insert_or_get_edge_inner_unfold]
  simp only [halfedge_from_to_eq m a b, h2eq, ho1, ho2, ensureOutgoing_halfedges,
    hge1, hge2]

theorem inner_eq_SN {m : Mesh} {a b h1 : Nat}
    (hba' : ¬(b = a))
    (ho1 : findHeTo m ((m.outgoing_halfedges.get a).getD []) b = some h1)
    (ho2 : findHeTo m ((m.outgoing_halfedges.get b).getD []) a = none) :
    m.insert_or_get_edge_inner a b
      = ((((m.ensureOutgoingEntry a).ensureOutgoingEntry b).insert_halfedge b a).1,
         some ⟨h1,
               (((m.ensureOutgoingEntry a).ensureOutgoingEntry b).insert_halfedge b a).2,
               false, true⟩) := by
  have h2eq : (m.ensureOutgoingEntry a).halfedge_from_to b a
      = ((m.ensureOutgoingEntry a).ensureOutgoingEntry b,
         findHeTo m ((m.outgoing_halfedges.get b).getD []) a) := by
    rw [halfedge_from_to_eq, ensureOutgoing_get_ne m hba',
        findHeTo_halfedges_congr (ensureOutgoing_halfedges m a)]
  rw [insert_or_get_edge_inner_unfold]
  simp only [halfedge_from_to_eq m a b, h2eq, ho1, ho2]

theorem inner_eq_NS {m : Mesh} {a b h2 : Nat}
    (hba' : ¬(b = a))
    (ho1 : findHeTo m ((m.outgoing_halfedges.get a).getD []) b = none)
    (ho2 : findHeTo m ((m.outgoing_halfedges.get b).getD []) a = some h2) :
    m.insert_or_get_edge_inner a b
      = ((((m.ensureOutgoingEntry a).ensureOutgoingEntry b).insert_halfedge a b).1,
         some ⟨(((m.ensureOutgoingEntry a).ensureOutgoingEntry b).insert_halfedge a b).2,
               h2, true, false⟩) := by
  have h2eq : (m.ensureOutgoingEntry a).halfedge_from_to b a
      = ((m.ensureOutgoingEntry a).ensureOutgoingEntry b,
         findHeTo m ((m.outgoing_halfedges.get b).getD []) a) := by
    rw [halfedge_from_to_eq, ensureOutgoing_get_ne m hba',
        findHeTo_halfedges_congr (ensureOutgoing_halfedges m a)]
  rw [insert_or_get_edge_inner_unfold]
  simp only [halfedge_from_to_eq m a b, h2eq, ho1, ho2]

theorem inner_eq_NN {m : Mesh} {a b : Nat}
    (hba' : ¬(b = a))
    (ho1 : findHeTo m ((m.outgoing_halfedges.get a).getD []) b = none)
    (ho2 : findHeTo m ((m.outgoing_halfedges.get b).getD []) a = none) :
    m.insert_or_get_edge_inner a b
      = ((m.ensureOutgoingEntry a).ensureOutgoingEntry b, none) := by
  have h2eq : (m.ensureOutgoingEntry a).halfedge_from_to b a
      = ((m.ensureOutgoingEntry a).ensureOutgoingEntry b,
         findHeTo m ((m.outgoing_halfedges.get b).getD []) a) := by
    rw [halfedge_from_to_eq, ensureOutgoing_get_ne m hba',
        findHeTo_halfedges_congr (ensureOutgoing_halfedges m a)]
  rw [insert_or_get_edge_inner_unfold]
  simp only [halfedge_from_to_eq m a b, h2eq, ho1, ho2]

/-- A first `insert_or_get_edge` call establishes the settled state for
the pair it returns (live endpoints, well-formed halfedge arena, and
adjacency lists holding only already-allocated ids). -/
theorem insert_establishes_settled (m : Mesh) (a b : Nat) (hab : a ≠ b)
    (hwf : m.halfedges.WF)
    (hba : ∀ x ∈ (m.outgoing_halfedges.get a).getD [], x < m.halfedges.next)
    (hbb : ∀ x ∈ (m.outgoing_halfedges.get b).getD [], x < m.halfedges.next)
    (hva : (m.vertices.get a).isSome) (hvb : (m.vertices.get b).isSome) :
    EdgeSettled (m.insert_or_get_edge a b).1 a b
      (m.insert_or_get_edge a b).2.start_to_end_he_id
      (m.insert_or_get_edge a b).2.twin_he_id := by
  have hba' : ¬(b = a) := fun hc => hab hc.symm
  have hBh : ((m.ensureOutgoingEntry a).ensureOutgoingEntry b).halfedges = m.halfedges := by
    rw [ensureOutgoing_halfedges, ensureOutgoing_halfedges]
  have hBv : ((m.ensureOutgoingEntry a).ensureOutgoingEntry b).vertices = m.vertices := by
    rw [ensureOutgoing_vertices, ensureOutgoing_vertices]
  have hBga : ((m.ensureOutgoingEntry a).ensureOutgoingEntry b).outgoing_halfedges.get a
      = some ((m.outgoing_halfedges.get a).getD []) := by
    rw [ensureOutgoing_get_ne _ hab, ensureOutgoing_get_self]
  have hBgb : ((m.ensureOutgoingEntry a).ensureOutgoingEntry b).outgoing_halfedges.get b
      = some ((m.outgoing_halfedges.get b).getD []) := by
    rw [ensureOutgoing_get_self, ensureOutgoing_get_ne m hba']
  have hwfB : ((m.ensureOutgoingEntry a).ensureOutgoingEntry b).halfedges.WF := by
    rw [hBh]
    exact hwf
  have hprojB : ∀ x : Nat,
      heProj ((m.ensureOutgoingEntry a).ensureOutgoingEntry b) x = heProj m x := by
    intro x
    unfold heProj
    rw [hBh]
  have hnextB : ((m.ensureOutgoingEntry a).ensureOutgoingEntry b).halfedges.next
      = m.halfedges.next := by
    rw [hBh]
  cases ho1 : findHeTo m ((m.outgoing_halfedges.get a).getD []) b with
  | some h1 =>
    obtain ⟨hm1, e1, hge1, hee1⟩ := findHeTo_eq_some_spec ho1
    have hgeB1 : ((m.ensureOutgoingEntry a).ensureOutgoingEntry b).halfedges.get h1
        = some e1 := by
      rw [hBh]
      exact hge1
    cases ho2 : findHeTo m ((m.outgoing_halfedges.get b).getD []) a with
    | some h2 =>
      obtain ⟨hm2, e2, hge2, hee2⟩ := findHeTo_eq_some_spec ho2
      have hgeB2 : ((m.ensureOutgoingEntry a).ensureOutgoingEntry b).halfedges.get h2
          = some e2 := by
        rw [hBh]
        exact hge2
      have h12 : h1 ≠ h2 := by
        intro hc
        subst hc
        rw [hge1] at hge2
        have he12 : e1 = e2 := Option.some.inj hge2
        subst he12
        exact hba' (hee1.symm.trans hee2)
      have hinner := inner_eq_SS hba' ho1 ho2 hge1 hge2
      rw [insert_or_get_edge_eq_some hinner]
      exact finishEdge_settled hab h12 hBga
        (by rw [findHeTo_halfedges_congr hBh]; exact ho1) hBgb
        (by rw [findHeTo_halfedges_congr hBh]; exact ho2)
        hgeB1 hee1 hgeB2 hee2
        (by rw [hBv]; exact hva) (by rw [hBv]; exact hvb)
    | none =>
      have hinner := inner_eq_SN hba' ho1 ho2
      rw [insert_or_get_edge_eq_some hinner]
      have h1lt : h1 < ((m.ensureOutgoingEntry a).ensureOutgoingEntry b).halfedges.next :=
        arena_lt_next_of_get_some hwfB hgeB1
      have hCproj : ∀ x : Nat, x < m.halfedges.next →
          heProj (((m.ensureOutgoingEntry a).ensureOutgoingEntry b).insert_halfedge b a).1 x
            = heProj m x := by
        intro x hx
        rw [heProj_insert_halfedge_lt _ b a (by rw [hnextB]; exact hx), hprojB]
      have hCfresh : (((m.ensureOutgoingEntry a).ensureOutgoingEntry b).insert_halfedge b a).1.halfedges.get
            (((m.ensureOutgoingEntry a).ensureOutgoingEntry b).insert_halfedge b a).2
          = some ⟨a, none, none, none⟩ := by
        rw [insert_halfedge_snd]
        exact insert_halfedge_get_fresh hwfB b a
      have h1ltm : h1 < m.halfedges.next := by rw [← hnextB]; exact h1lt
      have hne : h1 ≠ (((m.ensureOutgoingEntry a).ensureOutgoingEntry b).insert_halfedge b a).2 := by
        rw [insert_halfedge_snd, hnextB]
        exact Nat.ne_of_lt h1ltm
      have hla : (((m.ensureOutgoingEntry a).ensureOutgoingEntry b).insert_halfedge b a).1.outgoing_halfedges.get a
          = some ((m.outgoing_halfedges.get a).getD []) := by
        rw [insert_halfedge_outgoing_get, if_neg hab, hBga]
      have hfA : findHeTo (((m.ensureOutgoingEntry a).ensureOutgoingEntry b).insert_halfedge b a).1
          ((m.outgoing_halfedges.get a).getD []) b = some h1 := by
        rw [findHeTo_congr b (fun x hx => hCproj x (hba x hx))]
        exact ho1
      have hlb : (((m.ensureOutgoingEntry a).ensureOutgoingEntry b).insert_halfedge b a).1.outgoing_halfedges.get b
          = some (((m.outgoing_halfedges.get b).getD [])
              ++ [(((m.ensureOutgoingEntry a).ensureOutgoingEntry b).insert_halfedge b a).2]) := by
        rw [insert_halfedge_outgoing_get, if_pos rfl, hBgb, insert_halfedge_snd]
        rfl
      have hfB : findHeTo (((m.ensureOutgoingEntry a).ensureOutgoingEntry b).insert_halfedge b a).1
          (((m.outgoing_halfedges.get b).getD [])
            ++ [(((m.ensureOutgoingEntry a).ensureOutgoingEntry b).insert_halfedge b a).2]) a
          = some (((m.ensureOutgoingEntry a).ensureOutgoingEntry b).insert_halfedge b a).2 := by
        rw [findHeTo_append_none]
        · exact findHeTo_singleton_some hCfresh rfl
        · rw [findHeTo_congr a (fun x hx => hCproj x (hbb x hx))]
          exact ho2
      have hge1C : (((m.ensureOutgoingEntry a).ensureOutgoingEntry b).insert_halfedge b a).1.halfedges.get h1
          = some e1 := by
        rw [insert_halfedge_get_lt _ b a (by rw [hnextB]; exact h1ltm)]
        exact hgeB1
      have hvaC : ((((m.ensureOutgoingEntry a).ensureOutgoingEntry b).insert_halfedge b a).1.vertices.get a).isSome := by
        rw [insert_halfedge_vertices, hBv]
        exact hva
      have hvbC : ((((m.ensureOutgoingEntry a).ensureOutgoingEntry b).insert_halfedge b a).1.vertices.get b).isSome := by
        rw [insert_halfedge_vertices, hBv]
        exact hvb
      exact finishEdge_settled hab hne hla hfA hlb hfB hge1C hee1 hCfresh rfl hvaC hvbC
  | none =>
    cases ho2 : findHeTo m ((m.outgoing_halfedges.get b).getD []) a with
    | some h2 =>
      obtain ⟨hm2, e2, hge2, hee2⟩ := findHeTo_eq_some_spec ho2
      have hgeB2 : ((m.ensureOutgoingEntry a).ensureOutgoingEntry b).halfedges.get h2
          = some e2 := by
        rw [hBh]
        exact hge2
      have hinner := inner_eq_NS hba' ho1 ho2
      rw [insert_or_get_edge_eq_some hinner]
      have h2lt : h2 < ((m.ensureOutgoingEntry a).ensureOutgoingEntry b).halfedges.next :=
        arena_lt_next_of_get_some hwfB hgeB2
      have hCproj : ∀ x : Nat, x < m.halfedges.next →
          heProj (((m.ensureOutgoingEntry a).ensureOutgoingEntry b).insert_halfedge a b).1 x
            = heProj m x := by
        intro x hx
        rw [heProj_insert_halfedge_lt _ a b (by rw [hnextB]; exact hx), hprojB]
      have hCfresh : (((m.ensureOutgoingEntry a).ensureOutgoingEntry b).insert_halfedge a b).1.halfedges.get
            (((m.ensureOutgoingEntry a).ensureOutgoingEntry b).insert_halfedge a b).2
          = some ⟨b, none, none, none⟩ := by
        rw [insert_halfedge_snd]
        exact insert_halfedge_get_fresh hwfB a b
      have h2ltm : h2 < m.halfedges.next := by rw [← hnextB]; exact h2lt
      have hne : (((m.ensureOutgoingEntry a).ensureOutgoingEntry b).insert_halfedge a b).2 ≠ h2 := by
        rw [insert_halfedge_snd, hnextB]
        intro hc
        omega
      have hla : (((m.ensureOutgoingEntry a).ensureOutgoingEntry b).insert_halfedge a b).1.outgoing_halfedges.get a
          = some (((m.outgoing_halfedges.get a).getD [])
              ++ [(((m.ensureOutgoingEntry a).ensureOutgoingEntry b).insert_halfedge a b).2]) := by
        rw [insert_halfedge_outgoing_get, if_pos rfl, hBga, insert_halfedge_snd]
        rfl
      have hfA : findHeTo (((m.ensureOutgoingEntry a).ensureOutgoingEntry b).insert_halfedge a b).1
          (((m.outgoing_halfedges.get a).getD [])
            ++ [(((m.ensureOutgoingEntry a).ensureOutgoingEntry b).insert_halfedge a b).2]) b
          = some (((m.ensureOutgoingEntry a).ensureOutgoingEntry b).insert_halfedge a b).2 := by
        rw [findHeTo_append_none]
        · exact findHeTo_singleton_some hCfresh rfl
        · rw [findHeTo_congr b (fun x hx => hCproj x (hba x hx))]
          exact ho1
      have hlb : (((m.ensureOutgoingEntry a).ensureOutgoingEntry b).insert_halfedge a b).1.outgoing_halfedges.get b
          = some ((m.outgoing_halfedges.get b).getD []) := by
        rw [insert_halfedge_outgoing_get, if_neg hba', hBgb]
      have hfB : findHeTo (((m.ensureOutgoingEntry a).ensureOutgoingEntry b).insert_halfedge a b).1
          ((m.outgoing_halfedges.get b).getD []) a = some h2 := by
        rw [findHeTo_congr a (fun x hx => hCproj x (hbb x hx))]
        exact ho2
      have hge2C : (((m.ensureOutgoingEntry a).ensureOutgoingEntry b).insert_halfedge a b).1.halfedges.get h2
          = some e2 := by
        rw [insert_halfedge_get_lt _ a b (by rw [hnextB]; exact h2ltm)]
        exact hgeB2
      have hvaC : ((((m.ensureOutgoingEntry a).ensureOutgoingEntry b).insert_halfedge a b).1.vertices.get a).isSome := by
        rw [insert_halfedge_vertices, hBv]
        exact hva
      have hvbC : ((((m.ensureOutgoingEntry a).ensureOutgoingEntry b).insert_halfedge a b).1.vertices.get b).isSome := by
        rw [insert_halfedge_vertices, hBv]
        exact hvb
      exact finishEdge_settled hab hne hla hfA hlb hfB hCfresh rfl hge2C hee2 hvaC hvbC
    | none =>
      have hinner := inner_eq_NN hba' ho1 ho2
      rw [insert_or_get_edge_eq_none hinner]
      have hwfC : ((((m.ensureOutgoingEntry a).ensureOutgoingEntry b).insert_halfedge a b).1).halfedges.WF :=
        insert_halfedge_wf hwfB a b
      have hne : ((((m.ensureOutgoingEntry a).ensureOutgoingEntry b)).insert_halfedge a b).2
          ≠ (((((m.ensureOutgoingEntry a).ensureOutgoingEntry b)).insert_halfedge a b).1.insert_halfedge b a).2 := by
        rw [insert_halfedge_snd, insert_halfedge_snd, insert_halfedge_next]
        omega
      have hDproj : ∀ x : Nat, x < m.halfedges.next →
          heProj (((((m.ensureOutgoingEntry a).ensureOutgoingEntry b).insert_halfedge a b).1.insert_halfedge b a).1) x
            = heProj m x := by
        intro x hx
        rw [heProj_insert_halfedge_lt _ b a
            (by rw [insert_halfedge_next, hnextB]; omega),
          heProj_insert_halfedge_lt _ a b (by rw [hnextB]; exact hx), hprojB]
      have hCfresh1 : ((((m.ensureOutgoingEntry a).ensureOutgoingEntry b).insert_halfedge a b).1).halfedges.get
            ((((m.ensureOutgoingEntry a).ensureOutgoingEntry b)).insert_halfedge a b).2
          = some ⟨b, none, none, none⟩ := by
        rw [insert_halfedge_snd]
        exact insert_halfedge_get_fresh hwfB a b
      have hDg1 : (((((m.ensureOutgoingEntry a).ensureOutgoingEntry b).insert_halfedge a b).1.insert_halfedge b a).1).halfedges.get
            ((((m.ensureOutgoingEntry a).ensureOutgoingEntry b)).insert_halfedge a b).2
          = some ⟨b, none, none, none⟩ := by
        rw [insert_halfedge_get_lt _ b a
            (by rw [insert_halfedge_snd, insert_halfedge_next]; omega)]
        exact hCfresh1
      have hDfresh2 : (((((m.ensureOutgoingEntry a).ensureOutgoingEntry b).insert_halfedge a b).1.insert_halfedge b a).1).halfedges.get
            (((((m.ensureOutgoingEntry a).ensureOutgoingEntry b)).insert_halfedge a b).1.insert_halfedge b a).2
          = some ⟨a, none, none, none⟩ := by
        rw [insert_halfedge_snd]
        exact insert_halfedge_get_fresh hwfC b a
      have hla : (((((m.ensureOutgoingEntry a).ensureOutgoingEntry b).insert_halfedge a b).1.insert_halfedge b a).1).outgoing_halfedges.get a
          = some (((m.outgoing_halfedges.get a).getD [])
              ++ [((((m.ensureOutgoingEntry a).ensureOutgoingEntry b)).insert_halfedge a b).2]) := by
        rw [insert_halfedge_outgoing_get, if_neg hab, insert_halfedge_outgoing_get,
          if_pos rfl, hBga, insert_halfedge_snd]
        rfl
      have hfA : findHeTo (((((m.ensureOutgoingEntry a).ensureOutgoingEntry b).insert_halfedge a b).1.insert_halfedge b a).1)
          (((m.outgoing_halfedges.get a).getD [])
            ++ [((((m.ensureOutgoingEntry a).ensureOutgoingEntry b)).insert_halfedge a b).2]) b
          = some ((((m.ensureOutgoingEntry a).ensureOutgoingEntry b)).insert_halfedge a b).2 := by
        rw [findHeTo_append_none]
        · exact findHeTo_singleton_some hDg1 rfl
        · rw [findHeTo_congr b (fun x hx => hDproj x (hba x hx))]
          exact ho1
      have hlb : (((((m.ensureOutgoingEntry a).ensureOutgoingEntry b).insert_halfedge a b).1.insert_halfedge b a).1).outgoing_halfedges.get b
          = some (((m.outgoing_halfedges.get b).getD [])
              ++ [(((((m.ensureOutgoingEntry a).ensureOutgoingEntry b)).insert_halfedge a b).1.insert_halfedge b a).2]) := by
        rw [insert_halfedge_outgoing_get, if_pos rfl, insert_halfedge_outgoing_get,
          if_neg hba', hBgb, insert_halfedge_snd]
        rfl
      have hfB : findHeTo (((((m.ensureOutgoingEntry a).ensureOutgoingEntry b).insert_halfedge a b).1.insert_halfedge b a).1)
          (((m.outgoing_halfedges.get b).getD [])
            ++ [(((((m.ensureOutgoingEntry a).ensureOutgoingEntry b)).insert_halfedge a b).1.insert_halfedge b a).2]) a
          = some (((((m.ensureOutgoingEntry a).ensureOutgoingEntry b)).insert_halfedge a b).1.insert_halfedge b a).2 := by
        rw [findHeTo_append_none]
        · exact findHeTo_singleton_some hDfresh2 rfl
        · rw [findHeTo_congr a (fun x hx => hDproj x (hbb x hx))]
          exact ho2
      have hvaD : ((((((m.ensureOutgoingEntry a).ensureOutgoingEntry b).insert_halfedge a b).1.insert_halfedge b a).1).vertices.get a).isSome := by
        rw [insert_halfedge_vertices, insert_halfedge_vertices, hBv]
        exact hva
      have hvbD : ((((((m.ensureOutgoingEntry a).ensureOutgoingEntry b).insert_halfedge a b).1.insert_halfedge b a).1).vertices.get b).isSome := by
        rw [insert_halfedge_vertices, insert_halfedge_vertices, hBv]
        exact hvb
      exact finishEdge_settled hab hne hla hfA hlb hfB hDg1 rfl hDfresh2 rfl hvaD hvbD

end Mesh

/-- C1: on two distinct live vertices (with a well-formed halfedge arena
and adjacency lists holding only already-allocated halfedge ids), a second
`insert_or_get_edge(a,b)` call returns the identical pair of halfedge ids
with both freshness flags `false` and leaves the mesh completely unchanged
(in particular no third or duplicate halfedge between `a` and `b` is
created), and a subsequent `insert_or_get_edge(b,a)` call returns the same
pair with the start-to-end and twin roles swapped, again leaving the mesh
unchanged rather than allocating a parallel edge. -/
theorem C1_insert_or_get_edge_idempotent (m : Mesh) (a b : Nat)
    (hab : a ≠ b) (hwf : m.halfedges.WF)
    (hba : ∀ x ∈ (m.outgoing_halfedges.get a).getD [], x < m.halfedges.next)
    (hbb : ∀ x ∈ (m.outgoing_halfedges.get b).getD [], x < m.halfedges.next)
    (hva : (m.vertices.get a).isSome) (hvb : (m.vertices.get b).isSome) :
    (m.insert_or_get_edge a b).1.insert_or_get_edge a b
        = ((m.insert_or_get_edge a b).1,
           ⟨(m.insert_or_get_edge a b).2.start_to_end_he_id,
            (m.insert_or_get_edge a b).2.twin_he_id, false, false⟩)
    ∧ (m.insert_or_get_edge a b).1.insert_or_get_edge b a
        = ((m.insert_or_get_edge a b).1,
           ⟨(m.insert_or_get_edge a b).2.twin_he_id,
            (m.insert_or_get_edge a b).2.start_to_end_he_id, false, false⟩) := by
  have hs := Mesh.insert_establishes_settled m a b hab hwf hba hbb hva hvb
  exact ⟨Mesh.insert_or_get_edge_of_settled hs,
         Mesh.insert_or_get_edge_of_settled hs.swap⟩

/-- Witness mesh for C1: two isolated live vertices. -/
def c1Mesh : Mesh :=
  ⟨⟨[(0, ⟨none⟩), (1, ⟨none⟩)], 2⟩, ⟨[], 0⟩, ⟨[], 0⟩,
   ⟨[(0, (0, 0, 0)), (1, (1, 0, 0))]⟩, none, ⟨[(0, []), (1, [])]⟩, [], ⟨[]⟩, 0⟩

theorem C1_witness :
    (0 : Nat) ≠ 1 ∧ c1Mesh.halfedges.WF
    ∧ (∀ x ∈ (c1Mesh.outgoing_halfedges.get 0).getD [], x < c1Mesh.halfedges.next)
    ∧ (∀ x ∈ (c1Mesh.outgoing_halfedges.get 1).getD [], x < c1Mesh.halfedges.next)
    ∧ (c1Mesh.vertices.get 0).isSome ∧ (c1Mesh.vertices.get 1).isSome
    ∧ ((c1Mesh.insert_or_get_edge 0 1).1.insert_or_get_edge 0 1
        = ((c1Mesh.insert_or_get_edge 0 1).1,
           ⟨(c1Mesh.insert_or_get_edge 0 1).2.start_to_end_he_id,
            (c1Mesh.insert_or_get_edge 0 1).2.twin_he_id, false, false⟩)
      ∧ (c1Mesh.insert_or_get_edge 0 1).1.insert_or_get_edge 1 0
        = ((c1Mesh.insert_or_get_edge 0 1).1,
           ⟨(c1Mesh.insert_or_get_edge 0 1).2.twin_he_id,
            (c1Mesh.insert_or_get_edge 0 1).2.start_to_end_he_id, false, false⟩)) :=
  ⟨by decide, Arena.wf_of_wfb (by decide), by decide, by decide, by decide, by decide,
   C1_insert_or_get_edge_idempotent c1Mesh 0 1 (by decide)
     (Arena.wf_of_wfb (by decide)) (by decide) (by decide) (by decide) (by decide)⟩



/-! ### C3: deletion cleanliness of `delete_face` -/

theorem lookupE_of_mem_nodup {α : Type} {l : List (Nat × α)} {k : Nat} {v : α}
    (hnd : (l.map Prod.fst).Nodup) (hmem : (k, v) ∈ l) : lookupE l k = some v := by
  induction l with
  | nil => simp at hmem
  | cons p rest ih =>
    obtain ⟨k0, v0⟩ := p
    simp only [List.map_cons, List.nodup_cons] at hnd
    rcases List.mem_cons.mp hmem with heq | hmem'
    · cases heq
      simp [lookupE_cons]
    · have hk0 : k0 ≠ k := by
        intro hc
        subst hc
        exact hnd.1 (List.mem_map.mpr ⟨(k0, v), hmem', rfl⟩)
      simp only [lookupE_cons, if_neg hk0]
      exact ih hnd.2 hmem'

theorem mem_insertNew_elim {l : List Nat} {x y : Nat} (h : x ∈ insertNew l y) :
    x ∈ l ∨ x = y := by
  unfold insertNew at h
  split at h
  · exact Or.inl h
  · rcases List.mem_append.mp h with h2 | h2
    · exact Or.inl h2
    · exact Or.inr (List.mem_singleton.mp h2)

namespace Mesh

/-- Decidable twin-consistency check for one collected halfedge of face
`f`: it has a live twin whose `twin` points back and which does not itself
bound `f`. -/
def twinOkB (m : Mesh) (f : Nat) (p : Nat × Halfedge) : Bool :=
  match p.2.twin with
  | some t =>
    match m.halfedges.get t with
    | some ht => ht.twin = some p.1 && !(ht.face = some f)
    | none => false
  | none => false

/-- Loop-1 state relation: only `face`/`next` fields of the ids in `ids`
may have been rewritten; everything else (and all liveness and `twin`
fields) is as in `m`. -/
def MarkRel (m : Mesh) (ids : List Nat) (mm : Mesh) : Prop :=
  mm.vertices = m.vertices
  ∧ mm.outgoing_halfedges = m.outgoing_halfedges
  ∧ mm.faces = m.faces
  ∧ (∀ x, x ∉ ids → mm.halfedges.get x = m.halfedges.get x)
  ∧ (∀ x, ((mm.halfedges.get x).isSome = (m.halfedges.get x).isSome)
      ∧ (mm.halfedges.get x).map (·.twin) = (m.halfedges.get x).map (·.twin))

/-- A marked id is live with a live twin. -/
def DelOk (m : Mesh) (x : Nat) : Prop :=
  ∃ hex t ht, m.halfedges.get x = some hex ∧ hex.twin = some t
    ∧ m.halfedges.get t = some ht

/-- Loop 1 of `delete_face` completes without an early return and marks
only live, twin-consistent halfedges. -/
theorem dfMark_fold_ok (m : Mesh) (f : Nat) (full : List (Nat × Halfedge))
    (hfull : ∀ q ∈ full, m.halfedges.get q.1 = some q.2 ∧ q.2.face = some f)
    (htw : ∀ q ∈ full, twinOkB m f q = true) :
    ∀ (l : List (Nat × Halfedge)) (mm : Mesh) (verts del : List Nat),
      (∀ p ∈ l, p ∈ full) →
      MarkRel m (full.map Prod.fst) mm →
      (∀ x ∈ del, DelOk m x) →
      ∃ mm' del', dfold dfMark (mm, verts, del) l
          = .ok (mm', verts ++ l.map (fun p => p.2.end_vertex), del')
        ∧ MarkRel m (full.map Prod.fst) mm' ∧ (∀ x ∈ del', DelOk m x) := by
  intro l
  induction l with
  | nil =>
    intro mm verts del hsub hrel hdel
    exact ⟨mm, del, by simp [dfold], hrel, hdel⟩
  | cons p rest ih =>
    intro mm verts del hsub hrel hdel
    obtain ⟨he_id, he⟩ := p
    have hpfull := hsub _ (List.mem_cons_self _ _)
    obtain ⟨hq1, hq2⟩ := hfull _ hpfull
    have htwb := htw _ hpfull
    have hid_mem : he_id ∈ full.map Prod.fst := List.mem_map.mpr ⟨(he_id, he), hpfull, rfl⟩
    obtain ⟨hV, hO, hF, hother, hsame⟩ := hrel
    cases htwin : he.twin with
    | none =>
      simp only [twinOkB, htwin] at htwb
      exact absurd htwb (by simp)
    | some t =>
      cases hgt : m.halfedges.get t with
      | none =>
        simp only [twinOkB, htwin, hgt] at htwb
        exact absurd htwb (by simp)
      | some ht =>
        simp only [twinOkB, htwin, hgt, Bool.and_eq_true] at htwb
        obtain ⟨httwin0, htface0⟩ := htwb
        have httwin : ht.twin = some he_id := by simpa using httwin0
        have htface : ¬(ht.face = some f) := by simpa using htface0
        have htnot : t ∉ full.map Prod.fst := by
          intro hmem
          obtain ⟨q, hqmem, hq⟩ := List.mem_map.mp hmem
          obtain ⟨hq1', hq2'⟩ := hfull _ hqmem
          rw [hq] at hq1'
          rw [hgt] at hq1'
          have : ht = q.2 := Option.some.inj hq1'
          subst this
          exact htface hq2'
        have hgt_mm : mm.halfedges.get t = some ht := by
          rw [hother t htnot]
          exact hgt
        cases hb : ht.is_boundary with
        | true =>
          have hstep : dfMark (mm, verts, del) (he_id, he)
              = .ok (mm, verts ++ [he.end_vertex], insertNew (insertNew del he_id) t) := by
            simp only [dfMark, htwin, hgt_mm, hb, if_true]
          have hdel' : ∀ x ∈ insertNew (insertNew del he_id) t, DelOk m x := by
            intro x hx
            rcases mem_insertNew_elim hx with hx2 | hx2
            · rcases mem_insertNew_elim hx2 with hx3 | hx3
              · exact hdel x hx3
              · subst hx3
                exact ⟨he, t, ht, hq1, htwin, hgt⟩
            · subst hx2
              exact ⟨ht, he_id, he, hgt, httwin, hq1⟩
          obtain ⟨mm', del', heq, hrel', hdelF⟩ :=
            ih mm (verts ++ [he.end_vertex]) (insertNew (insertNew del he_id) t)
              (fun p hp => hsub p (List.mem_cons_of_mem _ hp))
              ⟨hV, hO, hF, hother, hsame⟩ hdel'
          refine ⟨mm', del', ?_, hrel', hdelF⟩
          rw [dfold, hstep]
          simp only [heq, List.map_cons]
          simp
        | false =>
          have hneg : ¬(ht.twin ≠ some he_id) := by
            rw [httwin]
            simp
          have hstep : dfMark (mm, verts, del) (he_id, he)
              = .ok ({ mm with halfedges :=
                  mm.halfedges.modify he_id (fun h => { h with face := none, next := none }) },
                verts ++ [he.end_vertex], del) := by
            simp only [dfMark, htwin, hgt_mm, hb, Bool.false_eq_true, if_false, if_neg hneg]
          have hrel2 : MarkRel m (full.map Prod.fst)
              { mm with halfedges :=
                  mm.halfedges.modify he_id (fun h => { h with face := none, next := none }) } := by
            refine ⟨hV, hO, hF, ?_, ?_⟩
            · intro x hx
              have hxne : x ≠ he_id := fun hc => hx (hc ▸ hid_mem)
              rw [show ({ mm with halfedges :=
                    mm.halfedges.modify he_id (fun h => { h with face := none, next := none }) } : Mesh).halfedges
                  = mm.halfedges.modify he_id (fun h => { h with face := none, next := none }) from rfl,
                Arena.get_modify, if_neg hxne]
              exact hother x hx
            · intro x
              rw [show ({ mm with halfedges :=
                    mm.halfedges.modify he_id (fun h => { h with face := none, next := none }) } : Mesh).halfedges
                  = mm.halfedges.modify he_id (fun h => { h with face := none, next := none }) from rfl,
                Arena.get_modify]
              by_cases hx : x = he_id
              · subst hx
                obtain ⟨hs1, hs2⟩ := hsame x
                constructor
                · rw [if_pos rfl, ← hs1]
                  cases mm.halfedges.get x <;> simp
                · rw [if_pos rfl, ← hs2]
                  cases mm.halfedges.get x <;> simp
              · rw [if_neg hx]
                exact hsame x
          obtain ⟨mm', del', heq, hrel', hdelF⟩ :=
            ih _ (verts ++ [he.end_vertex]) del
              (fun p hp => hsub p (List.mem_cons_of_mem _ hp)) hrel2 hdel
          refine ⟨mm', del', ?_, hrel', hdelF⟩
          rw [dfold, hstep]
          simp only [heq, List.map_cons]
          simp

/-- Loop 2 of `delete_face` completes (distinct end vertices with standing
adjacency entries) and every vertex it deletes is dead afterwards. -/
theorem dfDeleteVertex_fold_ok (m : Mesh) (del : List Nat) :
    ∀ (l : List Nat) (mm : Mesh) (dv : List Nat),
      l.Nodup →
      (∀ v ∈ l, (m.outgoing_halfedges.get v).isSome) →
      (∀ v ∈ l, mm.outgoing_halfedges.get v = m.outgoing_halfedges.get v) →
      (∀ v ∈ dv, mm.vertices.get v = none) →
      ∃ mm' dv', dfold (dfDeleteVertex del) (mm, dv) l = .ok (mm', dv')
        ∧ mm'.halfedges = mm.halfedges ∧ mm'.faces = mm.faces
        ∧ (∀ v ∈ dv', mm'.vertices.get v = none) := by
  intro l
  induction l with
  | nil =>
    intro mm dv _ _ _ hdv
    exact ⟨mm, dv, by simp [dfold], rfl, rfl, hdv⟩
  | cons v rest ih =>
    intro mm dv hnd hout hfresh hdv
    have hvout : (m.outgoing_halfedges.get v).isSome := hout v (List.mem_cons_self _ _)
    obtain ⟨outs, houts⟩ := Option.isSome_iff_exists.mp hvout
    have hmm_out : mm.outgoing_halfedges.get v = some outs := by
      rw [hfresh v (List.mem_cons_self _ _)]
      exact houts
    rw [List.nodup_cons] at hnd
    cases hall : outs.all (fun he_id => decide (he_id ∈ del)) with
    | true =>
      have hstep : dfDeleteVertex del (mm, dv) v
          = .ok (mm.delete_only_vertex v, dv ++ [v]) := by
        simp only [dfDeleteVertex, hmm_out, hall, if_true]
      have hfresh' : ∀ w ∈ rest,
          (mm.delete_only_vertex v).outgoing_halfedges.get w
            = m.outgoing_halfedges.get w := by
        intro w hw
        have hwv : ¬(w = v) := fun hc => hnd.1 (hc ▸ hw)
        show ((mm.outgoing_halfedges.remove v).get w) = _
        rw [SMap.remove_get, if_neg hwv]
        exact hfresh w (List.mem_cons_of_mem _ hw)
      have hdv' : ∀ w ∈ dv ++ [v], (mm.delete_only_vertex v).vertices.get w = none := by
        intro w hw
        show ((mm.vertices.remove v).get w) = none
        rw [Arena.get_remove]
        rcases List.mem_append.mp hw with hw2 | hw2
        · by_cases hwv : w = v
          · simp [hwv]
          · rw [if_neg hwv]
            exact hdv w hw2
        · simp [List.mem_singleton.mp hw2]
      obtain ⟨mm', dv', heq, hh, hf2, hdvF⟩ :=
        ih (mm.delete_only_vertex v) (dv ++ [v]) hnd.2
          (fun w hw => hout w (List.mem_cons_of_mem _ hw)) hfresh' hdv'
      refine ⟨mm', dv', ?_, ?_, ?_, hdvF⟩
      · rw [dfold, hstep]
        exact heq
      · rw [hh]
        rfl
      · rw [hf2]
        rfl
    | false =>
      have hstep : dfDeleteVertex del (mm, dv) v = .ok (mm, dv) := by
        simp only [dfDeleteVertex, hmm_out, hall, Bool.false_eq_true, if_false]
      obtain ⟨mm', dv', heq, hh, hf2, hdvF⟩ :=
        ih mm dv hnd.2 (fun w hw => hout w (List.mem_cons_of_mem _ hw))
          (fun w hw => hfresh w (List.mem_cons_of_mem _ hw)) hdv
      exact ⟨mm', dv', by rw [dfold, hstep]; exact heq, hh, hf2, hdvF⟩

/-- Loop 3 of `delete_face` completes: every marked halfedge is still live
with a live twin, so the canonical-outgoing repair never early-returns; it
only rewrites vertex records. -/
theorem dfFixOutgoing_fold_ok (del : List Nat) :
    ∀ (l : List Nat) (mm : Mesh),
      (∀ x ∈ l, ∃ hex t, mm.halfedges.get x = some hex ∧ hex.twin = some t
          ∧ (mm.halfedges.get t).isSome) →
      ∃ mm', dfold (dfFixOutgoing del) mm l = .ok mm'
        ∧ mm'.halfedges = mm.halfedges ∧ mm'.faces = mm.faces
        ∧ mm'.outgoing_halfedges = mm.outgoing_halfedges
        ∧ (∀ v, mm.vertices.get v = none → mm'.vertices.get v = none) := by
  intro l
  induction l with
  | nil =>
    intro mm _
    exact ⟨mm, by simp [dfold], rfl, rfl, rfl, fun v h => h⟩
  | cons x rest ih =>
    intro mm hlive
    obtain ⟨hex, t, hgx, hxt, hts⟩ := hlive x (List.mem_cons_self _ _)
    obtain ⟨hte, hgt⟩ := Option.isSome_iff_exists.mp hts
    have hsv : hex.start_vertex mm = some hte.end_vertex := by
      unfold Halfedge.start_vertex
      rw [hxt]
      simp [hgt]
    cases hgv : mm.vertices.get hte.end_vertex with
    | none =>
      have hstep : dfFixOutgoing del mm x = .ok mm := by
        simp only [dfFixOutgoing, hgx, hsv, hgv]
      obtain ⟨mm', heq, hh, hf2, ho2, hv2⟩ :=
        ih mm (fun y hy => hlive y (List.mem_cons_of_mem _ hy))
      exact ⟨mm', by rw [dfold, hstep]; exact heq, hh, hf2, ho2, hv2⟩
    | some vrec =>
      have hstep : dfFixOutgoing del mm x = .ok { mm with vertices := mm.vertices.modify hte.end_vertex (fun _ => { vrec with outgoing_halfedge := (vrec.outgoingHalfedgesList mm).find? (fun id => decide (id ∉ del)) }) } := by
        simp only [dfFixOutgoing, hgx, hsv, hgv]
      have hlive' : ∀ y ∈ rest, ∃ hey ty, ({ mm with vertices := mm.vertices.modify hte.end_vertex (fun _ => { vrec with outgoing_halfedge := (vrec.outgoingHalfedgesList mm).find? (fun id => decide (id ∉ del)) }) } : Mesh).halfedges.get y = some hey ∧ hey.twin = some ty ∧ (({ mm with vertices := mm.vertices.modify hte.end_vertex (fun _ => { vrec with outgoing_halfedge := (vrec.outgoingHalfedgesList mm).find? (fun id => decide (id ∉ del)) }) } : Mesh).halfedges.get ty).isSome := by
        intro y hy
        exact hlive y (List.mem_cons_of_mem _ hy)
      obtain ⟨mm', heq, hh, hf2, ho2, hv2⟩ := ih _ hlive'
      refine ⟨mm', by rw [dfold, hstep]; exact heq, by rw [hh], by rw [hf2], by rw [ho2], ?_⟩
      intro v hv
      apply hv2
      show (mm.vertices.modify _ _).get v = none
      rw [Arena.get_modify]
      by_cases hvv : v = hte.end_vertex
      · subst hvv
        rw [hgv] at hv
        exact absurd hv (by simp)
      · rw [if_neg hvv]
        exact hv

/-- The inner adjacency-scrub fold of `dfRemoveHe` only touches the
adjacency map. -/
theorem dfRemoveHe_inner_proj (he_id : Nat) :
    ∀ (lv : List Nat) (acc : Mesh),
      ((lv.foldl (fun acc v =>
          match acc.outgoing_halfedges.get v with
          | some outs =>
            { acc with outgoing_halfedges :=
                acc.outgoing_halfedges.insert v (outs.filter (· ≠ he_id)) }
          | none => acc) acc).halfedges = acc.halfedges)
      ∧ ((lv.foldl (fun acc v =>
          match acc.outgoing_halfedges.get v with
          | some outs =>
            { acc with outgoing_halfedges :=
                acc.outgoing_halfedges.insert v (outs.filter (· ≠ he_id)) }
          | none => acc) acc).faces = acc.faces)
      ∧ ((lv.foldl (fun acc v =>
          match acc.outgoing_halfedges.get v with
          | some outs =>
            { acc with outgoing_halfedges :=
                acc.outgoing_halfedges.insert v (outs.filter (· ≠ he_id)) }
          | none => acc) acc).vertices = acc.vertices) := by
  intro lv
  induction lv with
  | nil => intro acc; exact ⟨rfl, rfl, rfl⟩
  | cons v rest ih =>
    intro acc
    simp only [List.foldl_cons]
    cases hg : acc.outgoing_halfedges.get v with
    | none =>
      simp only [hg]
      exact ih acc
    | some outs =>
      simp only [hg]
      obtain ⟨h1, h2, h3⟩ := ih { acc with outgoing_halfedges := acc.outgoing_halfedges.insert v (outs.filter (· ≠ he_id)) }
      exact ⟨h1, h2, h3⟩

theorem dfRemoveHe_proj (verts : List Nat) (mm : Mesh) (he_id : Nat) :
    (dfRemoveHe verts mm he_id).halfedges = mm.halfedges.remove he_id
    ∧ (dfRemoveHe verts mm he_id).faces = mm.faces
    ∧ (dfRemoveHe verts mm he_id).vertices = mm.vertices := by
  unfold dfRemoveHe
  obtain ⟨h1, h2, h3⟩ := dfRemoveHe_inner_proj he_id verts
    { mm with halfedges := mm.halfedges.remove he_id }
  exact ⟨h1, h2, h3⟩

/-- Loop 4 of `delete_face`: after the removal fold every listed halfedge
id is dead, and faces/vertices are untouched. -/
theorem dfRemoveHe_fold (verts : List Nat) :
    ∀ (l : List Nat) (mm : Mesh),
      ((l.foldl (dfRemoveHe verts) mm).faces = mm.faces)
      ∧ ((l.foldl (dfRemoveHe verts) mm).vertices = mm.vertices)
      ∧ (∀ x, mm.halfedges.get x = none → (l.foldl (dfRemoveHe verts) mm).halfedges.get x = none)
      ∧ (∀ x ∈ l, (l.foldl (dfRemoveHe verts) mm).halfedges.get x = none) := by
  intro l
  induction l with
  | nil => intro mm; exact ⟨rfl, rfl, fun x h => h, by simp⟩
  | cons h rest ih =>
    intro mm
    simp only [List.foldl_cons]
    obtain ⟨hp1, hp2, hp3⟩ := dfRemoveHe_proj verts mm h
    obtain ⟨ih1, ih2, ih3, ih4⟩ := ih (dfRemoveHe verts mm h)
    refine ⟨by rw [ih1, hp2], by rw [ih2, hp3], ?_, ?_⟩
    · intro x hx
      apply ih3
      rw [hp1, Arena.get_remove]
      by_cases hxh : x = h
      · simp [hxh]
      · rw [if_neg hxh]
        exact hx
    · intro x hx
      rcases List.mem_cons.mp hx with hx2 | hx2
      · subst hx2
        apply ih3
        rw [hp1, Arena.get_remove, if_pos rfl]
      · exact ih4 x hx2

/-- C3 (amended): under the structural sanity conditions the code itself
assumes — unique arena keys, a live face whose collected halfedges all
have live back-pointing twins bounding other faces, and distinct corner
vertices with standing adjacency entries — `delete_face` returns normally
and is clean: the face id is gone from the face arena, every returned
vertex id is gone from the vertex arena and every returned halfedge id is
gone from the halfedge arena.  Without these conditions the
`unwrap_or_return!` early exits return normally with the face still
present (see the counterexample). -/
theorem C3_delete_face_cleanliness (m : Mesh) (f : Nat)
    (H0 : (m.halfedges.entries.map Prod.fst).Nodup)
    (H1 : (m.faces.get f).isSome)
    (H2 : ∀ p ∈ m.halfedges.entries.filter (fun p => p.2.face = some f),
        twinOkB m f p = true)
    (H3 : ((m.halfedges.entries.filter (fun p => p.2.face = some f)).map
        (fun p => p.2.end_vertex)).Nodup)
    (H4 : ∀ p ∈ m.halfedges.entries.filter (fun p => p.2.face = some f),
        (m.outgoing_halfedges.get p.2.end_vertex).isSome) :
    ∃ m' dverts del, m.delete_face f = some (m', dverts, del)
      ∧ m'.faces.get f = none
      ∧ (∀ v ∈ dverts, m'.vertices.get v = none)
      ∧ (∀ h ∈ del, m'.halfedges.get h = none) := by
  have hfull : ∀ q ∈ m.halfedges.entries.filter (fun p => p.2.face = some f),
      m.halfedges.get q.1 = some q.2 ∧ q.2.face = some f := by
    intro q hq
    have hqm := List.mem_of_mem_filter hq
    have hqf := List.of_mem_filter hq
    exact ⟨lookupE_of_mem_nodup H0 hqm, by simpa using hqf⟩
  obtain ⟨mm1, del1, hfold1, hrel1, hdel1⟩ :=
    dfMark_fold_ok m f (m.halfedges.entries.filter (fun p => p.2.face = some f)) hfull H2
      (m.halfedges.entries.filter (fun p => p.2.face = some f)) m [] []
      (fun p hp => hp) ⟨rfl, rfl, rfl, fun x _ => rfl, fun x => ⟨rfl, rfl⟩⟩
      (fun x hx => absurd hx (List.not_mem_nil x))
  rw [List.nil_append] at hfold1
  obtain ⟨hV1, hO1, hF1, hother1, hsame1⟩ := hrel1
  obtain ⟨mm2, dv2, hfold2, hh2, hf2, hdv2⟩ :=
    dfDeleteVertex_fold_ok m del1
      ((m.halfedges.entries.filter (fun p => p.2.face = some f)).map
        (fun p => p.2.end_vertex)) mm1 [] H3
      (by
        intro v hv
        obtain ⟨p, hp, hpe⟩ := List.mem_map.mp hv
        rw [← hpe]
        exact H4 p hp)
      (by
        intro v _
        rw [hO1])
      (fun v hv => absurd hv (List.not_mem_nil v))
  obtain ⟨mm3, hfold3, hh3, hf3, ho3, hv3⟩ :=
    dfFixOutgoing_fold_ok del1 del1 mm2
      (by
        intro x hx
        obtain ⟨hex, t, ht, hgx, hxt, hgt⟩ := hdel1 x hx
        obtain ⟨hs1x, hs2x⟩ := hsame1 x
        obtain ⟨hs1t, hs2t⟩ := hsame1 t
        have hx_some : (mm2.halfedges.get x).isSome := by
          rw [hh2, hs1x, hgx]
          rfl
        obtain ⟨hex2, hgx2⟩ := Option.isSome_iff_exists.mp hx_some
        have htw2 : hex2.twin = hex.twin := by
          have := hs2x
          rw [hgx] at this
          rw [← hh2] at this
          rw [hgx2] at this
          exact Option.some.inj this
        refine ⟨hex2, t, hgx2, by rw [htw2, hxt], ?_⟩
        rw [hh2, hs1t, hgt]
        rfl)
  obtain ⟨h41, h42, h43, h44⟩ :=
    dfRemoveHe_fold
      ((m.halfedges.entries.filter (fun p => p.2.face = some f)).map
        (fun p => p.2.end_vertex)) del1 mm3
  obtain ⟨face, hfaceq⟩ := Option.isSome_iff_exists.mp H1
  have hm4faces : ((del1.foldl (dfRemoveHe
      ((m.halfedges.entries.filter (fun p => p.2.face = some f)).map
        (fun p => p.2.end_vertex))) mm3)).faces.get f = some face := by
    rw [h41, hf3, hf2, hF1]
    exact hfaceq
  refine ⟨{ (del1.foldl (dfRemoveHe ((m.halfedges.entries.filter (fun p => p.2.face = some f)).map (fun p => p.2.end_vertex))) mm3) with bvh := bvhRemove (del1.foldl (dfRemoveHe ((m.halfedges.entries.filter (fun p => p.2.face = some f)).map (fun p => p.2.end_vertex))) mm3).bvh face.index, faces := (del1.foldl (dfRemoveHe ((m.halfedges.entries.filter (fun p => p.2.face = some f)).map (fun p => p.2.end_vertex))) mm3).faces.remove f }, dv2, del1, ?_, ?_, ?_, ?_⟩
  · show m.delete_face f = _
    simp only [delete_face, hfold1, hfold2, hfold3, hm4faces]
  · show ((((del1.foldl (dfRemoveHe
        ((m.halfedges.entries.filter (fun p => p.2.face = some f)).map
          (fun p => p.2.end_vertex))) mm3)).faces.remove f).get f) = none
    rw [Arena.get_remove, if_pos rfl]
  · intro v hv
    show ((del1.foldl (dfRemoveHe
        ((m.halfedges.entries.filter (fun p => p.2.face = some f)).map
          (fun p => p.2.end_vertex))) mm3)).vertices.get v = none
    rw [h42]
    exact hv3 v (hdv2 v hv)
  · intro h hh
    show ((del1.foldl (dfRemoveHe
        ((m.halfedges.entries.filter (fun p => p.2.face = some f)).map
          (fun p => p.2.end_vertex))) mm3)).halfedges.get h = none
    exact h44 h hh

end Mesh

/-- Counterexample mesh for C3: a triangle face glued onto three twinless
halfedges via the public primitives `insert_vertex`, `insert_halfedge`
and `insert_face`. -/
def c3Mesh : Mesh :=
  let r1 := Mesh.empty.insert_vertex (0, 0, 0)
  let r2 := r1.1.insert_vertex (1, 0, 0)
  let r3 := r2.1.insert_vertex (0, 1, 0)
  let r4 := r3.1.insert_halfedge r1.2 r2.2
  let r5 := r4.1.insert_halfedge r2.2 r3.2
  let r6 := r5.1.insert_halfedge r3.2 r1.2
  (r6.1.insert_face r4.2 r5.2 r6.2).1

/-- C3 counterexample: on a face whose halfedges have no twins,
`delete_face` hits the `unwrap_or_return!` early exit: it returns
normally with empty deleted-vertex/halfedge lists while the face is still
present in the face arena. -/
theorem C3_counterexample_early_return_keeps_face :
    ((Mesh.delete_face c3Mesh 0).map
        (fun r => ((r.1.faces.get 0).isSome, r.1.faces.len, r.2.1, r.2.2)))
      = some (true, 1, [], []) := by
  decide

/-- Witness mesh for C3: a proper triangle created by
`create_face_from_positions` on the empty mesh. -/
def c3GoodMesh : Mesh :=
  (Mesh.empty.create_face_from_positions (0, 0, 0) (1, 0, 0) (0, 1, 0)).1

theorem C3_witness :
    ((c3GoodMesh.halfedges.entries.map Prod.fst).Nodup
      ∧ (c3GoodMesh.faces.get 0).isSome
      ∧ (∀ p ∈ c3GoodMesh.halfedges.entries.filter (fun p => p.2.face = some 0),
          c3GoodMesh.twinOkB 0 p = true)
      ∧ ((c3GoodMesh.halfedges.entries.filter (fun p => p.2.face = some 0)).map
          (fun p => p.2.end_vertex)).Nodup
      ∧ (∀ p ∈ c3GoodMesh.halfedges.entries.filter (fun p => p.2.face = some 0),
          (c3GoodMesh.outgoing_halfedges.get p.2.end_vertex).isSome))
    ∧ (∃ m' dverts del, c3GoodMesh.delete_face 0 = some (m', dverts, del)
        ∧ m'.faces.get 0 = none
        ∧ (∀ v ∈ dverts, m'.vertices.get v = none)
        ∧ (∀ h ∈ del, m'.halfedges.get h = none)) :=
  ⟨⟨by decide, by decide, by decide, by decide, by decide⟩,
   Mesh.C3_delete_face_cleanliness c3GoodMesh 0 (by decide) (by decide) (by decide)
     (by decide) (by decide)⟩


/-! ### C7: the collapse gating heuristic and its driver -/

namespace Mesh

theorem fanStep_congr {m m' : Mesh} (h : m'.halfedges = m.halfedges) :
    fanStep m' = fanStep m := by
  funext x
  unfold fanStep Halfedge.cw_rotated_neighbour
  rw [h]

theorem ccNeighbours_congr {m m' : Mesh} (h : m'.halfedges = m.halfedges) (c : Nat) :
    m'.ccNeighbours c = m.ccNeighbours c := by
  unfold ccNeighbours
  rw [h]

/-- `ccNeighbours` agrees with the consumed form of
`Vertex::outgoing_halfedges` on the canonical-halfedge vertex record. -/
theorem ccNeighbours_eq_fan (m : Mesh) (c : Nat) :
    m.ccNeighbours c
      = ((Vertex.outgoingHalfedgesList ⟨some c⟩ m).drop 2).filterMap
          (fun he_id => (m.halfedges.get he_id).map (·.end_vertex)) := by
  unfold ccNeighbours fanNeighboursH Vertex.outgoingHalfedgesList Mesh.fuel
  have hstep : (fun h => (m.halfedges.get h).bind
        (fun hh => hh.twin.bind (fun t => (m.halfedges.get t).bind (·.next))))
      = fanStep m := by
    funext x
    unfold fanStep Halfedge.cw_rotated_neighbour
    rfl
  rw [hstep]

/-- Acceptance of the neighbour loop bounds every neighbour's squared
distance from the midpoint by `maxLenSq`. -/
theorem ccLoop_accept_bounds (nrm : Vec3 → Vec3) (m : Mesh) (center normal : Vec3)
    (maxLenSq : ℚ) :
    ∀ (ns : List Nat) (prev : Vec3),
      m.ccLoop nrm center normal maxLenSq prev ns = some () →
      ∀ n ∈ ns, ∃ p, m.positions.get n = some p
        ∧ vlenSq (vsub p center) ≤ maxLenSq := by
  intro ns
  induction ns with
  | nil => intro prev _ n hn; simp at hn
  | cons n rest ih =>
    intro prev hloop x hx
    rw [ccLoop] at hloop
    cases hp : m.positions.get n with
    | none => simp [hp] at hloop
    | some p =>
      simp only [hp] at hloop
      by_cases hfar : maxLenSq < vlenSq (vsub p center)
      · rw [if_pos hfar] at hloop
        exact absurd hloop (by simp)
      · rw [if_neg hfar] at hloop
        by_cases hwedge : vdot (vcross (nrm (vsub p center)) prev) normal < 1 / 10
        · rw [if_pos hwedge] at hloop
          exact absurd hloop (by simp)
        · rw [if_neg hwedge] at hloop
          rcases List.mem_cons.mp hx with hx2 | hx2
          · subst hx2
            exact ⟨p, hp, not_lt.mp hfar⟩
          · exact ih (vsub p center) hloop x hx2

/-- The fold of `selectCandidate` only ever reports a halfedge on which
`can_collapse_edge` returned `true`. -/
theorem selectFold_spec (nrm : Vec3 → Vec3) (mls : ℚ) :
    ∀ (cands : List (Nat × ℚ)) (mm : Mesh) (ml : ℚ) (mh : Option Nat),
      (∀ h, mh = some h → ∃ (m₀ m₁ : Mesh), Mesh.can_collapse_edge nrm m₀ h mls = (m₁, true)) →
      ∀ h, (cands.foldl (fun (acc : Mesh × ℚ × Option Nat) (c : Nat × ℚ) =>
          let (mm, min_len, min_he) := acc
          if c.2 < min_len then
            let (mm, ok) := mm.can_collapse_edge nrm c.1 mls
            if ok then (mm, c.2, some c.1) else (mm, min_len, min_he)
          else (mm, min_len, min_he)) (mm, ml, mh)).2.2 = some h →
        ∃ (m₀ m₁ : Mesh), Mesh.can_collapse_edge nrm m₀ h mls = (m₁, true) := by
  intro cands
  induction cands with
  | nil =>
    intro mm ml mh hinv h hres
    exact hinv h hres
  | cons c rest ih =>
    intro mm ml mh hinv h hres
    rw [List.foldl_cons] at hres
    by_cases hlt : c.2 < ml
    · rcases hcan : mm.can_collapse_edge nrm c.1 mls with ⟨mm2, okv⟩
      cases okv with
      | true =>
        simp only [if_pos hlt, hcan, if_true] at hres
        refine ih mm2 c.2 (some c.1) ?_ h hres
        intro h2 hh2
        have : c.1 = h2 := Option.some.inj hh2
        subst this
        exact ⟨mm, mm2, hcan⟩
      | false =>
        simp only [if_pos hlt, hcan, Bool.false_eq_true, if_false] at hres
        exact ih mm2 ml mh hinv h hres
    · simp only [if_neg hlt] at hres
      exact ih mm ml mh hinv h hres

theorem selectCandidate_spec (nrm : Vec3 → Vec3) (mls : ℚ) (m m' : Mesh)
    (cands : List (Nat × ℚ)) (h : Nat)
    (hsel : m.selectCandidate nrm mls cands = (m', some h)) :
    ∃ (m₀ m₁ : Mesh), Mesh.can_collapse_edge nrm m₀ h mls = (m₁, true) := by
  have hres : (cands.foldl (fun (acc : Mesh × ℚ × Option Nat) (c : Nat × ℚ) =>
      let (mm, min_len, min_he) := acc
      if c.2 < min_len then
        let (mm, ok) := mm.can_collapse_edge nrm c.1 mls
        if ok then (mm, c.2, some c.1) else (mm, min_len, min_he)
      else (mm, min_len, min_he)) (m, f32MAX, none)).2.2 = some h := by
    have := congrArg Prod.snd hsel
    exact this
  exact selectFold_spec nrm mls cands m f32MAX none (fun h2 hh2 => by simp at hh2) h hres

/-- Every halfedge in the trace of `collapseLoop` passed
`can_collapse_edge`. -/
theorem collapseLoop_trace (nrm : Vec3 → Vec3) (mls : ℚ) :
    ∀ (fuel : Nat) (m : Mesh) (sel : Selection) (cands : List (Nat × ℚ))
      (trace : List Nat),
      (∀ h ∈ trace, ∃ (m₀ m₁ : Mesh), Mesh.can_collapse_edge nrm m₀ h mls = (m₁, true)) →
      ∀ h ∈ (collapseLoop nrm mls fuel m sel cands trace).1,
        ∃ (m₀ m₁ : Mesh), Mesh.can_collapse_edge nrm m₀ h mls = (m₁, true) := by
  intro fuel
  induction fuel with
  | zero =>
    intro m sel cands trace htrace h hh
    rw [collapseLoop] at hh
    exact htrace h hh
  | succ fuel ih =>
    intro m sel cands trace htrace h hh
    rw [collapseLoop] at hh
    by_cases hemp : cands.isEmpty
    · rw [if_pos hemp] at hh
      exact htrace h hh
    · rw [if_neg hemp] at hh
      rcases hsel : m.selectCandidate nrm mls cands with ⟨m2, o⟩
      cases o with
      | none =>
        simp only [hsel] at hh
        exact htrace h hh
      | some mh =>
        have hP := selectCandidate_spec nrm mls m m2 cands mh hsel
        have htrace' : ∀ x ∈ trace ++ [mh],
            ∃ (m₀ m₁ : Mesh), Mesh.can_collapse_edge nrm m₀ x mls = (m₁, true) := by
          intro x hx
          rcases List.mem_append.mp hx with hx2 | hx2
          · exact htrace x hx2
          · rw [List.mem_singleton.mp hx2]
            exact hP
        simp only [hsel] at hh
        cases hget : m2.halfedges.get mh with
        | none =>
          simp only [hget] at hh
          exact htrace h hh
        | some heV =>
          simp only [hget] at hh
          cases hcol : m2.collapse_edge mh with
          | none =>
            simp only [hcol] at hh
            exact htrace' h hh
          | some r =>
            obtain ⟨m3, verts, hes, faces⟩ := r
            simp only [hcol] at hh
            cases hsv : heV.start_vertex m2 with
            | some sv =>
              simp only [hsv] at hh
              exact ih _ _ _ _ htrace' h hh
            | none =>
              simp only [hsv] at hh
              exact ih _ _ _ _ htrace' h hh

/-- Acceptance of `can_collapse_edge` bounds every gathered fan neighbour
within `5 * mls` (squared) of the collapse midpoint. -/
theorem can_collapse_accept_bounds (nrm : Vec3 → Vec3) (mls : ℚ) (m m₁ : Mesh) (he : Nat)
    (hacc : Mesh.can_collapse_edge nrm m he mls = (m₁, true)) :
    ∃ he_v twin_id sv_id start_pos end_pos,
      m.halfedges.get he = some he_v
      ∧ he_v.twin = some twin_id
      ∧ he_v.start_vertex m = some sv_id
      ∧ m₁.positions.get sv_id = some start_pos
      ∧ m₁.positions.get he_v.end_vertex = some end_pos
      ∧ ∀ n ∈ m₁.ccNeighbours he ++ m₁.ccNeighbours twin_id,
          ∃ p, m₁.positions.get n = some p
            ∧ vlenSq (vsub p (vsmul (1 / 2) (vadd start_pos end_pos))) ≤ mls * 5 := by
  have hm1 : (m.can_collapse_edge_inner nrm he mls).1 = m₁ := congrArg Prod.fst hacc
  have hsome : ((m.can_collapse_edge_inner nrm he mls).2).isSome = true :=
    congrArg Prod.snd hacc
  obtain ⟨u, hu⟩ := Option.isSome_iff_exists.mp hsome
  have hinner : m.can_collapse_edge_inner nrm he mls = (m₁, some ()) := by
    cases u
    rw [← hm1, ← hu]
  unfold can_collapse_edge_inner at hinner
  split at hinner
  · simp at hinner
  next he_v h1 =>
    split at hinner
    · simp at hinner
    next sv_id h2 =>
      split at hinner
      · simp at hinner
      next sv h3 =>
        split at hinner
        · simp at hinner
        next twin_id h4 =>
          repeat' (first
            | split at hinner
            | dsimp only at hinner)
          all_goals first
            | exact Option.noConfusion (Prod.mk.inj hinner).2
            | (rw [Prod.mk.injEq] at hinner
               obtain ⟨hmeq, hloop⟩ := hinner
               subst hmeq
               exact ⟨he_v, twin_id, sv_id, _, _, h1, h4, h2, by assumption, by assumption,
                 ccLoop_accept_bounds nrm _ _ _ _ _ _ hloop⟩)


end Mesh

/-- C7: the collapse gate works as described and the driver honours it:
(i) a `can_collapse_edge` acceptance bounds every fan neighbour of both
endpoints within `5 * min_length_squared` (squared) of the collapse
midpoint — so in particular any collapse that would create a neighbour
edge more than 5 times the threshold length (squared distance beyond
`25 * min_length_squared`) is rejected; (ii) a neighbour beyond the
`5 * min_length_squared` bound makes the validation loop reject;
(iii) a locally inverted or degenerate wedge — cross-product/normal-sign
test below the `0.1` tolerance — makes it reject; and (iv) every
halfedge actually collapsed by `collapse_until_edges_above_min_length`
passed `can_collapse_edge` at selection time. -/
theorem C7_collapse_gating (nrm : Vec3 → Vec3) (mls : ℚ) (hmls : 0 ≤ mls) :
    (∀ (m m₁ : Mesh) (he : Nat),
        Mesh.can_collapse_edge nrm m he mls = (m₁, true) →
        ∃ he_v twin_id sv_id start_pos end_pos,
          m.halfedges.get he = some he_v
          ∧ he_v.twin = some twin_id
          ∧ he_v.start_vertex m = some sv_id
          ∧ m₁.positions.get sv_id = some start_pos
          ∧ m₁.positions.get he_v.end_vertex = some end_pos
          ∧ ∀ n ∈ m₁.ccNeighbours he ++ m₁.ccNeighbours twin_id,
              ∃ p, m₁.positions.get n = some p
                ∧ vlenSq (vsub p (vsmul (1 / 2) (vadd start_pos end_pos))) ≤ mls * 5
                ∧ vlenSq (vsub p (vsmul (1 / 2) (vadd start_pos end_pos))) ≤ mls * 25)
    ∧ (∀ (m : Mesh) (center normal prev : Vec3) (n : Nat) (rest : List Nat) (p : Vec3),
        m.positions.get n = some p → mls * 5 < vlenSq (vsub p center) →
        Mesh.ccLoop nrm m center normal (mls * 5) prev (n :: rest) = none)
    ∧ (∀ (m : Mesh) (center normal prev : Vec3) (n : Nat) (rest : List Nat) (p : Vec3),
        m.positions.get n = some p → ¬(mls * 5 < vlenSq (vsub p center)) →
        vdot (vcross (nrm (vsub p center)) prev) normal < 1 / 10 →
        Mesh.ccLoop nrm m center normal (mls * 5) prev (n :: rest) = none)
    ∧ (∀ (fuel : Nat) (m : Mesh) (sel : Selection),
        ∀ he ∈ (Mesh.collapse_until_edges_above_min_length nrm fuel m mls sel).1,
          ∃ (m₀ m₁ : Mesh), Mesh.can_collapse_edge nrm m₀ he mls = (m₁, true)) := by
  refine ⟨?_, ?_, ?_, ?_⟩
  · intro m m₁ he hacc
    obtain ⟨he_v, twin_id, sv_id, sp, ep, e1, e2, e3, e4, e5, hbound⟩ :=
      Mesh.can_collapse_accept_bounds nrm mls m m₁ he hacc
    refine ⟨he_v, twin_id, sv_id, sp, ep, e1, e2, e3, e4, e5, ?_⟩
    intro n hn
    obtain ⟨p, hp, hle⟩ := hbound n hn
    refine ⟨p, hp, hle, ?_⟩
    linarith
  · intro m center normal prev n rest p hp hfar
    rw [Mesh.ccLoop]
    simp only [hp, if_pos hfar]
  · intro m center normal prev n rest p hp hfar hwedge
    rw [Mesh.ccLoop]
    simp only [hp, if_neg hfar, if_pos hwedge]
  · intro fuel m sel he hhe
    unfold Mesh.collapse_until_edges_above_min_length at hhe
    cases hres : sel.resolve_to_halfedges m with
    | none =>
      simp only [hres] at hhe
      simp at hhe
    | some resolved =>
      simp only [hres] at hhe
      cases hbc : m.buildCandidates mls (m.dedupByTwin resolved) [] with
      | none =>
        simp only [hbc] at hhe
        simp at hhe
      | some cands =>
        simp only [hbc] at hhe
        exact Mesh.collapseLoop_trace nrm mls fuel m sel cands []
          (fun h hh => absurd hh (List.not_mem_nil h)) he hhe

theorem C7_witness :
    (0 : ℚ) ≤ 0
    ∧ (∀ (fuel : Nat) (m : Mesh) (sel : Selection),
        ∀ he ∈ (Mesh.collapse_until_edges_above_min_length (fun v => v) fuel m 0 sel).1,
          ∃ (m₀ m₁ : Mesh), Mesh.can_collapse_edge (fun v => v) m₀ he 0 = (m₁, true)) :=
  ⟨le_refl 0, (C7_collapse_gating (fun v => v) 0 (le_refl 0)).2.2.2⟩

end MeshGraph
